import Mathlib

/-!
# Verification of the nano-orderbook matching engine

Shallow embedding of the C++ order book engine
(`src/include/order_book.hpp`, `price_level.hpp`, `order.hpp`,
`memory_pool.hpp`, `types.hpp`) and proofs of the specification claims.

Modelling conventions:
* `Price` and `Qty` are `int64_t` in the source; they are modelled as `Int`
  (the operations performed never rely on 64-bit wraparound).
  `OrderId` is `uint64_t`, modelled as `Nat`; the only arithmetic on it is
  `id % MaxOrders`.
* The intrusive doubly-linked list of a `PriceLevel` is modelled as the list
  of order ids it links, head = `front()` (oldest).  `order_cnt` and
  `total_qty` are kept as separate fields, updated exactly where the source
  updates them, so that the aggregate invariants are real theorems.
* Live `Order` records live in the pool; pointers to them are held by the
  level lists and the hash index.  The pool is modelled as a heap
  `store : Nat → Option Order` keyed by order id together with the
  `pool_used` counter; a pointer is represented by the id of the order it
  points at.  `alloc` fails exactly when `used = capacity` (the embedded
  free list has `capacity - used` nodes).  Dereferencing a dangling pointer
  is undefined behaviour in the source; the model returns from the affected
  loop in that case (the invariant proofs show the case is unreachable).
* The direct-mapped index `order_map_` is `order_map : Nat → Option Nat`
  (slot ↦ id of the order whose address is stored there), `none` outside
  `[0, MaxOrders)`.
* Unbounded `while` loops are modelled by structural recursion on a fuel
  argument chosen large enough to cover every terminating execution of the
  source loop; exhausting the fuel corresponds to a non-terminating C++
  execution.
-/

set_option maxHeartbeats 1000000

namespace NOB

/-- `Side` from `types.hpp`. -/
inductive Side : Type
  | Buy
  | Sell
deriving DecidableEq, Repr

/-- `OrdType` from `types.hpp`. -/
inductive OrdType : Type
  | Limit
  | Market
  | IOC
deriving DecidableEq, Repr

/-- `AddResult` from `order_book.hpp`. -/
inductive AddResult : Type
  | Ok
  | DuplicateId
  | InvalidPrice
  | PoolExhausted
  | InvalidQty
deriving DecidableEq, Repr

/-- `Order` from `order.hpp` (the intrusive `prev`/`next` links are
represented by the position of the id in its level's list). -/
structure Order : Type where
  id : Nat
  price : Int
  qty : Int
  orig_qty : Int
  side : Side
  type : OrdType
  ts : Nat
deriving DecidableEq, Repr

/-- `PriceLevel` from `price_level.hpp`: `orders` is the sequence of ids
linked from `sentinel.next` (head, oldest) to `sentinel.prev` (tail). -/
@[ext]
structure PriceLevel : Type where
  orders : List Nat
  order_cnt : Nat
  total_qty : Int
deriving DecidableEq, Repr

instance : Inhabited PriceLevel := ⟨⟨[], 0, 0⟩⟩

/-- The empty level produced by the `PriceLevel` constructor. -/
def PriceLevel.init : PriceLevel := ⟨[], 0, 0⟩

/-- `PriceLevel::push_back`. -/
def PriceLevel.push_back (lv : PriceLevel) (o : Order) : PriceLevel :=
  { orders := lv.orders ++ [o.id]
    order_cnt := lv.order_cnt + 1
    total_qty := lv.total_qty + o.qty }

/-- `PriceLevel::remove` (unlinking the node that holds order `o`; ids of
live orders are pairwise distinct, so the node is identified by `o.id`). -/
def PriceLevel.removeOrd (lv : PriceLevel) (o : Order) : PriceLevel :=
  { orders := lv.orders.erase o.id
    order_cnt := lv.order_cnt - 1
    total_qty := lv.total_qty - o.qty }

/-- `PriceLevel::reduce_qty`. -/
def PriceLevel.reduce_qty (lv : PriceLevel) (amount : Int) : PriceLevel :=
  { lv with total_qty := lv.total_qty - amount }

/-- `OrderBook` state (template parameters `MaxPrice`, `MaxOrders` are
carried as the fields `maxPrice`, `maxOrders`). -/
@[ext]
structure Book : Type where
  maxPrice : Int
  maxOrders : Nat
  levels : Int → PriceLevel
  best_bid : Int
  best_ask : Int
  total_orders : Nat
  pool_used : Nat
  order_map : Nat → Option Nat
  store : Nat → Option Order

/-- A freshly constructed `OrderBook<P, M>`. -/
def Book.init (P : Int) (M : Nat) : Book :=
  { maxPrice := P
    maxOrders := M
    levels := fun _ => PriceLevel.init
    best_bid := -1
    best_ask := P + 1
    total_orders := 0
    pool_used := 0
    order_map := fun _ => none
    store := fun _ => none }

/-! ## The direct-mapped order index (`order_map_`) -/

/-- Pointwise update of a table. -/
def tset (T : Nat → Option Nat) (i : Nat) (v : Option Nat) : Nat → Option Nat :=
  fun j => if j = i then v else T j

/-- The probing `while` loop of `OrderBook::lookup` (runs after the first
slot has been checked; terminates on a vacant slot, on a match, or when the
start slot is revisited, i.e. after at most `M - 1` iterations). -/
def lookupLoop (T : Nat → Option Nat) (M id start : Nat) :
    Nat → Nat → Option Nat
  | 0, _ => none
  | fuel + 1, idx =>
    if idx = start then none
    else
      match T idx with
      | none => none
      | some r =>
        if r = id then some idx
        else lookupLoop T M id start fuel ((idx + 1) % M)

/-- `OrderBook::lookup`, returning the slot at which the order with the
given id was found (the C++ function returns `order_map_[slot]`). -/
def lookupPos (T : Nat → Option Nat) (M id : Nat) : Option Nat :=
  match T (id % M) with
  | some r =>
    if r = id then some (id % M)
    else lookupLoop T M id (id % M) M ((id % M + 1) % M)
  | none => lookupLoop T M id (id % M) M ((id % M + 1) % M)

/-- The probing loop of `OrderBook::insert_map`: returns the slot where the
new entry is placed, or `none` when the id is already present or the table
is full. -/
def insertLoop (T : Nat → Option Nat) (M id start : Nat) :
    Nat → Nat → Option Nat
  | 0, _ => none
  | fuel + 1, idx =>
    match T idx with
    | none => some idx
    | some r =>
      if r = id then none
      else if (idx + 1) % M = start then none
      else insertLoop T M id start fuel ((idx + 1) % M)

/-- `OrderBook::insert_map` (the argument is the id of the order whose
address is inserted).  `none` = the C++ function returned `false`. -/
def insert_map (T : Nat → Option Nat) (M id : Nat) : Option (Nat → Option Nat) :=
  (insertLoop T M id (id % M) (M + 1) (id % M)).map fun p => tset T p (some id)

/-- The find loop of `OrderBook::remove_map` (the source loop has no
wrap-around check and diverges if the table is full and the id is absent;
fuel `M` covers every terminating execution). -/
def removeFind (T : Nat → Option Nat) (M id : Nat) :
    Nat → Nat → Option Nat
  | 0, _ => none
  | fuel + 1, idx =>
    match T idx with
    | none => none
    | some r =>
      if r = id then some idx
      else removeFind T M id fuel ((idx + 1) % M)

/-- The rehash loop of `OrderBook::remove_map`: vacate the entry at the
cursor and re-insert it, advancing until a vacant slot is reached.  The
result of the inner `insert_map` call is ignored by the source; on failure
the entry is dropped (the invariant proofs show this never happens). -/
def rehashLoop (M : Nat) : Nat → (Nat → Option Nat) → Nat → (Nat → Option Nat)
  | 0, T, _ => T
  | fuel + 1, T, next =>
    match T next with
    | none => T
    | some r =>
      let T2 := tset T next none
      let T3 :=
        match insert_map T2 M r with
        | some T4 => T4
        | none => T2
      rehashLoop M fuel T3 ((next + 1) % M)

/-- Fuel bound for the rehash loop: the loop terminates within
`Φ·M + M` steps where `Φ < M²` is the total probe displacement. -/
def rehashFuel (M : Nat) : Nat := M * M * M + M + 2

/-- `OrderBook::remove_map`. -/
def remove_map (T : Nat → Option Nat) (M id : Nat) : Nat → Option Nat :=
  match removeFind T M id M (id % M) with
  | none => T
  | some i => rehashLoop M (rehashFuel M) (tset T i none) ((i + 1) % M)

/-! ## The engine operations -/

/-- Pointwise update of the levels array. -/
def lset (L : Int → PriceLevel) (p : Int) (lv : PriceLevel) : Int → PriceLevel :=
  fun q => if q = p then lv else L q

/-- Pointwise update of the order heap. -/
def sset (S : Nat → Option Order) (id : Nat) (v : Option Order) :
    Nat → Option Order :=
  fun j => if j = id then v else S j

/-- `OrderBook::lookup` / `OrderBook::get_order`, dereferencing the stored
pointer. -/
def Book.lookup (b : Book) (id : Nat) : Option Order :=
  match lookupPos b.order_map b.maxOrders id with
  | none => none
  | some i => (b.order_map i).bind b.store

/-- `OrderBook::get_order`. -/
def Book.get_order (b : Book) (id : Nat) : Option Order := b.lookup id

/-- `OrderBook::remove_from_book`. -/
def Book.remove_from_book (b : Book) (o : Order) : Book :=
  { b with
    levels := lset b.levels o.price ((b.levels o.price).removeOrd o)
    order_map := remove_map b.order_map b.maxOrders o.id
    store := sset b.store o.id none
    pool_used := b.pool_used - 1
    total_orders := b.total_orders - 1 }

/-- The scan of `OrderBook::update_best_bid`, fuelled. -/
def bidScan (b : Book) : Nat → Int → Int
  | 0, p => p
  | fuel + 1, p =>
    if 0 ≤ p ∧ (b.levels p).order_cnt = 0 then bidScan b fuel (p - 1)
    else p

/-- `OrderBook::update_best_bid` (the scan moves `best_bid` down at most
`best_bid + 1` times before reaching the sentinel `-1`). -/
def Book.update_best_bid (b : Book) : Book :=
  { b with best_bid := bidScan b (b.best_bid + 2).toNat b.best_bid }

/-- The scan of `OrderBook::update_best_ask`, fuelled. -/
def askScan (b : Book) : Nat → Int → Int
  | 0, p => p
  | fuel + 1, p =>
    if p ≤ b.maxPrice ∧ (b.levels p).order_cnt = 0 then askScan b fuel (p + 1)
    else p

/-- `OrderBook::update_best_ask`. -/
def Book.update_best_ask (b : Book) : Book :=
  { b with best_ask := askScan b (b.maxPrice + 2 - b.best_ask).toNat b.best_ask }

/-- One level's fill loop, `OrderBook::match_level`, over the level at
price `p`.  Each iteration either fully fills (and removes) the head order
or exhausts the aggressor quantity, so `length + 1` fuel suffices. -/
def matchLevelGo (p : Int) : Nat → Book → Int → Book × Int
  | 0, b, qty => (b, qty)
  | fuel + 1, b, qty =>
    if 0 < qty ∧ (b.levels p).order_cnt ≠ 0 then
      match (b.levels p).orders.head? with
      | none => (b, qty)
      | some oid =>
        match b.store oid with
        | none => (b, qty)
        | some o =>
          let fill := min qty o.qty
          let o2 : Order := { o with qty := o.qty - fill }
          let b2 : Book :=
            { b with
              store := sset b.store oid (some o2)
              levels := lset b.levels p ((b.levels p).reduce_qty fill) }
          let qty2 := qty - fill
          if o2.qty ≤ 0 then
            matchLevelGo p fuel (b2.remove_from_book o2) qty2
          else
            matchLevelGo p fuel b2 qty2
    else (b, qty)

/-- `OrderBook::match_level` at the level of price `p`. -/
def Book.match_level (b : Book) (p : Int) (qty : Int) : Book × Int :=
  matchLevelGo p ((b.levels p).orders.length + 1) b qty

/-- The sweeping loop of `OrderBook::match_internal`, fuelled: each
iteration consumes at least one resting order or ends the sweep. -/
def matchGo (aggressor : Side) (limit : Int) :
    Nat → Book → Int → Book × Int
  | 0, b, qty => (b, qty)
  | fuel + 1, b, qty =>
    match aggressor with
    | Side.Buy =>
      if 0 < qty ∧ b.best_ask ≤ limit ∧ b.best_ask ≤ b.maxPrice then
        let pr := b.match_level b.best_ask qty
        let b3 :=
          if (pr.1.levels b.best_ask).order_cnt = 0 then pr.1.update_best_ask
          else pr.1
        matchGo aggressor limit fuel b3 pr.2
      else (b, qty)
    | Side.Sell =>
      if 0 < qty ∧ limit ≤ b.best_bid ∧ 0 ≤ b.best_bid then
        let pr := b.match_level b.best_bid qty
        let b3 :=
          if (pr.1.levels b.best_bid).order_cnt = 0 then pr.1.update_best_bid
          else pr.1
        matchGo aggressor limit fuel b3 pr.2
      else (b, qty)

/-- `OrderBook::match_internal`. -/
def Book.match_internal (b : Book) (aggressor : Side) (qty limit : Int) :
    Book × Int :=
  matchGo aggressor limit (b.total_orders + 2) b qty

/-- `OrderBook::match` (public market sweep). -/
def Book.match_order (b : Book) (aggressor : Side) (qty : Int) : Book × Int :=
  b.match_internal aggressor qty
    (match aggressor with
     | Side.Buy => b.maxPrice
     | Side.Sell => 0)

/-- `OrderBook::add`. -/
def Book.add (b : Book) (id : Nat) (side : Side) (px qty : Int)
    (type : OrdType := OrdType.Limit) (ts : Nat := 0) : Book × AddResult :=
  if (lookupPos b.order_map b.maxOrders id).isSome then (b, AddResult.DuplicateId)
  else if qty ≤ 0 then (b, AddResult.InvalidQty)
  else if px < 0 ∨ b.maxPrice < px then (b, AddResult.InvalidPrice)
  else
    let mr : Book × Int :=
      match side with
      | Side.Buy => if b.best_ask ≤ px then b.match_internal side qty px else (b, qty)
      | Side.Sell => if px ≤ b.best_bid then b.match_internal side qty px else (b, qty)
    let b1 := mr.1
    let remaining := mr.2
    if type = OrdType.IOC ∨ type = OrdType.Market then (b1, AddResult.Ok)
    else if remaining ≤ 0 then (b1, AddResult.Ok)
    else if b1.maxOrders ≤ b1.pool_used then (b1, AddResult.PoolExhausted)
    else
      match insert_map b1.order_map b1.maxOrders id with
      | none => (b1, AddResult.DuplicateId)
      | some m2 =>
        let o : Order := ⟨id, px, remaining, remaining, side, type, ts⟩
        let b2 : Book :=
          { b1 with
            store := sset b1.store id (some o)
            order_map := m2
            levels := lset b1.levels px ((b1.levels px).push_back o)
            pool_used := b1.pool_used + 1
            total_orders := b1.total_orders + 1 }
        let b3 : Book :=
          match side with
          | Side.Buy => if b2.best_bid < px then { b2 with best_bid := px } else b2
          | Side.Sell => if px < b2.best_ask then { b2 with best_ask := px } else b2
        (b3, AddResult.Ok)

/-- `OrderBook::cancel`. -/
def Book.cancel (b : Book) (id : Nat) : Book × Bool :=
  match lookupPos b.order_map b.maxOrders id with
  | none => (b, false)
  | some i =>
    match (b.order_map i).bind b.store with
    | none => (b, false)
    | some o =>
      let b2 := b.remove_from_book o
      let b3 :=
        match o.side with
        | Side.Buy => if o.price = b2.best_bid then b2.update_best_bid else b2
        | Side.Sell => if o.price = b2.best_ask then b2.update_best_ask else b2
      (b3, true)

/-- `OrderBook::bid_qty`. -/
def Book.bid_qty (b : Book) : Int :=
  if b.best_bid < 0 then 0 else (b.levels b.best_bid).total_qty

/-- `OrderBook::ask_qty`. -/
def Book.ask_qty (b : Book) : Int :=
  if b.maxPrice < b.best_ask then 0 else (b.levels b.best_ask).total_qty

/-! ## Concrete executions used by individual claims -/

/-- Spec scenario book: `MaxPrice = 10000`, `MaxOrders = 1000`, three sells
of qty 10 resting at price 100 (ids 1, 2, 3 in arrival order). -/
def fifoBook : Book :=
  (((((Book.init 10000 1000).add 1 Side.Sell 100 10).1.add
      2 Side.Sell 100 10).1.add 3 Side.Sell 100 10).1)

/-- The spec's price-time-priority scenario: `match(Buy, 15)` against
`fifoBook`. -/
def fifoRun : Book × Int := fifoBook.match_order Side.Buy 15

/-- Book with a single resting sell (id 1, price 20, qty 5) on a
`MaxPrice = 100`, `MaxOrders = 50` engine; exercises the market-order
price-cap behaviour. -/
def mktBook : Book := ((Book.init 100 50).add 1 Side.Sell 20 5).1

/-- Book with a single resting sell (id 1, price 10, qty 5); prior state of
the add-then-cancel round-trip counterexample. -/
def rtBook : Book := ((Book.init 100 50).add 1 Side.Sell 10 5).1

/-! ## Predicates on the order index -/

/-- Cyclic probe distance from slot `a` to slot `b` (for `a, b < M`). -/
def pdist (M a b : Nat) : Nat := if a ≤ b then b - a else b + M - a

/-- Slot `j` lies on the probe path from the home slot of id `r` to the
slot `i` (inclusive). -/
def onPath (M r i j : Nat) : Prop := pdist M (r % M) j ≤ pdist M (r % M) i

/-- Probe-chain continuity: every entry is reachable from its home slot
through occupied slots. -/
def Chain (T : Nat → Option Nat) (M : Nat) : Prop :=
  ∀ i r, i < M → T i = some r → ∀ j, j < M → onPath M r i j → T j ≠ none

/-- Every id occupies at most one slot. -/
def TInj (T : Nat → Option Nat) (M : Nat) : Prop :=
  ∀ i j r, i < M → j < M → T i = some r → T j = some r → i = j

/-- The id is present in the table. -/
def hasId (T : Nat → Option Nat) (M id : Nat) : Prop :=
  ∃ i, i < M ∧ T i = some id

/-- Number of occupied slots. -/
def occCard (T : Nat → Option Nat) (M : Nat) : Nat :=
  ((Finset.range M).filter fun i => (T i).isSome).card

/-- Slot `j` is forward-reachable from the rehash cursor `c` through
occupied slots (the entries still awaiting rehash). -/
def pending (T : Nat → Option Nat) (M c j : Nat) : Prop :=
  ∀ k, k < M → pdist M c k ≤ pdist M c j → T k ≠ none

/-- The probe path of the entry `r` at slot `j` is fully occupied. -/
def pathOkFull (T : Nat → Option Nat) (M j r : Nat) : Prop :=
  ∀ k, k < M → onPath M r j k → T k ≠ none

/-- The probe path of the entry `r` at slot `j` is occupied except
possibly at the hole `v`. -/
def pathOkExc (T : Nat → Option Nat) (M v j r : Nat) : Prop :=
  ∀ k, k < M → onPath M r j k → (T k ≠ none ∨ k = v)

/-- Invariant of the rehash loop of `remove_map`: cursor `c`, hole `v`;
entries not forward-reachable from the cursor have intact probe chains,
entries awaiting rehash may have their chain broken only at the hole. -/
def RInv (T : Nat → Option Nat) (M c v : Nat) : Prop :=
  c < M ∧ v < M ∧ T v = none ∧ TInj T M ∧
  (∀ j r, j < M → T j = some r → ¬pending T M c j → pathOkFull T M j r) ∧
  (∀ j r, j < M → T j = some r → pending T M c j → pathOkExc T M v j r)

/-- Total probe displacement of a table (termination measure of the
rehash loop). -/
def phi (T : Nat → Option Nat) (M : Nat) : Nat :=
  Finset.sum (Finset.range M) fun j =>
    match T j with
    | some r => pdist M (r % M) j
    | none => 0

/-- Remaining quantity of the order an id points at (0 for a dangling id;
never hit on reachable states). -/
def getQty (S : Nat → Option Order) (id : Nat) : Int :=
  match S id with
  | some o => o.qty
  | none => 0

/-- Sum of the remaining quantities of the orders linked in a level. -/
def sumQty (S : Nat → Option Order) (l : List Nat) : Int :=
  (l.map (getQty S)).sum

/-- Core invariant of the engine: everything that holds between the
iterations of the matching sweep (the best-price-level-nonempty facts are
re-established only after `update_best_bid` / `update_best_ask` run and are
kept separately in `Inv`). -/
structure InvCore (b : Book) : Prop where
  hP : 0 ≤ b.maxPrice
  hM : 0 < b.maxOrders
  crossed : b.best_bid < b.best_ask
  bid_lb : -1 ≤ b.best_bid
  ask_ub : b.best_ask ≤ b.maxPrice + 1
  gap : ∀ p : Int, b.best_bid < p → p < b.best_ask → (b.levels p).orders = []
  outside : ∀ p : Int, p < 0 ∨ b.maxPrice < p → (b.levels p).orders = []
  store_ok : ∀ id o, b.store id = some o →
    o.id = id ∧ 0 ≤ o.price ∧ o.price ≤ b.maxPrice ∧ 0 < o.qty ∧
      o.qty ≤ o.orig_qty
  store_side : ∀ id o, b.store id = some o →
    (o.side = Side.Buy → o.price ≤ b.best_bid) ∧
      (o.side = Side.Sell → b.best_ask ≤ o.price)
  store_level : ∀ id o, b.store id = some o →
    (b.levels o.price).orders.count id = 1
  level_store : ∀ p : Int, ∀ id, id ∈ (b.levels p).orders →
    ∃ o, b.store id = some o ∧ o.price = p
  agg_qty : ∀ p : Int, (b.levels p).total_qty = sumQty b.store (b.levels p).orders
  agg_cnt : ∀ p : Int, (b.levels p).order_cnt = (b.levels p).orders.length
  map_live : ∀ i id, i < b.maxOrders → b.order_map i = some id →
    (b.store id).isSome
  live_map : ∀ id, (b.store id).isSome → hasId b.order_map b.maxOrders id
  map_out : ∀ i, b.maxOrders ≤ i → b.order_map i = none
  map_inj : TInj b.order_map b.maxOrders
  map_chain : Chain b.order_map b.maxOrders
  map_card : occCard b.order_map b.maxOrders = b.pool_used
  pool_eq : b.pool_used = b.total_orders
  pool_le : b.pool_used ≤ b.maxOrders

/-- The full engine invariant: the core invariant plus non-emptiness of
the best-price levels. -/
structure Inv (b : Book) extends InvCore b : Prop where
  bid_ne : 0 ≤ b.best_bid → (b.levels b.best_bid).orders ≠ []
  ask_ne : b.best_ask ≤ b.maxPrice → (b.levels b.best_ask).orders ≠ []

/-- States reachable from a freshly constructed engine by the public
operations. -/
inductive Reachable : Book → Prop
  | init (P : Int) (M : Nat) : 0 ≤ P → 0 < M → Reachable (Book.init P M)
  | add (b : Book) (id : Nat) (s : Side) (px qty : Int) (ty : OrdType)
      (ts : Nat) : Reachable b → Reachable (b.add id s px qty ty ts).1
  | cancel (b : Book) (id : Nat) : Reachable b → Reachable (b.cancel id).1
  | match_order (b : Book) (s : Side) (qty : Int) :
      Reachable b → Reachable (b.match_order s qty).1

/-- The postcondition of the sweeping loop of `match_internal`. -/
def MGStmt (lim : Int) (s : Side) (fuel : Nat) (b : Book) (qty : Int) : Prop :=
  Inv (matchGo s lim fuel b qty).1 ∧
  (matchGo s lim fuel b qty).1.maxPrice = b.maxPrice ∧
  (matchGo s lim fuel b qty).1.maxOrders = b.maxOrders ∧
  (s = Side.Buy → (matchGo s lim fuel b qty).1.best_bid = b.best_bid ∧
    b.best_ask ≤ (matchGo s lim fuel b qty).1.best_ask) ∧
  (s = Side.Sell → (matchGo s lim fuel b qty).1.best_ask = b.best_ask ∧
    (matchGo s lim fuel b qty).1.best_bid ≤ b.best_bid) ∧
  (matchGo s lim fuel b qty).1.pool_used ≤ b.pool_used ∧
  ((matchGo s lim fuel b qty).1.pool_used = b.pool_used →
    matchGo s lim fuel b qty = (b, qty) ∨ (matchGo s lim fuel b qty).2 ≤ 0) ∧
  (0 < (matchGo s lim fuel b qty).2 →
    (s = Side.Buy → ¬((matchGo s lim fuel b qty).1.best_ask ≤ lim ∧
      (matchGo s lim fuel b qty).1.best_ask ≤ b.maxPrice)) ∧
    (s = Side.Sell → ¬(lim ≤ (matchGo s lim fuel b qty).1.best_bid ∧
      0 ≤ (matchGo s lim fuel b qty).1.best_bid)))

/-- The crossing-and-matching prefix of `OrderBook::add` (the computation
of `remaining` from the incoming order). -/
def addMatched (b : Book) (s : Side) (px qty : Int) : Book × Int :=
  match s with
  | Side.Buy =>
    if b.best_ask ≤ px then b.match_internal Side.Buy qty px else (b, qty)
  | Side.Sell =>
    if px ≤ b.best_bid then b.match_internal Side.Sell qty px else (b, qty)

/-- The committing tail of `OrderBook::add`: allocate, link into the level,
index, and bump the touched best price. -/
def restBook (b1 : Book) (o : Order) (m2 : Nat → Option Nat) : Book :=
  match o.side with
  | Side.Buy =>
    if b1.best_bid < o.price then
      { b1 with
        store := sset b1.store o.id (some o)
        order_map := m2
        levels := lset b1.levels o.price ((b1.levels o.price).push_back o)
        pool_used := b1.pool_used + 1
        total_orders := b1.total_orders + 1
        best_bid := o.price }
    else
      { b1 with
        store := sset b1.store o.id (some o)
        order_map := m2
        levels := lset b1.levels o.price ((b1.levels o.price).push_back o)
        pool_used := b1.pool_used + 1
        total_orders := b1.total_orders + 1 }
  | Side.Sell =>
    if o.price < b1.best_ask then
      { b1 with
        store := sset b1.store o.id (some o)
        order_map := m2
        levels := lset b1.levels o.price ((b1.levels o.price).push_back o)
        pool_used := b1.pool_used + 1
        total_orders := b1.total_orders + 1
        best_ask := o.price }
    else
      { b1 with
        store := sset b1.store o.id (some o)
        order_map := m2
        levels := lset b1.levels o.price ((b1.levels o.price).push_back o)
        pool_used := b1.pool_used + 1
        total_orders := b1.total_orders + 1 }

/-- The whole post-validation part of `OrderBook::add` for resting types,
written over `addMatched` and `restBook` (definitionally the same
computation as the tail of `Book.add`). -/
def addTail (b : Book) (id : Nat) (s : Side) (px qty : Int) (ty : OrdType)
    (ts : Nat) : Book × AddResult :=
  if (addMatched b s px qty).2 ≤ 0 then ((addMatched b s px qty).1, AddResult.Ok)
  else if (addMatched b s px qty).1.maxOrders ≤ (addMatched b s px qty).1.pool_used
  then ((addMatched b s px qty).1, AddResult.PoolExhausted)
  else
    match insert_map (addMatched b s px qty).1.order_map
        (addMatched b s px qty).1.maxOrders id with
    | none => ((addMatched b s px qty).1, AddResult.DuplicateId)
    | some m2 =>
      (restBook (addMatched b s px qty).1
        ⟨id, px, (addMatched b s px qty).2, (addMatched b s px qty).2, s, ty, ts⟩
        m2,
       AddResult.Ok)

/-! ## Theorems -/

/-- C3: matching consumes same-price resting orders head-to-tail, and a
partial fill leaves the head in place with reduced qty.  Concretely: after
`add(1,Sell,100,10)`, `add(2,Sell,100,10)`, `add(3,Sell,100,10)` on an
empty book, `match(Buy,15)` returns unfilled 0, order 1 is gone, order 2
has qty 5 and order 3 has qty 10; the level list is `[2, 3]`, so the next
match resumes from order 2. -/
theorem claim_C3 :
    fifoRun.2 = 0 ∧
    fifoRun.1.lookup 1 = none ∧
    (fifoRun.1.lookup 2).map Order.qty = some 5 ∧
    (fifoRun.1.lookup 3).map Order.qty = some 10 ∧
    (fifoRun.1.levels 100).orders = [2, 3] := by
  decide

/-- C7 counterexample: an `add` of type `Market` does **not** match like a
sweep with the extreme limit.  On `mktBook` (one sell of qty 5 resting at
price 20), `add(2, Buy, 10, 7, Market)` returns `Ok` but consumes nothing
(price 10 does not cross the best ask 20), while `match(Buy, 7)` — the
extreme-limit sweep — consumes the whole level. -/
theorem claim_C7_cex :
    (mktBook.add 2 Side.Buy 10 7 OrdType.Market).2 = AddResult.Ok ∧
    ((mktBook.add 2 Side.Buy 10 7 OrdType.Market).1.levels 20).total_qty = 5 ∧
    ((mktBook.match_order Side.Buy 7).1.levels 20).total_qty = 0 := by
  decide

/-- C7 amended: an `add` of type `Market` that passes validation ignores
no part of its price: it sweeps with the order's **own price** as the limit
when it crosses (`best_ask ≤ px` for a buy, `px ≤ best_bid` for a sell),
matches nothing otherwise, never rests, and returns `Ok`. -/
theorem claim_C7 (b : Book) (id : Nat) (s : Side) (px q : Int) (ts : Nat)
    (hfresh : lookupPos b.order_map b.maxOrders id = none)
    (hq : 0 < q) (hpx : ¬(px < 0 ∨ b.maxPrice < px)) :
    b.add id s px q OrdType.Market ts =
      ((match s with
        | Side.Buy =>
          if b.best_ask ≤ px then (b.match_internal Side.Buy q px).1 else b
        | Side.Sell =>
          if px ≤ b.best_bid then (b.match_internal Side.Sell q px).1 else b),
       AddResult.Ok) := by
  unfold Book.add
  rw [hfresh]
  simp only [Option.isSome_none, Bool.false_eq_true, if_false]
  rw [if_neg (not_le.mpr hq), if_neg hpx]
  simp only [or_true, if_true]
  cases s <;> simp only [apply_ite Prod.fst]

/-- C7 witness: the amended statement at a concrete input (the market buy
of qty 7 at price 10 against `mktBook`). -/
theorem claim_C7_witness :
    lookupPos mktBook.order_map mktBook.maxOrders 2 = none ∧
    (0 : Int) < 7 ∧ ¬((10 : Int) < 0 ∨ mktBook.maxPrice < 10) ∧
    mktBook.add 2 Side.Buy 10 7 OrdType.Market 0 =
      ((if mktBook.best_ask ≤ 10 then
          (mktBook.match_internal Side.Buy 7 10).1 else mktBook),
       AddResult.Ok) :=
  ⟨by decide, by decide, by decide,
   claim_C7 mktBook 2 Side.Buy 10 7 0 (by decide) (by decide) (by decide)⟩

/-- C9 counterexample: `add` returning `Ok` followed by `cancel` of the
same id does **not** always restore the prior state.  On `rtBook` (one
resting sell, order_count 1), `add(2, Buy, 10, 5)` crosses, fully matches
and rests nothing; the subsequent `cancel(2)` finds nothing, and the book
ends with order_count 0 and best ask at the sentinel instead of 10. -/
theorem claim_C9_cex :
    (rtBook.add 2 Side.Buy 10 5).2 = AddResult.Ok ∧
    ((rtBook.add 2 Side.Buy 10 5).1.cancel 2).2 = false ∧
    (((rtBook.add 2 Side.Buy 10 5).1.cancel 2).1.total_orders = 0 ∧
      rtBook.total_orders = 1) ∧
    (((rtBook.add 2 Side.Buy 10 5).1.cancel 2).1.best_ask = 101 ∧
      rtBook.best_ask = 10) := by
  decide

/-- C10: `match(aggressor, qty)` with `qty ≤ 0` returns `qty` unchanged
and leaves the book untouched (the sweep loop never runs and non-positive
quantities raise no validation error). -/
theorem claim_C10 (b : Book) (s : Side) (q : Int) (hq : q ≤ 0) :
    b.match_order s q = (b, q) := by
  unfold Book.match_order Book.match_internal
  cases s <;> simp [matchGo, not_lt.mpr hq]

/-- C10 witness: a market match of qty 0 on a concrete book. -/
theorem claim_C10_witness :
    (0 : Int) ≤ 0 ∧ (Book.init 100 50).match_order Side.Buy 0 = (Book.init 100 50, 0) :=
  ⟨le_refl 0, claim_C10 (Book.init 100 50) Side.Buy 0 (le_refl 0)⟩

/-! ### Cyclic-distance lemmas -/

theorem pdist_lt {M a b : Nat} (ha : a < M) (hb : b < M) : pdist M a b < M := by
  unfold pdist; split <;> omega

theorem pdist_self {M a : Nat} (ha : a < M) : pdist M a a = 0 := by
  unfold pdist; split <;> omega

theorem pdist_eq_zero {M a b : Nat} (ha : a < M) (hb : b < M)
    (h : pdist M a b = 0) : a = b := by
  unfold pdist at h; split at h <;> omega

theorem mod_step {M x : Nat} (hx : x < M) :
    (x + 1) % M = if x + 1 = M then 0 else x + 1 := by
  split
  · next h => rw [h, Nat.mod_self]
  · next h => exact Nat.mod_eq_of_lt (by omega)

theorem mod_step_zero {M x : Nat} (hx : x < M) (h : x + 1 = M) :
    (x + 1) % M = 0 := by
  rw [mod_step hx]; simp [h]

theorem pdist_step_to {M x y : Nat} (hx : x < M) (hy : y < M) (hne : x ≠ y) :
    pdist M ((x + 1) % M) y + 1 = pdist M x y := by
  rw [mod_step hx]
  unfold pdist
  split_ifs <;> omega

theorem pdist_step_from {M h x : Nat} (hh : h < M) (hx : x < M)
    (hlt : pdist M h x + 1 < M) :
    pdist M h ((x + 1) % M) = pdist M h x + 1 := by
  rw [mod_step hx]
  unfold pdist at hlt ⊢
  split_ifs at hlt ⊢ <;> omega

theorem pdist_add {M a b c : Nat} (ha : a < M) (hb : b < M) (hc : c < M) :
    pdist M a b + pdist M b c = pdist M a c ∨
      pdist M a b + pdist M b c = pdist M a c + M := by
  unfold pdist
  split_ifs <;> omega

/-! ### Probe-walk lemmas for `lookup` -/

theorem lookupLoop_some {T : Nat → Option Nat} {M id start : Nat} :
    ∀ fuel idx p, lookupLoop T M id start fuel idx = some p → T p = some id := by
  intro fuel
  induction fuel with
  | zero => intro idx p h; simp [lookupLoop] at h
  | succ n ih =>
    intro idx p h
    simp only [lookupLoop] at h
    by_cases hs : idx = start
    · rw [if_pos hs] at h
      exact Option.noConfusion h
    · rw [if_neg hs] at h
      split at h
      · exact Option.noConfusion h
      · rename_i r heq
        split at h
        · rename_i hr
          cases h
          rw [heq, hr]
        · exact ih _ _ h

theorem lookupPos_some {T : Nat → Option Nat} {M id p : Nat}
    (h : lookupPos T M id = some p) : T p = some id := by
  simp only [lookupPos] at h
  split at h
  · rename_i r heq
    split at h
    · rename_i hr
      cases h
      rw [heq, hr]
    · exact lookupLoop_some _ _ _ h
  · exact lookupLoop_some _ _ _ h

theorem lookupLoop_none_of_absent {T : Nat → Option Nat} {M id start : Nat}
    (habs : ∀ i, i < M → T i ≠ some id) :
    ∀ fuel idx, idx < M → lookupLoop T M id start fuel idx = none := by
  intro fuel
  induction fuel with
  | zero => intro idx _; rfl
  | succ n ih =>
    intro idx hidx
    have hM : 0 < M := by omega
    simp only [lookupLoop]
    by_cases hs : idx = start
    · rw [if_pos hs]
    · rw [if_neg hs]
      cases hT : T idx with
      | none => rfl
      | some r =>
        have hr : r ≠ id := fun he => habs idx hidx (he ▸ hT)
        simp only [hT, hr, if_false]
        exact ih _ (Nat.mod_lt _ hM)

theorem lookupPos_none_of_absent {T : Nat → Option Nat} {M id : Nat}
    (hM : 0 < M) (habs : ∀ i, i < M → T i ≠ some id) :
    lookupPos T M id = none := by
  have hh : id % M < M := Nat.mod_lt _ hM
  simp only [lookupPos]
  cases hT : T (id % M) with
  | none => exact lookupLoop_none_of_absent habs _ _ (Nat.mod_lt _ hM)
  | some r =>
    have hr : r ≠ id := fun he => habs _ hh (he ▸ hT)
    simp only [hr, if_false]
    exact lookupLoop_none_of_absent habs _ _ (Nat.mod_lt _ hM)

theorem lookupLoop_finds {T : Nat → Option Nat} {M id p : Nat}
    (hM : 0 < M) (hch : Chain T M) (hinj : TInj T M)
    (hp : p < M) (hTp : T p = some id) :
    ∀ m idx fuel, idx < M → pdist M idx p = m →
      pdist M (id % M) idx + m = pdist M (id % M) p →
      0 < pdist M (id % M) idx → m < fuel →
      lookupLoop T M id (id % M) fuel idx = some p := by
  intro m
  induction m with
  | zero =>
    intro idx fuel hidx hdz hsum hpos hfuel
    obtain ⟨f, rfl⟩ : ∃ f, fuel = f + 1 := ⟨fuel - 1, by omega⟩
    have hip : idx = p := pdist_eq_zero hidx hp hdz
    subst hip
    have hne : idx ≠ id % M := by
      intro he
      rw [he, pdist_self (Nat.mod_lt _ hM)] at hpos
      omega
    simp [lookupLoop, hne, hTp]
  | succ m ih =>
    intro idx fuel hidx hdz hsum hpos hfuel
    obtain ⟨f, rfl⟩ : ∃ f, fuel = f + 1 := ⟨fuel - 1, by omega⟩
    have hh : id % M < M := Nat.mod_lt _ hM
    have hip : idx ≠ p := by
      intro he
      rw [he, pdist_self hp] at hdz
      omega
    have hne : idx ≠ id % M := by
      intro he
      rw [he, pdist_self hh] at hpos
      omega
    have honp : onPath M id p idx := by
      unfold onPath
      omega
    have hTi : T idx ≠ none := hch p id hp hTp idx hidx honp
    cases hT : T idx with
    | none => exact absurd hT hTi
    | some r =>
      have hr : r ≠ id := by
        intro he
        subst he
        exact hip (hinj idx p r hidx hp hT hTp)
      have hdp : pdist M (id % M) p < M := pdist_lt hh hp
      have hstep1 : pdist M ((idx + 1) % M) p + 1 = pdist M idx p :=
        pdist_step_to hidx hp hip
      have hstep2 : pdist M (id % M) ((idx + 1) % M) = pdist M (id % M) idx + 1 :=
        pdist_step_from hh hidx (by omega)
      have hrec := ih ((idx + 1) % M) f (Nat.mod_lt _ (by omega)) (by omega)
        (by omega) (by omega) (by omega)
      simp only [lookupLoop, hne, if_false, hT, hr, ite_false]
      exact hrec

theorem lookupPos_finds {T : Nat → Option Nat} {M id p : Nat}
    (hM : 0 < M) (hch : Chain T M) (hinj : TInj T M)
    (hp : p < M) (hTp : T p = some id) :
    lookupPos T M id = some p := by
  have hh : id % M < M := Nat.mod_lt _ hM
  by_cases hhp : id % M = p
  · simp [lookupPos, hhp, hTp]
  · have honp : onPath M id p (id % M) := by
      unfold onPath
      rw [pdist_self hh]
      omega
    have hTh : T (id % M) ≠ none := hch p id hp hTp _ hh honp
    have hd : 0 < pdist M (id % M) p := by
      rcases Nat.eq_zero_or_pos (pdist M (id % M) p) with h0 | h0
      · exact absurd (pdist_eq_zero hh hp h0) hhp
      · exact h0
    have hdp : pdist M (id % M) p < M := pdist_lt hh hp
    have hstep1 : pdist M ((id % M + 1) % M) p + 1 = pdist M (id % M) p :=
      pdist_step_to hh hp hhp
    have hstep2 : pdist M (id % M) ((id % M + 1) % M) =
        pdist M (id % M) (id % M) + 1 :=
      pdist_step_from hh hh (by rw [pdist_self hh]; omega)
    rw [pdist_self hh] at hstep2
    have hfind := lookupLoop_finds hM hch hinj hp hTp (pdist M (id % M) p - 1)
      ((id % M + 1) % M) M (Nat.mod_lt _ (by omega)) (by omega)
      (by rw [hstep2]; omega) (by rw [hstep2]; omega) (by omega)
    cases hT : T (id % M) with
    | none => exact absurd hT hTh
    | some r =>
      have hr : r ≠ id := by
        intro he
        subst he
        exact hhp (hinj _ p r hh hp hT hTp)
      simp only [lookupPos, hT, hr, ite_false]
      exact hfind

/-! ### Probe-walk lemmas for `insert_map` -/

theorem insertLoop_some_none {T : Nat → Option Nat} {M id start : Nat} :
    ∀ fuel idx p, insertLoop T M id start fuel idx = some p → T p = none := by
  intro fuel
  induction fuel with
  | zero => intro idx p h; simp [insertLoop] at h
  | succ n ih =>
    intro idx p h
    simp only [insertLoop] at h
    split at h
    · rename_i heq
      cases h
      exact heq
    · split at h
      · exact Option.noConfusion h
      · split at h
        · exact Option.noConfusion h
        · exact ih _ _ h

theorem insertLoop_some_lt {T : Nat → Option Nat} {M id start : Nat}
    (hM : 0 < M) :
    ∀ fuel idx p, idx < M → insertLoop T M id start fuel idx = some p → p < M := by
  intro fuel
  induction fuel with
  | zero => intro idx p _ h; simp [insertLoop] at h
  | succ n ih =>
    intro idx p hidx h
    simp only [insertLoop] at h
    split at h
    · cases h
      exact hidx
    · split at h
      · exact Option.noConfusion h
      · split at h
        · exact Option.noConfusion h
        · exact ih _ _ (Nat.mod_lt _ hM) h

theorem insertLoop_finds {T : Nat → Option Nat} {M id p : Nat}
    (hM : 0 < M) (hp : p < M) (hTp : T p = none)
    (hpre : ∀ j, j < M → pdist M (id % M) j < pdist M (id % M) p →
      ∃ r, T j = some r ∧ r ≠ id) :
    ∀ m idx fuel, idx < M → pdist M idx p = m →
      pdist M (id % M) idx + m = pdist M (id % M) p → m < fuel →
      insertLoop T M id (id % M) fuel idx = some p := by
  intro m
  induction m with
  | zero =>
    intro idx fuel hidx hdz hsum hfuel
    obtain ⟨f, rfl⟩ : ∃ f, fuel = f + 1 := ⟨fuel - 1, by omega⟩
    have hip : idx = p := pdist_eq_zero hidx hp hdz
    subst hip
    simp [insertLoop, hTp]
  | succ m ih =>
    intro idx fuel hidx hdz hsum hfuel
    obtain ⟨f, rfl⟩ : ∃ f, fuel = f + 1 := ⟨fuel - 1, by omega⟩
    have hh : id % M < M := Nat.mod_lt _ hM
    have hip : idx ≠ p := by
      intro he
      rw [he, pdist_self hp] at hdz
      omega
    obtain ⟨r, hT, hr⟩ := hpre idx hidx (by omega)
    have hdp : pdist M (id % M) p < M := pdist_lt hh hp
    have hstep1 : pdist M ((idx + 1) % M) p + 1 = pdist M idx p :=
      pdist_step_to hidx hp hip
    have hstep2 : pdist M (id % M) ((idx + 1) % M) = pdist M (id % M) idx + 1 :=
      pdist_step_from hh hidx (by omega)
    have hs : (idx + 1) % M ≠ id % M := by
      intro he
      rw [he, pdist_self hh] at hstep2
      omega
    have hrec := ih ((idx + 1) % M) f (Nat.mod_lt _ (by omega)) (by omega)
      (by omega) (by omega)
    simp only [insertLoop, hT, hr, ite_false, hs, if_false]
    exact hrec

/-- Successful insertion: if some slot `< M` is vacant and the id is
absent, `insert_map` places the id at the vacant slot nearest (in probe
order) to its home slot. -/
theorem insert_map_succeeds {T : Nat → Option Nat} {M id : Nat}
    (hM : 0 < M) (hvac : ∃ i, i < M ∧ T i = none)
    (habs : ∀ i, i < M → T i ≠ some id) :
    ∃ p, insert_map T M id = some (tset T p (some id)) ∧ p < M ∧ T p = none ∧
      ∀ j, j < M → pdist M (id % M) j < pdist M (id % M) p → T j ≠ none := by
  classical
  have hh : id % M < M := Nat.mod_lt _ hM
  obtain ⟨i0, hi0, hTi0⟩ := hvac
  have hSne : ((Finset.range M).filter fun j => T j = none).Nonempty :=
    ⟨i0, by simp [Finset.mem_filter, hi0, hTi0]⟩
  obtain ⟨p, hpS, hpmin⟩ :=
    Finset.exists_min_image ((Finset.range M).filter fun j => T j = none)
      (fun j => pdist M (id % M) j) hSne
  rw [Finset.mem_filter, Finset.mem_range] at hpS
  obtain ⟨hp, hTp⟩ := hpS
  have hfirst : ∀ j, j < M → pdist M (id % M) j < pdist M (id % M) p →
      T j ≠ none := by
    intro j hj hlt hTj
    have := hpmin j (by simp [Finset.mem_filter, Finset.mem_range, hj, hTj])
    omega
  refine ⟨p, ?_, hp, hTp, hfirst⟩
  have hpre : ∀ j, j < M → pdist M (id % M) j < pdist M (id % M) p →
      ∃ r, T j = some r ∧ r ≠ id := by
    intro j hj hlt
    cases hT : T j with
    | none => exact absurd hT (hfirst j hj hlt)
    | some r =>
      refine ⟨r, rfl, ?_⟩
      intro he
      exact habs j hj (he ▸ hT)
  have hfind := insertLoop_finds hM hp hTp hpre (pdist M (id % M) p)
    (id % M) (M + 1) hh (by rfl) (by rw [pdist_self hh]; omega) (by
      have := pdist_lt hh hp
      omega)
  unfold insert_map
  rw [hfind]
  rfl

/-! ### Probe-walk lemmas for the find loop of `remove_map` -/

theorem removeFind_some {T : Nat → Option Nat} {M id : Nat} :
    ∀ fuel idx p, removeFind T M id fuel idx = some p → T p = some id := by
  intro fuel
  induction fuel with
  | zero => intro idx p h; simp [removeFind] at h
  | succ n ih =>
    intro idx p h
    simp only [removeFind] at h
    split at h
    · exact Option.noConfusion h
    · rename_i r heq
      split at h
      · rename_i hr
        cases h
        rw [heq, hr]
      · exact ih _ _ h

theorem removeFind_finds {T : Nat → Option Nat} {M id p : Nat}
    (hM : 0 < M) (hch : Chain T M) (hinj : TInj T M)
    (hp : p < M) (hTp : T p = some id) :
    ∀ m idx fuel, idx < M → pdist M idx p = m →
      pdist M (id % M) idx + m = pdist M (id % M) p → m < fuel →
      removeFind T M id fuel idx = some p := by
  intro m
  induction m with
  | zero =>
    intro idx fuel hidx hdz hsum hfuel
    obtain ⟨f, rfl⟩ : ∃ f, fuel = f + 1 := ⟨fuel - 1, by omega⟩
    have hip : idx = p := pdist_eq_zero hidx hp hdz
    subst hip
    simp [removeFind, hTp]
  | succ m ih =>
    intro idx fuel hidx hdz hsum hfuel
    obtain ⟨f, rfl⟩ : ∃ f, fuel = f + 1 := ⟨fuel - 1, by omega⟩
    have hh : id % M < M := Nat.mod_lt _ hM
    have hip : idx ≠ p := by
      intro he
      rw [he, pdist_self hp] at hdz
      omega
    have honp : onPath M id p idx := by
      unfold onPath
      omega
    have hTi : T idx ≠ none := hch p id hp hTp idx hidx honp
    cases hT : T idx with
    | none => exact absurd hT hTi
    | some r =>
      have hr : r ≠ id := by
        intro he
        subst he
        exact hip (hinj idx p r hidx hp hT hTp)
      have hdp : pdist M (id % M) p < M := pdist_lt hh hp
      have hstep1 : pdist M ((idx + 1) % M) p + 1 = pdist M idx p :=
        pdist_step_to hidx hp hip
      have hstep2 : pdist M (id % M) ((idx + 1) % M) = pdist M (id % M) idx + 1 :=
        pdist_step_from hh hidx (by omega)
      have hrec := ih ((idx + 1) % M) f (Nat.mod_lt _ (by omega)) (by omega)
        (by omega) (by omega)
      simp only [removeFind, hT, hr, ite_false]
      exact hrec

theorem removeFind_entry {T : Nat → Option Nat} {M id p : Nat}
    (hM : 0 < M) (hch : Chain T M) (hinj : TInj T M)
    (hp : p < M) (hTp : T p = some id) :
    removeFind T M id M (id % M) = some p := by
  have hh : id % M < M := Nat.mod_lt _ hM
  exact removeFind_finds hM hch hinj hp hTp (pdist M (id % M) p) (id % M) M hh
    rfl (by rw [pdist_self hh]; omega) (pdist_lt hh hp)

/-! ### Update lemmas for tables -/

theorem tset_eq (T : Nat → Option Nat) (i : Nat) (v : Option Nat) :
    tset T i v i = v := by
  simp [tset]

theorem tset_ne (T : Nat → Option Nat) {i j : Nat} (v : Option Nat)
    (h : j ≠ i) : tset T i v j = T j := by
  simp [tset, h]

theorem pdist_right_inj {M h a b : Nat} (hh : h < M) (ha : a < M) (hb : b < M)
    (he : pdist M h a = pdist M h b) : a = b := by
  unfold pdist at he
  split_ifs at he <;> omega

theorem pdist_succ_self {M c : Nat} (hc : c < M) (hM : 1 < M) :
    pdist M ((c + 1) % M) c = M - 1 := by
  rw [mod_step hc]
  unfold pdist
  split_ifs <;> omega

theorem onPath_sandwich {M h c k j : Nat} (hh : h < M) (hc : c < M)
    (hk : k < M) (hj : j < M) (h1 : pdist M h c ≤ pdist M h j)
    (h2 : pdist M c k ≤ pdist M c j) : pdist M h k ≤ pdist M h j := by
  rcases pdist_add hh hc hj with hcj | hcj
  · rcases pdist_add hh hc hk with hck | hck
    · omega
    · have := pdist_lt hh hk
      omega
  · have := pdist_lt hc hj
    have := pdist_lt hh hc
    have := pdist_lt hh hj
    omega

theorem occCard_tset_none {T : Nat → Option Nat} {M i : Nat} (hi : i < M)
    (hocc : (T i).isSome) :
    occCard (tset T i none) M = occCard T M - 1 ∧ 0 < occCard T M := by
  have hset : ((Finset.range M).filter fun j => (tset T i none j).isSome) =
      ((Finset.range M).filter fun j => (T j).isSome).erase i := by
    ext j
    by_cases hji : j = i
    · subst hji
      simp [tset]
    · simp only [Finset.mem_filter, Finset.mem_erase, Finset.mem_range,
        tset_ne T _ hji]
      tauto
  have hmem : i ∈ (Finset.range M).filter fun j => (T j).isSome := by
    simp [Finset.mem_filter, Finset.mem_range, hi, hocc]
  constructor
  · unfold occCard
    rw [hset, Finset.card_erase_of_mem hmem]
  · unfold occCard
    exact Finset.card_pos.mpr ⟨i, hmem⟩

theorem occCard_tset_some {T : Nat → Option Nat} {M i : Nat} (hi : i < M)
    (hvac : T i = none) (r : Nat) :
    occCard (tset T i (some r)) M = occCard T M + 1 := by
  have hset : ((Finset.range M).filter fun j => (tset T i (some r) j).isSome) =
      insert i ((Finset.range M).filter fun j => (T j).isSome) := by
    ext j
    by_cases hji : j = i
    · subst hji
      simp [tset, hi]
    · simp only [Finset.mem_filter, Finset.mem_insert, Finset.mem_range,
        tset_ne T _ hji, hji, false_or]
  have hnmem : i ∉ (Finset.range M).filter fun j => (T j).isSome := by
    simp [Finset.mem_filter, hvac]
  unfold occCard
  rw [hset, Finset.card_insert_of_not_mem hnmem]

/-- Summand of the displacement potential. -/
theorem phi_congr_aux {T U : Nat → Option Nat} {M i : Nat}
    (h : ∀ j, j < M → j ≠ i → U j = T j) (hi : i < M) :
    phi U M + (match T i with
      | some r => pdist M (r % M) i
      | none => 0) =
    phi T M + (match U i with
      | some r => pdist M (r % M) i
      | none => 0) := by
  unfold phi
  have hirange : i ∈ Finset.range M := Finset.mem_range.mpr hi
  rw [← Finset.sum_erase_add _ _ hirange, ← Finset.sum_erase_add _ _ hirange]
  have : ∀ j ∈ (Finset.range M).erase i,
      (match U j with
        | some r => pdist M (r % M) j
        | none => 0) =
      (match T j with
        | some r => pdist M (r % M) j
        | none => 0) := by
    intro j hj
    rw [Finset.mem_erase, Finset.mem_range] at hj
    rw [h j hj.2 hj.1]
  rw [Finset.sum_congr rfl this]
  omega

theorem phi_tset_none {T : Nat → Option Nat} {M i r : Nat} (hi : i < M)
    (hocc : T i = some r) :
    phi (tset T i none) M + pdist M (r % M) i = phi T M := by
  have := phi_congr_aux (T := T) (U := tset T i none)
    (fun j _ hj => tset_ne T _ hj) hi
  simp only [hocc, tset_eq] at this
  omega

theorem phi_tset_some {T : Nat → Option Nat} {M i r : Nat} (hi : i < M)
    (hvac : T i = none) :
    phi (tset T i (some r)) M = phi T M + pdist M (r % M) i := by
  have := phi_congr_aux (T := T) (U := tset T i (some r))
    (fun j _ hj => tset_ne T _ hj) hi
  simp only [hvac, tset_eq] at this
  omega

theorem phi_le {T : Nat → Option Nat} (M : Nat) : phi T M ≤ M * M := by
  unfold phi
  calc (Finset.range M).sum (fun j => match T j with
        | some r => pdist M (r % M) j
        | none => 0)
      ≤ (Finset.range M).sum (fun _ => M) := by
        apply Finset.sum_le_sum
        intro j hj
        rw [Finset.mem_range] at hj
        cases hT : T j with
        | none => simp
        | some r =>
          show pdist M (r % M) j ≤ M
          exact le_of_lt (pdist_lt (Nat.mod_lt _ (by omega)) hj)
    _ = M * M := by
        rw [Finset.sum_const, Finset.card_range, smul_eq_mul]

/-! ### The rehash loop of `remove_map` -/

theorem pending_succ_iff {T : Nat → Option Nat} {M c j : Nat}
    (hc : c < M) (hj : j < M) (hjc : j ≠ c) (hTc : T c ≠ none) :
    pending T M c j ↔ pending T M ((c + 1) % M) j := by
  have hstepj : pdist M ((c + 1) % M) j + 1 = pdist M c j :=
    pdist_step_to hc hj (fun he => hjc he.symm)
  constructor
  · intro hp k hk hle
    by_cases hkc : k = c
    · rw [hkc]; exact hTc
    · have hstepk : pdist M ((c + 1) % M) k + 1 = pdist M c k :=
        pdist_step_to hc hk (fun he => hkc he.symm)
      exact hp k hk (by omega)
  · intro hp k hk hle
    by_cases hkc : k = c
    · rw [hkc]; exact hTc
    · have hstepk : pdist M ((c + 1) % M) k + 1 = pdist M c k :=
        pdist_step_to hc hk (fun he => hkc he.symm)
      exact hp k hk (by omega)

theorem rehash_stop {T : Nat → Option Nat} {M c v : Nat}
    (hR : RInv T M c v) (hTc : T c = none) : Chain T M := by
  obtain ⟨hc, hv, hTv, hinj, hsettled, hpending⟩ := hR
  intro i r hi hTi j hj honp
  have hnp : ¬pending T M c i := by
    intro hp
    exact hp c hc (by rw [pdist_self hc]; omega) hTc
  exact hsettled i r hi hTi hnp j hj honp

theorem rehash_step {T : Nat → Option Nat} {M c v r : Nat}
    (hR : RInv T M c v) (hTc : T c = some r) :
    ∃ p, p < M ∧
      insert_map (tset T c none) M r =
        some (tset (tset T c none) p (some r)) ∧
      RInv (tset (tset T c none) p (some r)) M ((c + 1) % M)
        (if p = v then c else v) ∧
      (∀ x, hasId (tset (tset T c none) p (some r)) M x ↔ hasId T M x) ∧
      occCard (tset (tset T c none) p (some r)) M = occCard T M ∧
      (∀ i, M ≤ i → tset (tset T c none) p (some r) i = T i) ∧
      phi (tset (tset T c none) p (some r)) M * M +
        pdist M ((c + 1) % M) (if p = v then c else v) + 1 ≤
        phi T M * M + pdist M c v := by
  obtain ⟨hc, hv, hTv, hinj, hsettled, hpending⟩ := hR
  have hvc : v ≠ c := by
    intro he
    rw [he, hTc] at hTv
    exact Option.noConfusion hTv
  have hM : 0 < M := by omega
  have hM1 : 1 < M := by omega
  have hcc' : c ≠ (c + 1) % M ∨ True := Or.inr trivial
  have hrh : r % M < M := Nat.mod_lt _ hM
  have hvac : ∃ i, i < M ∧ tset T c none i = none := ⟨c, hc, tset_eq T c none⟩
  have habs : ∀ i, i < M → tset T c none i ≠ some r := by
    intro i hi
    by_cases hic : i = c
    · rw [hic, tset_eq]
      exact fun h => Option.noConfusion h
    · rw [tset_ne T _ hic]
      intro hTi
      exact hic (hinj i c r hi hc hTi hTc)
  obtain ⟨p, hins, hp, hT2p, hfirst⟩ := insert_map_succeeds hM hvac habs
  have hpc_pending : pending T M c c := by
    intro k hk hle
    rw [pdist_self hc] at hle
    have hkc : c = k := pdist_eq_zero hc hk (by omega)
    rw [← hkc, hTc]
    exact fun h => Option.noConfusion h
  have hexc : pathOkExc T M v c r := hpending c r hc hTc hpc_pending
  have hple : pdist M (r % M) p ≤ pdist M (r % M) c := by
    by_contra hgt
    exact hfirst c hc (by omega) (tset_eq T c none)
  have hpvc : p = v ∨ p = c := by
    by_cases hpc' : p = c
    · exact Or.inr hpc'
    · left
      by_contra hpv
      have hTp : T p = none := by
        rw [tset_ne T _ hpc'] at hT2p
        exact hT2p
      have honp : onPath M r c p := hple
      rcases hexc p hp honp with hne | he
      · exact hne hTp
      · exact hpv he
  -- the hole is not on the probe path of the rehashed entry up to `c`
  have hvnotpath : ¬(pdist M (r % M) v ≤ pdist M (r % M) c) ∨ p = v := by
    by_cases hpv : p = v
    · exact Or.inr hpv
    · left
      intro hle
      have hT2v : tset T c none v = none := by
        rw [tset_ne T _ hvc]
        exact hTv
      have : ¬(pdist M (r % M) v < pdist M (r % M) p) := by
        intro hlt
        exact hfirst v hv hlt hT2v
      have hpv' : pdist M (r % M) p = pdist M (r % M) v ∨
          pdist M (r % M) p < pdist M (r % M) v := by omega
      rcases hpv' with he | hlt
      · exact hpv (pdist_right_inj hrh hp hv he)
      · rcases hpvc with h | h
        · exact hpv h
        · subst h
          omega
  refine ⟨p, hp, hins, ?_⟩
  have hT3 : ∀ j, tset (tset T c none) p (some r) j =
      if j = p then some r else if j = c then none else T j := by
    intro j
    by_cases hjp : j = p
    · rw [hjp, tset_eq, if_pos rfl]
    · rw [tset_ne _ _ hjp, if_neg hjp]
      by_cases hjc : j = c
      · rw [hjc, tset_eq, if_pos rfl]
      · rw [tset_ne _ _ hjc, if_neg hjc]
  rcases hpvc with hpv | hpc'
  -- Case p = v : the entry moves backward into the hole; new hole is c.
  · subst hpv
    rw [if_pos rfl]
    have hplt : pdist M (r % M) p < pdist M (r % M) c := by
      rcases Nat.lt_or_ge (pdist M (r % M) p) (pdist M (r % M) c) with h | h
      · exact h
      · have he : pdist M (r % M) p = pdist M (r % M) c := by omega
        exact absurd (pdist_right_inj hrh hp hc he) hvc
    have hT3c : tset (tset T c none) p (some r) c = none := by
      rw [hT3, if_neg (fun he => hvc he.symm), if_pos rfl]
    have hT3p : tset (tset T c none) p (some r) p = some r := by
      rw [hT3, if_pos rfl]
    -- full chain for the moved entry
    have hfull_p : pathOkFull (tset (tset T c none) p (some r)) M p r := by
      intro k hk honk
      by_cases hkp : k = p
      · rw [hkp, hT3p]
        exact fun h => Option.noConfusion h
      · have hklt : pdist M (r % M) k < pdist M (r % M) p := by
          have hne : pdist M (r % M) k ≠ pdist M (r % M) p :=
            fun he => hkp (pdist_right_inj hrh hk hp he)
          unfold onPath at honk
          omega
        have hT2k : tset T c none k ≠ none := hfirst k hk hklt
        have hkc : k ≠ c := by
          intro he
          rw [he, tset_eq] at hT2k
          exact hT2k rfl
        rw [hT3, if_neg hkp, if_neg hkc]
        rw [tset_ne T _ hkc] at hT2k
        exact hT2k
    refine ⟨⟨Nat.mod_lt _ hM, hc, hT3c, ?_, ?_, ?_⟩, ?_, ?_, ?_, ?_⟩
    -- injectivity
    · intro i j x hi hj hTi hTj
      rw [hT3] at hTi hTj
      by_cases hip : i = p <;> by_cases hjp : j = p
      · rw [hip, hjp]
      · rw [if_pos hip] at hTi
        rw [if_neg hjp] at hTj
        cases hTi
        by_cases hjc : j = c
        · rw [if_pos hjc] at hTj
          exact Option.noConfusion hTj
        · rw [if_neg hjc] at hTj
          exact absurd (hinj j c r hj hc hTj hTc) hjc
      · rw [if_neg hip] at hTi
        rw [if_pos hjp] at hTj
        cases hTj
        by_cases hic : i = c
        · rw [if_pos hic] at hTi
          exact Option.noConfusion hTi
        · rw [if_neg hic] at hTi
          exact absurd (hinj i c r hi hc hTi hTc) hic
      · rw [if_neg hip] at hTi
        rw [if_neg hjp] at hTj
        by_cases hic : i = c
        · rw [if_pos hic] at hTi
          exact Option.noConfusion hTi
        · by_cases hjc : j = c
          · rw [if_pos hjc] at hTj
            exact Option.noConfusion hTj
          · rw [if_neg hic] at hTi
            rw [if_neg hjc] at hTj
            exact hinj i j x hi hj hTi hTj
    -- settled entries have full chains
    · intro j x hj hT3j hns
      by_cases hjp : j = p
      · subst hjp
        rw [hT3j] at hT3p
        cases hT3p
        exact hfull_p
      · have hjc : j ≠ c := by
          intro he
          rw [he, hT3c] at hT3j
          exact Option.noConfusion hT3j
        have hTj : T j = some x := by
          rw [hT3, if_neg hjp, if_neg hjc] at hT3j
          exact hT3j
        by_cases hop : pending T M c j
        · exfalso
          apply hns
          intro k hk hle
          by_cases hkp : k = p
          · rw [hkp, hT3p]
            exact fun h => Option.noConfusion h
          · by_cases hkc : k = c
            · exfalso
              rw [hkc, pdist_succ_self hc hM1] at hle
              have hjlt := pdist_lt (Nat.mod_lt (c + 1) hM) hj
              have hje : pdist M ((c + 1) % M) j = M - 1 := by omega
              rw [← pdist_succ_self hc hM1] at hje
              exact hjc (pdist_right_inj (Nat.mod_lt _ hM) hj hc hje)
            · have hstepk : pdist M ((c + 1) % M) k + 1 = pdist M c k :=
                pdist_step_to hc hk (fun he => hkc he.symm)
              have hstepj : pdist M ((c + 1) % M) j + 1 = pdist M c j :=
                pdist_step_to hc hj (fun he => hjc he.symm)
              have hTk : T k ≠ none := hop k hk (by omega)
              rw [hT3, if_neg hkp, if_neg hkc]
              exact hTk
        · have hfullT : pathOkFull T M j x := hsettled j x hj hTj hop
          have hcnotpath : ¬(pdist M (x % M) c ≤ pdist M (x % M) j) := by
            intro hle
            apply hop
            intro k hk hkle
            have hxh : x % M < M := Nat.mod_lt _ hM
            exact hfullT k hk (onPath_sandwich hxh hc hk hj hle hkle)
          intro k hk honk
          by_cases hkp : k = p
          · rw [hkp, hT3p]
            exact fun h => Option.noConfusion h
          · have hkc : k ≠ c := by
              intro he
              rw [he] at honk
              exact hcnotpath honk
            rw [hT3, if_neg hkp, if_neg hkc]
            exact hfullT k hk honk
    -- pending entries: chains broken at most at the new hole c
    · intro j x hj hT3j hpend
      by_cases hjp : j = p
      · subst hjp
        rw [hT3j] at hT3p
        cases hT3p
        intro k hk honk
        exact Or.inl (hfull_p k hk honk)
      · have hjc : j ≠ c := by
          intro he
          rw [he, hT3c] at hT3j
          exact Option.noConfusion hT3j
        have hTj : T j = some x := by
          rw [hT3, if_neg hjp, if_neg hjc] at hT3j
          exact hT3j
        have hexcT : pathOkExc T M p j x := by
          by_cases hop : pending T M c j
          · exact hpending j x hj hTj hop
          · intro k hk honk
            exact Or.inl (hsettled j x hj hTj hop k hk honk)
        intro k hk honk
        rcases hexcT k hk honk with hTk | hkv
        · by_cases hkp : k = p
          · rw [hkp, hT3p]
            exact Or.inl (fun h => Option.noConfusion h)
          · by_cases hkc : k = c
            · exact Or.inr hkc
            · rw [hT3, if_neg hkp, if_neg hkc]
              exact Or.inl hTk
        · rw [hkv, hT3p]
          exact Or.inl (fun h => Option.noConfusion h)
    -- entries preserved
    · intro x
      constructor
      · rintro ⟨i, hi, hTi⟩
        rw [hT3] at hTi
        by_cases hip : i = p
        · rw [if_pos hip] at hTi
          cases hTi
          exact ⟨c, hc, hTc⟩
        · rw [if_neg hip] at hTi
          by_cases hic : i = c
          · rw [if_pos hic] at hTi
            exact Option.noConfusion hTi
          · rw [if_neg hic] at hTi
            exact ⟨i, hi, hTi⟩
      · rintro ⟨i, hi, hTi⟩
        by_cases hic : i = c
        · rw [hic] at hTi
          rw [hTi] at hTc
          cases hTc
          exact ⟨p, hp, hT3p⟩
        · have hiv : i ≠ p := by
            intro he
            rw [he] at hTi
            rw [hTi] at hTv
            exact Option.noConfusion hTv
          refine ⟨i, hi, ?_⟩
          rw [hT3, if_neg hiv, if_neg hic]
          exact hTi
    -- occupancy preserved
    · have h1 := occCard_tset_none (T := T) hc (by rw [hTc]; rfl)
      have hT2v : tset T c none p = none := by
        rw [tset_ne T _ hvc]
        exact hTv
      have h2 := occCard_tset_some (T := tset T c none) hv hT2v r
      omega
    -- slots ≥ M untouched
    · intro i hi
      rw [hT3, if_neg (by omega), if_neg (by omega)]
    -- termination measure decreases
    · have h1 := phi_tset_none (T := T) hc hTc
      have hT2v : tset T c none p = none := by
        rw [tset_ne T _ hvc]
        exact hTv
      have h2 := phi_tset_some (r := r) (T := tset T c none) hv hT2v
      have h3 : phi (tset (tset T c none) p (some r)) M + 1 ≤ phi T M := by
        omega
      have h4 : (phi (tset (tset T c none) p (some r)) M + 1) * M ≤
          phi T M * M := Nat.mul_le_mul_right M h3
      rw [add_mul, one_mul] at h4
      rw [pdist_succ_self hc hM1]
      omega
  -- Case p = c : the entry is re-inserted where it was; table unchanged.
  · subst hpc'
    have hpv : p ≠ v := fun he => hvc he.symm
    rw [if_neg hpv]
    have hT3T : tset (tset T p none) p (some r) = T := by
      funext j
      by_cases hjp : j = p
      · rw [hjp, tset_eq, hTc]
      · rw [tset_ne _ _ hjp, tset_ne _ _ hjp]
    rw [hT3T]
    have hTcne : T p ≠ none := by
      rw [hTc]
      exact fun h => Option.noConfusion h
    -- the hole is off the probe path of the entry at p
    have hvnp : ¬(pdist M (r % M) v ≤ pdist M (r % M) p) := by
      rcases hvnotpath with h | h
      · exact h
      · exact absurd h hpv
    refine ⟨⟨Nat.mod_lt _ hM, hv, hTv, hinj, ?_, ?_⟩, ?_, ?_, ?_, ?_⟩
    -- settled entries
    · intro j x hj hTj hns
      by_cases hjp : j = p
      · subst hjp
        rw [hTj] at hTc
        cases hTc
        intro k hk honk
        rcases hexc k hk honk with hTk | hkv
        · exact hTk
        · exfalso
          rw [hkv] at honk
          exact hvnp honk
      · have hnso : ¬pending T M p j := by
          intro hop
          exact hns ((pending_succ_iff hc hj hjp hTcne).mp hop)
        exact hsettled j x hj hTj hnso
    -- pending entries
    · intro j x hj hTj hpend
      have hjp : j ≠ p := by
        intro he
        have hle : pdist M ((p + 1) % M) v ≤ pdist M ((p + 1) % M) j := by
          rw [he, pdist_succ_self hc hM1]
          have h1 := pdist_lt (Nat.mod_lt (p + 1) hM) hv
          omega
        exact hpend v hv hle hTv
      have hop : pending T M p j := (pending_succ_iff hc hj hjp hTcne).mpr hpend
      exact hpending j x hj hTj hop
    · intro x
      exact Iff.rfl
    · rfl
    · intro i _
      rfl
    · have hstep : pdist M ((p + 1) % M) v + 1 = pdist M p v :=
        pdist_step_to hc hv (fun he => hvc he.symm)
      omega

theorem rehashLoop_correct {M : Nat} :
    ∀ fuel T c v, RInv T M c v →
      phi T M * M + pdist M c v < fuel →
      Chain (rehashLoop M fuel T c) M ∧ TInj (rehashLoop M fuel T c) M ∧
      (∀ x, hasId (rehashLoop M fuel T c) M x ↔ hasId T M x) ∧
      occCard (rehashLoop M fuel T c) M = occCard T M ∧
      (∀ i, M ≤ i → rehashLoop M fuel T c i = T i) := by
  intro fuel
  induction fuel with
  | zero => intro T c v hR hm; omega
  | succ n ih =>
    intro T c v hR hm
    cases hTc : T c with
    | none =>
      have heq : rehashLoop M (n + 1) T c = T := by
        simp [rehashLoop, hTc]
      rw [heq]
      exact ⟨rehash_stop hR hTc, hR.2.2.2.1, fun x => Iff.rfl, rfl,
        fun i _ => rfl⟩
    | some r =>
      obtain ⟨p, hp, hins, hR2, hent, hocc, hout, hmeas⟩ := rehash_step hR hTc
      have hloop : rehashLoop M (n + 1) T c =
          rehashLoop M n (tset (tset T c none) p (some r)) ((c + 1) % M) := by
        simp only [rehashLoop, hTc, hins]
      rw [hloop]
      obtain ⟨h1, h2, h3, h4, h5⟩ := ih _ _ _ hR2 (by omega)
      refine ⟨h1, h2, ?_, ?_, ?_⟩
      · intro x
        exact (h3 x).trans (hent x)
      · rw [h4, hocc]
      · intro i hi
        rw [h5 i hi, hout i hi]

/-- Correctness of `remove_map` on a chain-continuous injective table:
the id is removed, no other entry is gained or lost, and chain continuity
is restored by the backward-shift rehash. -/
theorem remove_map_correct {T : Nat → Option Nat} {M id p : Nat}
    (hM : 0 < M) (hch : Chain T M) (hinj : TInj T M)
    (hp : p < M) (hTp : T p = some id) :
    Chain (remove_map T M id) M ∧ TInj (remove_map T M id) M ∧
    (∀ x, hasId (remove_map T M id) M x ↔ (hasId T M x ∧ x ≠ id)) ∧
    occCard (remove_map T M id) M + 1 = occCard T M ∧
    (∀ i, M ≤ i → remove_map T M id i = T i) := by
  have hfind := removeFind_entry hM hch hinj hp hTp
  have hT1p : tset T p none p = none := tset_eq T p none
  have hR : RInv (tset T p none) M ((p + 1) % M) p := by
    refine ⟨Nat.mod_lt _ hM, hp, hT1p, ?_, ?_, ?_⟩
    · intro i j x hi hj hTi hTj
      by_cases hip : i = p
      · rw [hip, hT1p] at hTi
        exact Option.noConfusion hTi
      · by_cases hjp : j = p
        · rw [hjp, hT1p] at hTj
          exact Option.noConfusion hTj
        · rw [tset_ne T _ hip] at hTi
          rw [tset_ne T _ hjp] at hTj
          exact hinj i j x hi hj hTi hTj
    · intro j x hj hT1j hns
      have hjp : j ≠ p := by
        intro he
        rw [he, hT1p] at hT1j
        exact Option.noConfusion hT1j
      have hTj : T j = some x := by
        rw [tset_ne T _ hjp] at hT1j
        exact hT1j
      have hM1 : 1 < M := by omega
      have hfullT : pathOkFull T M j x := hch j x hj hTj
      have hxh : x % M < M := Nat.mod_lt _ hM
      have hpnotpath : ¬(pdist M (x % M) p ≤ pdist M (x % M) j) := by
        intro hle
        apply hns
        intro k hk hkle
        by_cases hkp : k = p
        · exfalso
          rw [hkp, pdist_succ_self hp hM1] at hkle
          have hjlt := pdist_lt (Nat.mod_lt (p + 1) hM) hj
          have hje : pdist M ((p + 1) % M) j = M - 1 := by omega
          rw [← pdist_succ_self hp hM1] at hje
          exact hjp (pdist_right_inj (Nat.mod_lt _ hM) hj hp hje)
        · have hstepk : pdist M ((p + 1) % M) k + 1 = pdist M p k :=
            pdist_step_to hp hk (fun he => hkp he.symm)
          have hstepj : pdist M ((p + 1) % M) j + 1 = pdist M p j :=
            pdist_step_to hp hj (fun he => hjp he.symm)
          have honk : pdist M (x % M) k ≤ pdist M (x % M) j :=
            onPath_sandwich hxh hp hk hj hle (by omega)
          rw [tset_ne T _ hkp]
          exact hfullT k hk honk
      intro k hk honk
      have hkp : k ≠ p := by
        intro he
        rw [he] at honk
        exact hpnotpath honk
      rw [tset_ne T _ hkp]
      exact hfullT k hk honk
    · intro j x hj hT1j hpend
      have hjp : j ≠ p := by
        intro he
        rw [he, hT1p] at hT1j
        exact Option.noConfusion hT1j
      have hTj : T j = some x := by
        rw [tset_ne T _ hjp] at hT1j
        exact hT1j
      have hfullT : pathOkFull T M j x := hch j x hj hTj
      intro k hk honk
      by_cases hkp : k = p
      · exact Or.inr hkp
      · rw [tset_ne T _ hkp]
        exact Or.inl (hfullT k hk honk)
  have hmeas : phi (tset T p none) M * M + pdist M ((p + 1) % M) p <
      rehashFuel M := by
    have h1 : phi (tset T p none) M ≤ M * M := phi_le M
    have h2 : phi (tset T p none) M * M ≤ M * M * M :=
      Nat.mul_le_mul_right M h1
    have h3 : pdist M ((p + 1) % M) p < M := pdist_lt (Nat.mod_lt _ hM) hp
    unfold rehashFuel
    omega
  obtain ⟨h1, h2, h3, h4, h5⟩ := rehashLoop_correct (rehashFuel M) _ _ _ hR hmeas
  have hrm : remove_map T M id =
      rehashLoop M (rehashFuel M) (tset T p none) ((p + 1) % M) := by
    unfold remove_map
    rw [hfind]
  rw [hrm]
  refine ⟨h1, h2, ?_, ?_, ?_⟩
  · intro x
    rw [h3 x]
    constructor
    · rintro ⟨i, hi, hT1i⟩
      have hip : i ≠ p := by
        intro he
        rw [he, hT1p] at hT1i
        exact Option.noConfusion hT1i
      rw [tset_ne T _ hip] at hT1i
      refine ⟨⟨i, hi, hT1i⟩, ?_⟩
      intro he
      rw [he] at hT1i
      exact hip (hinj i p id hi hp hT1i hTp)
    · rintro ⟨⟨i, hi, hTi⟩, hxid⟩
      have hip : i ≠ p := by
        intro he
        rw [he, hTp] at hTi
        cases hTi
        exact hxid rfl
      refine ⟨i, hi, ?_⟩
      rw [tset_ne T _ hip]
      exact hTi
  · rw [h4]
    have := occCard_tset_none (T := T) hp (by rw [hTp]; rfl)
    omega
  · intro i hi
    rw [h5 i hi, tset_ne T _ (by omega)]

/-! ### Best-price scan lemmas -/

theorem askScan_spec (b : Book) :
    ∀ fuel (p : Int), p ≤ b.maxPrice + 1 →
      (b.maxPrice + 1 - p).toNat < fuel →
      p ≤ askScan b fuel p ∧ askScan b fuel p ≤ b.maxPrice + 1 ∧
      (∀ q, p ≤ q → q < askScan b fuel p → (b.levels q).order_cnt = 0) ∧
      (askScan b fuel p ≤ b.maxPrice → (b.levels (askScan b fuel p)).order_cnt ≠ 0) := by
  intro fuel
  induction fuel with
  | zero => intro p hp hf; omega
  | succ n ih =>
    intro p hp hf
    unfold askScan
    by_cases hc : p ≤ b.maxPrice ∧ (b.levels p).order_cnt = 0
    · rw [if_pos hc]
      obtain ⟨h1, h2, h3, h4⟩ := ih (p + 1) (by omega) (by omega)
      refine ⟨by omega, h2, ?_, h4⟩
      intro q hq1 hq2
      rcases eq_or_lt_of_le hq1 with he | hlt
      · rw [← he]; exact hc.2
      · exact h3 q (by omega) hq2
    · rw [if_neg hc]
      refine ⟨le_refl p, hp, ?_, ?_⟩
      · intro q hq1 hq2; omega
      · intro hle
        rcases Decidable.not_and_iff_or_not.mp hc with h | h
        · exact absurd hle h
        · exact h

theorem bidScan_spec (b : Book) :
    ∀ fuel (p : Int), -1 ≤ p →
      (p + 1).toNat < fuel →
      bidScan b fuel p ≤ p ∧ -1 ≤ bidScan b fuel p ∧
      (∀ q, bidScan b fuel p < q → q ≤ p → (b.levels q).order_cnt = 0) ∧
      (0 ≤ bidScan b fuel p → (b.levels (bidScan b fuel p)).order_cnt ≠ 0) := by
  intro fuel
  induction fuel with
  | zero => intro p hp hf; omega
  | succ n ih =>
    intro p hp hf
    unfold bidScan
    by_cases hc : 0 ≤ p ∧ (b.levels p).order_cnt = 0
    · rw [if_pos hc]
      obtain ⟨h1, h2, h3, h4⟩ := ih (p - 1) (by omega) (by omega)
      refine ⟨by omega, h2, ?_, h4⟩
      intro q hq1 hq2
      rcases eq_or_lt_of_le hq2 with he | hlt
      · rw [he]; exact hc.2
      · exact h3 q hq1 (by omega)
    · rw [if_neg hc]
      refine ⟨le_refl p, hp, ?_, ?_⟩
      · intro q hq1 hq2; omega
      · intro hle
        rcases Decidable.not_and_iff_or_not.mp hc with h | h
        · exact absurd hle h
        · exact h

theorem update_best_ask_spec (b : Book) (hub : b.best_ask ≤ b.maxPrice + 1) :
    b.best_ask ≤ b.update_best_ask.best_ask ∧
    b.update_best_ask.best_ask ≤ b.maxPrice + 1 ∧
    (∀ q, b.best_ask ≤ q → q < b.update_best_ask.best_ask →
      (b.levels q).order_cnt = 0) ∧
    (b.update_best_ask.best_ask ≤ b.maxPrice →
      (b.levels b.update_best_ask.best_ask).order_cnt ≠ 0) := by
  have h := askScan_spec b (b.maxPrice + 2 - b.best_ask).toNat b.best_ask hub
    (by omega)
  exact h

theorem update_best_bid_spec (b : Book) (hlb : -1 ≤ b.best_bid) :
    b.update_best_bid.best_bid ≤ b.best_bid ∧
    -1 ≤ b.update_best_bid.best_bid ∧
    (∀ q, b.update_best_bid.best_bid < q → q ≤ b.best_bid →
      (b.levels q).order_cnt = 0) ∧
    (0 ≤ b.update_best_bid.best_bid →
      (b.levels b.update_best_bid.best_bid).order_cnt ≠ 0) := by
  have h := bidScan_spec b (b.best_bid + 2).toNat b.best_bid hlb (by omega)
  exact h

/-! ### Heap and level sum lemmas -/

theorem sset_eq (S : Nat → Option Order) (i : Nat) (v : Option Order) :
    sset S i v i = v := by
  simp [sset]

theorem sset_ne (S : Nat → Option Order) {i j : Nat} (v : Option Order)
    (h : j ≠ i) : sset S i v j = S j := by
  simp [sset, h]

theorem sumQty_congr {S S2 : Nat → Option Order} {l : List Nat}
    (h : ∀ id, id ∈ l → S id = S2 id) : sumQty S l = sumQty S2 l := by
  unfold sumQty
  congr 1
  exact List.map_congr_left fun id hid => by unfold getQty; rw [h id hid]

theorem sumQty_sset_not_mem {S : Nat → Option Order} {l : List Nat}
    {id : Nat} (v : Option Order) (h : id ∉ l) :
    sumQty (sset S id v) l = sumQty S l :=
  sumQty_congr fun x hx => sset_ne S v (fun he => h (he ▸ hx))

theorem sumQty_append (S : Nat → Option Order) (l : List Nat) (id : Nat) :
    sumQty S (l ++ [id]) = sumQty S l + getQty S id := by
  unfold sumQty
  rw [List.map_append, List.sum_append]
  simp

theorem sumQty_cons (S : Nat → Option Order) (l : List Nat) (id : Nat) :
    sumQty S (id :: l) = getQty S id + sumQty S l := by
  unfold sumQty
  simp

theorem sumQty_erase {S : Nat → Option Order} {l : List Nat} {id : Nat}
    (h : id ∈ l) : sumQty S l = getQty S id + sumQty S (l.erase id) := by
  have hperm : List.Perm l (id :: l.erase id) := List.perm_cons_erase h
  unfold sumQty
  rw [(hperm.map (getQty S)).sum_eq]
  simp

/-! ### Insertion into the order index -/

theorem insert_tset_correct {T : Nat → Option Nat} {M id p : Nat}
    (hM : 0 < M) (hch : Chain T M) (hinj : TInj T M)
    (hp : p < M) (hTp : T p = none)
    (hfirst : ∀ j, j < M → pdist M (id % M) j < pdist M (id % M) p → T j ≠ none)
    (habs : ∀ i, i < M → T i ≠ some id) :
    Chain (tset T p (some id)) M ∧ TInj (tset T p (some id)) M ∧
    (∀ x, hasId (tset T p (some id)) M x ↔ (hasId T M x ∨ x = id)) ∧
    occCard (tset T p (some id)) M = occCard T M + 1 ∧
    (∀ i, M ≤ i → tset T p (some id) i = T i) := by
  refine ⟨?_, ?_, ?_, occCard_tset_some hp hTp id, ?_⟩
  · intro i r hi hTi j hj honp
    by_cases hip : i = p
    · rw [hip, tset_eq] at hTi
      cases hTi
      by_cases hjp : j = p
      · rw [hjp, tset_eq]
        exact fun h => Option.noConfusion h
      · have hlt : pdist M (id % M) j < pdist M (id % M) p := by
          have hne : pdist M (id % M) j ≠ pdist M (id % M) p :=
            fun he => hjp (pdist_right_inj (Nat.mod_lt _ hM) hj hp he)
          rw [hip] at honp
          unfold onPath at honp
          omega
        rw [tset_ne T _ hjp]
        exact hfirst j hj hlt
    · rw [tset_ne T _ hip] at hTi
      have hTj : T j ≠ none := hch i r hi hTi j hj honp
      by_cases hjp : j = p
      · rw [hjp, tset_eq]
        exact fun h => Option.noConfusion h
      · rw [tset_ne T _ hjp]
        exact hTj
  · intro i j r hi hj hTi hTj
    by_cases hip : i = p <;> by_cases hjp : j = p
    · rw [hip, hjp]
    · rw [hip, tset_eq] at hTi
      rw [tset_ne T _ hjp] at hTj
      cases hTi
      exact absurd hTj (habs j hj)
    · rw [hjp, tset_eq] at hTj
      rw [tset_ne T _ hip] at hTi
      cases hTj
      exact absurd hTi (habs i hi)
    · rw [tset_ne T _ hip] at hTi
      rw [tset_ne T _ hjp] at hTj
      exact hinj i j r hi hj hTi hTj
  · intro x
    constructor
    · rintro ⟨i, hi, hTi⟩
      by_cases hip : i = p
      · rw [hip, tset_eq] at hTi
        cases hTi
        exact Or.inr rfl
      · rw [tset_ne T _ hip] at hTi
        exact Or.inl ⟨i, hi, hTi⟩
    · rintro (⟨i, hi, hTi⟩ | he)
      · have hip : i ≠ p := by
          intro h
          rw [h, hTp] at hTi
          exact Option.noConfusion hTi
        exact ⟨i, hi, by rw [tset_ne T _ hip]; exact hTi⟩
      · exact ⟨p, hp, by rw [he, tset_eq]⟩
  · intro i hi
    rw [tset_ne T _ (by omega)]

/-! ### The initial book -/

theorem inv_init (P : Int) (M : Nat) (hP : 0 ≤ P) (hM : 0 < M) :
    Inv (Book.init P M) := by
  refine ⟨⟨hP, hM, by simp [Book.init]; omega, by simp [Book.init],
    by simp [Book.init], ?_, ?_, ?_, ?_, ?_, ?_, ?_, ?_, ?_, ?_, ?_, ?_, ?_,
    ?_, ?_, ?_⟩, ?_, ?_⟩
  · intro p _ _; rfl
  · intro p _; rfl
  · intro id o h; exact Option.noConfusion h
  · intro id o h; exact Option.noConfusion h
  · intro id o h; exact Option.noConfusion h
  · intro p id h; exact absurd h (List.not_mem_nil id)
  · intro p; rfl
  · intro p; rfl
  · intro i id _ h; exact Option.noConfusion h
  · intro id h; exact absurd h (by simp [Book.init])
  · intro i _; rfl
  · intro i j r _ _ h; exact Option.noConfusion h
  · intro i r _ h; exact Option.noConfusion h
  · simp [occCard, Book.init]
  · rfl
  · simp [Book.init]
  · intro h; simp [Book.init] at h
  · intro h; simp [Book.init] at h

theorem occCard_pos_of_hasId {T : Nat → Option Nat} {M x : Nat}
    (h : hasId T M x) : 0 < occCard T M := by
  obtain ⟨i, hi, hTi⟩ := h
  refine Finset.card_pos.mpr ⟨i, ?_⟩
  simp [Finset.mem_filter, Finset.mem_range, hi, hTi]

/-- Effect of `OrderBook::remove_from_book` on a live order: the core
invariant is preserved, the order disappears from the heap, its level and
the index, and both counters drop by one; nothing else changes. -/
theorem remove_from_book_spec {b : Book} {o : Order} (hI : InvCore b)
    (ho : b.store o.id = some o) :
    InvCore (b.remove_from_book o) ∧
    (b.remove_from_book o).pool_used + 1 = b.pool_used ∧
    (b.remove_from_book o).total_orders + 1 = b.total_orders ∧
    (∀ q : Int, q ≠ o.price → (b.remove_from_book o).levels q = b.levels q) ∧
    (∀ x, x ≠ o.id → (b.remove_from_book o).store x = b.store x) := by
  obtain ⟨hP, hM, hcross, hlb, hub, hgap, hout, hsok, hsside, hslevel,
    hlstore, haggq, haggc, hmlive, hlmap, hmout, hminj, hmchain, hmcard,
    hpeq, hple⟩ := hI
  have hcnt1 : (b.levels o.price).orders.count o.id = 1 := hslevel o.id o ho
  have hmem : o.id ∈ (b.levels o.price).orders := by
    have : 0 < (b.levels o.price).orders.count o.id := by omega
    exact List.count_pos_iff.mp this
  have hpos : hasId b.order_map b.maxOrders o.id :=
    hlmap o.id (by rw [ho]; rfl)
  obtain ⟨i, hi, hTi⟩ := hpos
  obtain ⟨hch2, hinj2, hent2, hocc2, hout2⟩ :=
    remove_map_correct hM hmchain hminj hi hTi
  have hocc_pos : 0 < occCard b.order_map b.maxOrders :=
    occCard_pos_of_hasId ⟨i, hi, hTi⟩
  have hpool_pos : 0 < b.pool_used := by omega
  have hnotgap : ¬(b.best_bid < o.price ∧ o.price < b.best_ask) := by
    rintro ⟨h1, h2⟩
    rw [hgap o.price h1 h2] at hmem
    exact List.not_mem_nil o.id hmem
  have hprange : 0 ≤ o.price ∧ o.price ≤ b.maxPrice := by
    obtain ⟨_, h1, h2, _, _⟩ := hsok o.id o ho
    exact ⟨h1, h2⟩
  have hoidnotin : ∀ p : Int, p ≠ o.price → o.id ∉ (b.levels p).orders := by
    intro p hne hin
    obtain ⟨o2, ho2, hpr⟩ := hlstore p o.id hin
    rw [ho] at ho2
    cases ho2
    exact hne hpr.symm
  have hnotin_erase : o.id ∉ ((b.levels o.price).orders.erase o.id) := by
    intro hin
    have := List.count_erase_self o.id (b.levels o.price).orders
    have h2 := List.count_pos_iff.mpr hin
    omega
  refine ⟨⟨hP, hM, hcross, hlb, hub, ?_, ?_, ?_, ?_, ?_, ?_, ?_, ?_, ?_, ?_,
    ?_, ?_, ?_, ?_, ?_, ?_⟩, by show b.pool_used - 1 + 1 = b.pool_used; omega,
    by show b.total_orders - 1 + 1 = b.total_orders; omega, ?_, ?_⟩
  · intro p h1 h2
    show (lset b.levels o.price _ p).orders = []
    have hne : p ≠ o.price := fun he => hnotgap (he ▸ ⟨h1, h2⟩)
    rw [lset, if_neg hne]
    exact hgap p h1 h2
  · intro p hpr
    have hmp : (b.remove_from_book o).maxPrice = b.maxPrice := rfl
    rw [hmp] at hpr
    show (lset b.levels o.price _ p).orders = []
    have hne : p ≠ o.price := by
      rcases hpr with h | h <;> omega
    rw [lset, if_neg hne]
    exact hout p hpr
  · intro x ox hx
    have hxne : x ≠ o.id := by
      intro he
      rw [he] at hx
      show False
      have : sset b.store o.id none o.id = some ox := hx
      rw [sset_eq] at this
      exact Option.noConfusion this
    rw [show (b.remove_from_book o).store x = b.store x from sset_ne _ _ hxne] at hx
    exact hsok x ox hx
  · intro x ox hx
    have hxne : x ≠ o.id := by
      intro he
      rw [he] at hx
      have : sset b.store o.id none o.id = some ox := hx
      rw [sset_eq] at this
      exact Option.noConfusion this
    rw [show (b.remove_from_book o).store x = b.store x from sset_ne _ _ hxne] at hx
    exact hsside x ox hx
  · intro x ox hx
    have hxne : x ≠ o.id := by
      intro he
      rw [he] at hx
      have : sset b.store o.id none o.id = some ox := hx
      rw [sset_eq] at this
      exact Option.noConfusion this
    rw [show (b.remove_from_book o).store x = b.store x from sset_ne _ _ hxne] at hx
    have h1 := hslevel x ox hx
    show (lset b.levels o.price _ ox.price).orders.count x = 1
    by_cases hpr : ox.price = o.price
    · rw [hpr, lset, if_pos rfl]
      show ((b.levels o.price).orders.erase o.id).count x = 1
      rw [List.count_erase_of_ne hxne]
      rw [hpr] at h1
      exact h1
    · rw [lset, if_neg hpr]
      exact h1
  · intro p x hx
    by_cases hpr : p = o.price
    · have hx2 : x ∈ (b.levels o.price).orders.erase o.id := by
        have hlv : (b.remove_from_book o).levels p =
            (b.levels o.price).removeOrd o := by
          show lset b.levels o.price _ p = _
          rw [hpr, lset, if_pos rfl]
        rw [hlv] at hx
        exact hx
      have hxne : x ≠ o.id := by
        intro he
        rw [he] at hx2
        exact hnotin_erase hx2
      have hxin : x ∈ (b.levels o.price).orders := List.mem_of_mem_erase hx2
      obtain ⟨o2, ho2, hpr2⟩ := hlstore o.price x hxin
      refine ⟨o2, ?_, by rw [hpr]; exact hpr2⟩
      rw [show (b.remove_from_book o).store x = b.store x from sset_ne _ _ hxne]
      exact ho2
    · have hx2 : x ∈ (b.levels p).orders := by
        have : (b.remove_from_book o).levels p = b.levels p := by
          show lset b.levels o.price _ p = b.levels p
          rw [lset, if_neg hpr]
        rw [this] at hx
        exact hx
      obtain ⟨o2, ho2, hpr2⟩ := hlstore p x hx2
      have hxne : x ≠ o.id := by
        intro he
        rw [he, ho] at ho2
        cases ho2
        exact hpr (hpr2 ▸ rfl)
      refine ⟨o2, ?_, hpr2⟩
      rw [show (b.remove_from_book o).store x = b.store x from sset_ne _ _ hxne]
      exact ho2
  · intro p
    by_cases hpr : p = o.price
    · show (lset b.levels o.price ((b.levels o.price).removeOrd o) p).total_qty =
        sumQty (sset b.store o.id none)
          ((lset b.levels o.price ((b.levels o.price).removeOrd o) p).orders)
      rw [hpr, lset, if_pos rfl]
      show (b.levels o.price).total_qty - o.qty =
        sumQty (sset b.store o.id none) ((b.levels o.price).orders.erase o.id)
      rw [sumQty_sset_not_mem _ hnotin_erase]
      have hsum := sumQty_erase (S := b.store) hmem
      have hget : getQty b.store o.id = o.qty := by
        unfold getQty
        rw [ho]
      have haq := haggq o.price
      omega
    · show (lset b.levels o.price _ p).total_qty =
        sumQty (sset b.store o.id none) ((lset b.levels o.price _ p).orders)
      rw [lset, if_neg hpr]
      rw [sumQty_sset_not_mem _ (hoidnotin p hpr)]
      exact haggq p
  · intro p
    by_cases hpr : p = o.price
    · show (lset b.levels o.price ((b.levels o.price).removeOrd o) p).order_cnt =
        ((lset b.levels o.price ((b.levels o.price).removeOrd o) p).orders).length
      rw [hpr, lset, if_pos rfl]
      show (b.levels o.price).order_cnt - 1 =
        ((b.levels o.price).orders.erase o.id).length
      rw [List.length_erase_of_mem hmem, haggc o.price]
    · show (lset b.levels o.price _ p).order_cnt =
        ((lset b.levels o.price _ p).orders).length
      rw [lset, if_neg hpr]
      exact haggc p
  · intro i2 x hi2 hmx
    have hx : hasId b.order_map b.maxOrders x ∧ x ≠ o.id :=
      (hent2 x).mp ⟨i2, hi2, hmx⟩
    obtain ⟨⟨i3, hi3, hTi3⟩, hxne⟩ := hx
    have := hmlive i3 x hi3 hTi3
    rw [show (b.remove_from_book o).store x = b.store x from sset_ne _ _ hxne]
    exact this
  · intro x hx
    have hxne : x ≠ o.id := by
      intro he
      rw [he, show (b.remove_from_book o).store o.id = none from sset_eq _ _ _] at hx
      simp at hx
    rw [show (b.remove_from_book o).store x = b.store x from sset_ne _ _ hxne] at hx
    exact (hent2 x).mpr ⟨hlmap x hx, hxne⟩
  · intro i2 hi2
    rw [show (b.remove_from_book o).order_map i2 =
      remove_map b.order_map b.maxOrders o.id i2 from rfl, hout2 i2 hi2]
    exact hmout i2 hi2
  · exact hinj2
  · exact hch2
  · show occCard (remove_map b.order_map b.maxOrders o.id) b.maxOrders =
      b.pool_used - 1
    omega
  · show b.pool_used - 1 = b.total_orders - 1
    omega
  · show b.pool_used - 1 ≤ b.maxOrders
    omega
  · intro q hq
    show lset b.levels o.price _ q = b.levels q
    rw [lset, if_neg hq]
  · intro x hx
    exact sset_ne _ _ hx

theorem lset_eq (L : Int → PriceLevel) (p : Int) (v : PriceLevel) :
    lset L p v p = v := by
  simp [lset]

theorem lset_ne (L : Int → PriceLevel) {p q : Int} (v : PriceLevel)
    (h : q ≠ p) : lset L p v q = L q := by
  simp [lset, h]

theorem matchLevelGo_nonpos (p : Int) (fuel : Nat) (b : Book) {qty : Int}
    (h : qty ≤ 0) : matchLevelGo p fuel b qty = (b, qty) := by
  cases fuel with
  | zero => rfl
  | succ n =>
    unfold matchLevelGo
    rw [if_neg]
    rintro ⟨h1, _⟩
    omega

/-- Filling the head order completely and then removing it produces the
same state as removing the original order outright. -/
theorem fill_then_remove (b : Book) (o : Order) (fill : Int) :
    Book.remove_from_book
      { b with
        store := sset b.store o.id (some { o with qty := o.qty - fill })
        levels := lset b.levels o.price ((b.levels o.price).reduce_qty fill) }
      { o with qty := o.qty - fill } =
    b.remove_from_book o := by
  unfold Book.remove_from_book
  apply Book.ext
  · rfl
  · rfl
  · funext q
    simp only [lset, PriceLevel.removeOrd, PriceLevel.reduce_qty]
    split_ifs with hq
    · simp only [PriceLevel.mk.injEq]
      refine ⟨trivial, trivial, by ring⟩
    · rfl
  · rfl
  · rfl
  · rfl
  · rfl
  · rfl
  · funext x
    simp only [sset]
    split_ifs with hx
    · rfl
    · rfl

/-- Behaviour of the level fill loop `match_level` on a state satisfying
the core invariant: the core invariant is preserved, only the level at `p`
and the orders resting there are touched, the best prices and parameters
are unchanged, removals are reflected in the counters, and the loop can
leave unfilled quantity only by exhausting the level. -/
theorem matchLevelGo_spec (p : Int) :
    ∀ fuel b qty, InvCore b →
      (b.levels p).orders.length < fuel →
      InvCore (matchLevelGo p fuel b qty).1 ∧
      (matchLevelGo p fuel b qty).1.maxPrice = b.maxPrice ∧
      (matchLevelGo p fuel b qty).1.maxOrders = b.maxOrders ∧
      (matchLevelGo p fuel b qty).1.best_bid = b.best_bid ∧
      (matchLevelGo p fuel b qty).1.best_ask = b.best_ask ∧
      (∀ q : Int, q ≠ p →
        (matchLevelGo p fuel b qty).1.levels q = b.levels q) ∧
      ((matchLevelGo p fuel b qty).1.total_orders +
          (b.levels p).orders.length =
        b.total_orders + ((matchLevelGo p fuel b qty).1.levels p).orders.length) ∧
      (matchLevelGo p fuel b qty).1.pool_used ≤ b.pool_used ∧
      ((matchLevelGo p fuel b qty).1.pool_used = b.pool_used →
        (matchLevelGo p fuel b qty = (b, qty)) ∨ (matchLevelGo p fuel b qty).2 = 0) ∧
      (0 < (matchLevelGo p fuel b qty).2 → 0 < qty →
        ((matchLevelGo p fuel b qty).1.levels p).order_cnt = 0) := by
  intro fuel
  induction fuel with
  | zero => intro b qty hI hlen; omega
  | succ n ih =>
    intro b qty hI hlen
    by_cases hg : 0 < qty ∧ (b.levels p).order_cnt ≠ 0
    · cases hh : (b.levels p).orders with
      | nil =>
        exfalso
        have := hI.agg_cnt p
        rw [hh] at this
        exact hg.2 (by simpa using this)
      | cons oid t =>
        have hmem : oid ∈ (b.levels p).orders := by
          rw [hh]
          exact List.mem_cons_self oid t
        obtain ⟨o, ho, hopr⟩ := hI.level_store p oid hmem
        obtain ⟨hoid, hpr0, hpr1, hq0, hqle⟩ := hI.store_ok oid o ho
        subst hoid
        subst hopr
        have hstep : matchLevelGo o.price (n + 1) b qty =
            (if o.qty - min qty o.qty ≤ 0 then
              matchLevelGo o.price n
                (Book.remove_from_book
                  { b with
                    store := sset b.store o.id
                      (some { o with qty := o.qty - min qty o.qty })
                    levels := lset b.levels o.price
                      ((b.levels o.price).reduce_qty (min qty o.qty)) }
                  { o with qty := o.qty - min qty o.qty })
                (qty - min qty o.qty)
            else
              matchLevelGo o.price n
                { b with
                  store := sset b.store o.id
                    (some { o with qty := o.qty - min qty o.qty })
                  levels := lset b.levels o.price
                    ((b.levels o.price).reduce_qty (min qty o.qty)) }
                (qty - min qty o.qty)) := by
          simp only [matchLevelGo]
          rw [if_pos hg, hh]
          simp only [List.head?_cons, ho]
        by_cases hfull : o.qty - min qty o.qty ≤ 0
        · rw [hstep, if_pos hfull, fill_then_remove b o (min qty o.qty)]
          obtain ⟨hIr, hpool, htot, hlevq, hstq⟩ := remove_from_book_spec hI ho
          have hlvr : ((b.remove_from_book o).levels o.price).orders = t := by
            show ((lset b.levels o.price ((b.levels o.price).removeOrd o))
              o.price).orders = t
            rw [lset_eq]
            show (b.levels o.price).orders.erase o.id = t
            rw [hh, List.erase_cons_head]
          have hlen2 : ((b.remove_from_book o).levels o.price).orders.length < n := by
            rw [hlvr]
            rw [hh] at hlen
            simpa using hlen
          obtain ⟨i1, i2, i3, i4, i5, i6, i7, i8, i9, i10⟩ :=
            ih (b.remove_from_book o) (qty - min qty o.qty) hIr hlen2
          have hblen : (b.levels o.price).orders.length = t.length + 1 := by
            rw [hh]
            rfl
          have hrb : (b.remove_from_book o).best_bid = b.best_bid := rfl
          have hra : (b.remove_from_book o).best_ask = b.best_ask := rfl
          have hrm : (b.remove_from_book o).maxPrice = b.maxPrice := rfl
          have hrmo : (b.remove_from_book o).maxOrders = b.maxOrders := rfl
          refine ⟨i1, i2.trans hrm, i3.trans hrmo, i4.trans hrb, i5.trans hra,
            ?_, ?_, ?_, ?_, ?_⟩
          · intro q hq
            rw [i6 q hq, hlevq q hq]
          · rw [hlvr] at i7
            simp only [List.length_cons]
            have e1 : (b.remove_from_book o).total_orders + 1 =
              b.total_orders := htot
            omega
          · have e1 : (b.remove_from_book o).pool_used + 1 = b.pool_used :=
              hpool
            omega
          · intro hcontr
            have e1 : (b.remove_from_book o).pool_used + 1 = b.pool_used :=
              hpool
            exact absurd hcontr (by omega)
          · intro h1 h2
            by_cases hq2 : 0 < qty - min qty o.qty
            · exact i10 h1 hq2
            · exfalso
              rw [matchLevelGo_nonpos o.price n _ (by omega)] at h1
              omega
        · rw [hstep, if_neg hfull]
          have hq2 : qty - min qty o.qty = 0 := by
            rcases min_choice qty o.qty with hm | hm <;> omega
          rw [hq2, matchLevelGo_nonpos o.price n _ (le_refl 0)]
          have hq0' : 0 < o.qty - min qty o.qty := by omega
          have ho2qty : min qty o.qty = qty := by
            rcases min_choice qty o.qty with hm | hm <;> omega
          have hnotin_t : o.id ∉ t := by
            intro hin
            have hcnt := hI.store_level o.id o ho
            rw [hh] at hcnt
            have := List.count_cons_self o.id t
            have hpos := List.count_pos_iff.mpr hin
            simp [List.count_cons] at hcnt
            omega
          have hoidnotin : ∀ q : Int, q ≠ o.price →
              o.id ∉ (b.levels q).orders := by
            intro q hne hin
            obtain ⟨o3, ho3, hpr3⟩ := hI.level_store q o.id hin
            rw [ho] at ho3
            cases ho3
            exact hne hpr3.symm
          obtain ⟨hP, hM, hcross, hlb, hub, hgap, hout, hsok, hsside,
            hslevel, hlstore, haggq, haggc, hmlive, hlmap, hmout, hminj,
            hmchain, hmcard, hpeq, hple⟩ := hI
          refine ⟨⟨hP, hM, hcross, hlb, hub, ?_, ?_, ?_, ?_, ?_, ?_, ?_, ?_,
            ?_, ?_, ?_, ?_, ?_, ?_, ?_, ?_⟩, rfl, rfl, rfl, rfl, ?_, ?_,
            le_refl _, fun _ => Or.inr rfl, ?_⟩
          · intro q h1 h2
            by_cases hq : q = o.price
            · show (lset b.levels o.price _ q).orders = []
              rw [hq, lset_eq]
              show (b.levels o.price).orders = []
              exact hgap o.price (hq ▸ h1) (hq ▸ h2)
            · show (lset b.levels o.price _ q).orders = []
              rw [lset_ne _ _ hq]
              exact hgap q h1 h2
          · intro q hqr
            have hqr2 : q < 0 ∨ b.maxPrice < q := hqr
            by_cases hq : q = o.price
            · exfalso
              rw [hq] at hqr2
              rcases hqr2 with h | h <;> omega
            · show (lset b.levels o.price _ q).orders = []
              rw [lset_ne _ _ hq]
              exact hout q hqr2
          · intro x ox hx
            have hx2 : sset b.store o.id
                (some { o with qty := o.qty - min qty o.qty }) x = some ox := hx
            by_cases hxid : x = o.id
            · subst hxid
              rw [sset_eq] at hx2
              cases hx2
              refine ⟨rfl, hpr0, hpr1, ?_, ?_⟩
              · show 0 < o.qty - min qty o.qty
                omega
              · show o.qty - min qty o.qty ≤ o.orig_qty
                omega
            · rw [sset_ne _ _ hxid] at hx2
              exact hsok x ox hx2
          · intro x ox hx
            have hx2 : sset b.store o.id
                (some { o with qty := o.qty - min qty o.qty }) x = some ox := hx
            by_cases hxid : x = o.id
            · subst hxid
              rw [sset_eq] at hx2
              cases hx2
              exact hsside o.id o ho
            · rw [sset_ne _ _ hxid] at hx2
              exact hsside x ox hx2
          · intro x ox hx
            have hx2 : sset b.store o.id
                (some { o with qty := o.qty - min qty o.qty }) x = some ox := hx
            by_cases hxid : x = o.id
            · subst hxid
              rw [sset_eq] at hx2
              cases hx2
              show (lset b.levels o.price
                ((b.levels o.price).reduce_qty (min qty o.qty))
                o.price).orders.count o.id = 1
              rw [lset_eq]
              show (b.levels o.price).orders.count o.id = 1
              exact hslevel o.id o ho
            · rw [sset_ne _ _ hxid] at hx2
              have h1 := hslevel x ox hx2
              by_cases hpq : ox.price = o.price
              · show (lset b.levels o.price _ ox.price).orders.count x = 1
                rw [hpq, lset_eq]
                show (b.levels o.price).orders.count x = 1
                rw [← hpq]
                exact h1
              · show (lset b.levels o.price _ ox.price).orders.count x = 1
                rw [lset_ne _ _ hpq]
                exact h1
          · intro q x hx
            have hx2 : x ∈ (b.levels q).orders := by
              by_cases hq : q = o.price
              · have : (lset b.levels o.price
                    ((b.levels o.price).reduce_qty (min qty o.qty)) q).orders =
                    (b.levels q).orders := by
                  rw [hq, lset_eq]
                  rfl
                rw [← this]
                exact hx
              · have : (lset b.levels o.price
                    ((b.levels o.price).reduce_qty (min qty o.qty)) q).orders =
                    (b.levels q).orders := by
                  rw [lset_ne _ _ hq]
                rw [← this]
                exact hx
            obtain ⟨o3, ho3, hpr3⟩ := hlstore q x hx2
            by_cases hxid : x = o.id
            · refine ⟨{ o with qty := o.qty - min qty o.qty }, ?_, ?_⟩
              · rw [hxid]
                exact sset_eq _ _ _
              · show o.price = q
                rw [hxid, ho] at ho3
                cases ho3
                exact hpr3
            · exact ⟨o3, (sset_ne _ _ hxid).trans ho3, hpr3⟩
          · intro q
            by_cases hq : q = o.price
            · show (lset b.levels o.price _ q).total_qty =
                sumQty _ ((lset b.levels o.price _ q).orders)
              rw [hq, lset_eq]
              show (b.levels o.price).total_qty - min qty o.qty =
                sumQty (sset b.store o.id
                  (some { o with qty := o.qty - min qty o.qty }))
                  ((b.levels o.price).orders)
              have hs1 := sumQty_erase
                (S := sset b.store o.id
                  (some { o with qty := o.qty - min qty o.qty })) hmem
              have hs2 := sumQty_erase (S := b.store) hmem
              have hg1 : getQty (sset b.store o.id
                  (some { o with qty := o.qty - min qty o.qty })) o.id =
                  o.qty - min qty o.qty := by
                unfold getQty
                rw [sset_eq]
              have hg2 : getQty b.store o.id = o.qty := by
                unfold getQty
                rw [ho]
              have hnotin_e : o.id ∉ (b.levels o.price).orders.erase o.id := by
                rw [hh, List.erase_cons_head]
                exact hnotin_t
              have hs3 : sumQty (sset b.store o.id
                  (some { o with qty := o.qty - min qty o.qty }))
                  ((b.levels o.price).orders.erase o.id) =
                  sumQty b.store ((b.levels o.price).orders.erase o.id) :=
                sumQty_sset_not_mem _ hnotin_e
              have haq := haggq o.price
              omega
            · show (lset b.levels o.price _ q).total_qty =
                sumQty _ ((lset b.levels o.price _ q).orders)
              rw [lset_ne _ _ hq]
              rw [sumQty_sset_not_mem _ (hoidnotin q hq)]
              exact haggq q
          · intro q
            by_cases hq : q = o.price
            · show (lset b.levels o.price _ q).order_cnt =
                ((lset b.levels o.price _ q).orders).length
              rw [hq, lset_eq]
              exact haggc o.price
            · show (lset b.levels o.price _ q).order_cnt =
                ((lset b.levels o.price _ q).orders).length
              rw [lset_ne _ _ hq]
              exact haggc q
          · intro i2 x hi2 hmx
            have hmx2 : b.order_map i2 = some x := hmx
            have := hmlive i2 x hi2 hmx2
            by_cases hxid : x = o.id
            · show (sset b.store o.id
                (some { o with qty := o.qty - min qty o.qty }) x).isSome = true
              rw [hxid, sset_eq]
              rfl
            · show (sset b.store o.id
                (some { o with qty := o.qty - min qty o.qty }) x).isSome = true
              rw [sset_ne _ _ hxid]
              exact this
          · intro x hx
            have hx2 : (sset b.store o.id
                (some { o with qty := o.qty - min qty o.qty }) x).isSome = true := hx
            by_cases hxid : x = o.id
            · rw [hxid]
              exact hlmap o.id (by rw [ho]; rfl)
            · rw [sset_ne _ _ hxid] at hx2
              exact hlmap x hx2
          · exact hmout
          · exact hminj
          · exact hmchain
          · exact hmcard
          · exact hpeq
          · exact hple
          · intro q hq
            show lset b.levels o.price _ q = b.levels q
            rw [lset_ne _ _ hq]
          · show b.total_orders + (o.id :: t).length =
              b.total_orders +
                ((lset b.levels o.price
                  ((b.levels o.price).reduce_qty (min qty o.qty))
                  o.price).orders).length
            rw [lset_eq]
            show b.total_orders + (o.id :: t).length =
              b.total_orders + (b.levels o.price).orders.length
            rw [hh]
          · intro hcontr
            simp at hcontr
    · have heq : matchLevelGo p (n + 1) b qty = (b, qty) := by
        unfold matchLevelGo
        rw [if_neg hg]
      rw [heq]
      refine ⟨hI, rfl, rfl, rfl, rfl, fun q _ => rfl, rfl, le_refl _,
        fun _ => Or.inl rfl, ?_⟩
      intro h1 h2
      rcases Decidable.not_and_iff_or_not.mp hg with h | h
      · omega
      · exact Decidable.not_not.mp h

/-- `update_best_ask` restores the full invariant from the core invariant
(plus the bid-side non-emptiness, which it does not touch). -/
theorem restore_ask {b : Book} (hI : InvCore b)
    (hbid : 0 ≤ b.best_bid → (b.levels b.best_bid).orders ≠ []) :
    Inv b.update_best_ask ∧
    b.best_ask ≤ b.update_best_ask.best_ask ∧
    b.update_best_ask.maxPrice = b.maxPrice ∧
    b.update_best_ask.maxOrders = b.maxOrders ∧
    b.update_best_ask.best_bid = b.best_bid ∧
    b.update_best_ask.levels = b.levels ∧
    b.update_best_ask.store = b.store ∧
    b.update_best_ask.order_map = b.order_map ∧
    b.update_best_ask.pool_used = b.pool_used ∧
    b.update_best_ask.total_orders = b.total_orders := by
  obtain ⟨h1, h2, h3, h4⟩ := update_best_ask_spec b hI.ask_ub
  obtain ⟨hP, hM, hcross, hlb, hub, hgap, hout, hsok, hsside, hslevel,
    hlstore, haggq, haggc, hmlive, hlmap, hmout, hminj, hmchain, hmcard,
    hpeq, hple⟩ := hI
  refine ⟨⟨⟨hP, hM, by show b.best_bid < b.update_best_ask.best_ask; omega,
    hlb, by show b.update_best_ask.best_ask ≤ b.maxPrice + 1; omega,
    ?_, hout, hsok, ?_, hslevel, hlstore, haggq, haggc, hmlive, hlmap,
    hmout, hminj, hmchain, hmcard, hpeq, hple⟩, hbid, ?_⟩,
    h1, rfl, rfl, rfl, rfl, rfl, rfl, rfl, rfl⟩
  · intro q hq1 hq2
    by_cases hlt : q < b.best_ask
    · exact hgap q hq1 hlt
    · have hcnt := h3 q (by omega) hq2
      rw [haggc q] at hcnt
      exact List.length_eq_zero.mp hcnt
  · intro x ox hx
    refine ⟨(hsside x ox hx).1, ?_⟩
    intro hside
    have hge : b.best_ask ≤ ox.price := (hsside x ox hx).2 hside
    by_contra hlt
    push_neg at hlt
    have hcnt := h3 ox.price hge hlt
    rw [haggc ox.price] at hcnt
    have hc1 := hslevel x ox hx
    have hm : x ∈ (b.levels ox.price).orders :=
      List.count_pos_iff.mp (by omega)
    rw [List.length_eq_zero.mp hcnt] at hm
    exact List.not_mem_nil x hm
  · intro hle
    have hcnt := h4 hle
    rw [haggc _] at hcnt
    intro hnil
    have hnil2 : (b.levels b.update_best_ask.best_ask).orders = [] := hnil
    rw [hnil2] at hcnt
    exact hcnt rfl

/-- `update_best_bid` restores the full invariant from the core invariant
(plus the ask-side non-emptiness). -/
theorem restore_bid {b : Book} (hI : InvCore b)
    (hask : b.best_ask ≤ b.maxPrice → (b.levels b.best_ask).orders ≠ []) :
    Inv b.update_best_bid ∧
    b.update_best_bid.best_bid ≤ b.best_bid ∧
    b.update_best_bid.maxPrice = b.maxPrice ∧
    b.update_best_bid.maxOrders = b.maxOrders ∧
    b.update_best_bid.best_ask = b.best_ask ∧
    b.update_best_bid.levels = b.levels ∧
    b.update_best_bid.store = b.store ∧
    b.update_best_bid.order_map = b.order_map ∧
    b.update_best_bid.pool_used = b.pool_used ∧
    b.update_best_bid.total_orders = b.total_orders := by
  obtain ⟨h1, h2, h3, h4⟩ := update_best_bid_spec b hI.bid_lb
  obtain ⟨hP, hM, hcross, hlb, hub, hgap, hout, hsok, hsside, hslevel,
    hlstore, haggq, haggc, hmlive, hlmap, hmout, hminj, hmchain, hmcard,
    hpeq, hple⟩ := hI
  refine ⟨⟨⟨hP, hM, by show b.update_best_bid.best_bid < b.best_ask; omega,
    by show (-1 : Int) ≤ b.update_best_bid.best_bid; omega, hub,
    ?_, hout, hsok, ?_, hslevel, hlstore, haggq, haggc, hmlive, hlmap,
    hmout, hminj, hmchain, hmcard, hpeq, hple⟩, ?_, hask⟩,
    h1, rfl, rfl, rfl, rfl, rfl, rfl, rfl, rfl⟩
  · intro q hq1 hq2
    by_cases hgt : b.best_bid < q
    · exact hgap q hgt hq2
    · have hcnt := h3 q hq1 (by omega)
      rw [haggc q] at hcnt
      exact List.length_eq_zero.mp hcnt
  · intro x ox hx
    refine ⟨?_, (hsside x ox hx).2⟩
    intro hside
    have hge : ox.price ≤ b.best_bid := (hsside x ox hx).1 hside
    by_contra hlt
    push_neg at hlt
    have hcnt := h3 ox.price hlt hge
    rw [haggc ox.price] at hcnt
    have hc1 := hslevel x ox hx
    have hm : x ∈ (b.levels ox.price).orders :=
      List.count_pos_iff.mp (by omega)
    rw [List.length_eq_zero.mp hcnt] at hm
    exact List.not_mem_nil x hm
  · intro hle
    have hcnt := h4 hle
    rw [haggc _] at hcnt
    intro hnil
    have hnil2 : (b.levels b.update_best_bid.best_bid).orders = [] := hnil
    rw [hnil2] at hcnt
    exact hcnt rfl

theorem matchGo_nonpos (s : Side) (limit : Int) (fuel : Nat) (b : Book)
    {qty : Int} (h : qty ≤ 0) : matchGo s limit fuel b qty = (b, qty) := by
  cases fuel with
  | zero => cases s <;> rfl
  | succ n =>
    cases s <;>
      (simp only [matchGo]
       rw [if_neg]
       rintro ⟨h1, _⟩
       omega)

theorem mg_step {lim : Int} {s : Side} {n : Nat} {b b3 : Book} {qty q2 : Int}
    (hstep : matchGo s lim (n + 1) b qty = matchGo s lim n b3 q2)
    (j0 : Inv b3) (jmaxP : b3.maxPrice = b.maxPrice)
    (jmaxO : b3.maxOrders = b.maxOrders)
    (jbuy : s = Side.Buy → b3.best_bid = b.best_bid ∧ b.best_ask ≤ b3.best_ask)
    (jsell : s = Side.Sell → b3.best_ask = b.best_ask ∧ b3.best_bid ≤ b.best_bid)
    (jpool : b3.pool_used ≤ b.pool_used)
    (jnext : q2 ≤ 0 ∨ (b3.total_orders + 2 ≤ n ∧ b3.pool_used < b.pool_used))
    (ihn : ∀ b qty, Inv b → b.total_orders + 2 ≤ n → MGStmt lim s n b qty) :
    MGStmt lim s (n + 1) b qty := by
  rcases jnext with hq2 | ⟨hfu, hplt⟩
  · simp only [MGStmt]
    rw [hstep, matchGo_nonpos s lim n b3 hq2]
    refine ⟨j0, jmaxP, jmaxO, ?_, ?_, jpool, fun _ => Or.inr hq2, ?_⟩
    · intro hs
      exact jbuy hs
    · intro hs
      exact jsell hs
    · intro hpos
      exfalso
      have hp : (0 : Int) < q2 := hpos
      omega
  · have hmg := ihn b3 q2 j0 hfu
    simp only [MGStmt] at hmg ⊢
    obtain ⟨k1, k2, k3, k4, k5, k6, k7, k8⟩ := hmg
    rw [hstep]
    refine ⟨k1, by rw [k2, jmaxP], by rw [k3, jmaxO], ?_, ?_,
      le_trans k6 jpool, ?_, ?_⟩
    · intro hs
      obtain ⟨kb, ka⟩ := k4 hs
      obtain ⟨jb, ja⟩ := jbuy hs
      exact ⟨by rw [kb, jb], by omega⟩
    · intro hs
      obtain ⟨ka, kb⟩ := k5 hs
      obtain ⟨ja, jb⟩ := jsell hs
      exact ⟨by rw [ka, ja], by omega⟩
    · intro hpeq
      exfalso
      omega
    · intro hpos
      obtain ⟨kbuy, ksell⟩ := k8 hpos
      refine ⟨?_, ksell⟩
      intro hs
      have hk := kbuy hs
      rw [jmaxP] at hk
      exact hk

/-- Behaviour of the sweeping loop of `match_internal` on an invariant
state, given enough fuel (each productive iteration consumes at least one
resting order): the invariant is preserved, the book bounds are unchanged,
the aggressed side only recedes, the pool only shrinks, an unchanged pool
means nothing happened or the order was exhausted, and leftover quantity
means the loop guard finally failed. -/
theorem matchGo_spec (s : Side) (limit : Int) :
    ∀ fuel b qty, Inv b → b.total_orders + 2 ≤ fuel →
      MGStmt limit s fuel b qty := by
  intro fuel
  induction fuel with
  | zero => intro b qty hI hf; omega
  | succ n ih =>
    intro b qty hI hf
    cases s with
    | Buy =>
      by_cases hg : 0 < qty ∧ b.best_ask ≤ limit ∧ b.best_ask ≤ b.maxPrice
      · have hstep0 : matchGo Side.Buy limit (n + 1) b qty =
            matchGo Side.Buy limit n
              (if ((b.match_level b.best_ask qty).1.levels
                    b.best_ask).order_cnt = 0
               then (b.match_level b.best_ask qty).1.update_best_ask
               else (b.match_level b.best_ask qty).1)
              (b.match_level b.best_ask qty).2 := by
          simp only [matchGo]
          rw [if_pos hg]
        obtain ⟨i1, i2, i3, i4, i5, i6, i7, i8, i9, i10⟩ :=
          matchLevelGo_spec b.best_ask ((b.levels b.best_ask).orders.length + 1)
            b qty hI.toInvCore (Nat.lt_succ_self _)
        have hc1 : InvCore (b.match_level b.best_ask qty).1 := i1
        have hc2 : (b.match_level b.best_ask qty).1.maxPrice = b.maxPrice := i2
        have hc3 : (b.match_level b.best_ask qty).1.maxOrders = b.maxOrders := i3
        have hc4 : (b.match_level b.best_ask qty).1.best_bid = b.best_bid := i4
        have hc5 : (b.match_level b.best_ask qty).1.best_ask = b.best_ask := i5
        have hc7 : (b.match_level b.best_ask qty).1.total_orders +
            (b.levels b.best_ask).orders.length =
            b.total_orders +
              ((b.match_level b.best_ask qty).1.levels b.best_ask).orders.length :=
          i7
        have hc8 : (b.match_level b.best_ask qty).1.pool_used ≤ b.pool_used := i8
        have hc10 : 0 < (b.match_level b.best_ask qty).2 → 0 < qty →
            ((b.match_level b.best_ask qty).1.levels b.best_ask).order_cnt = 0 :=
          i10
        have hc6 : ∀ q : Int, q ≠ b.best_ask →
            (b.match_level b.best_ask qty).1.levels q = b.levels q := i6
        have hbidne : 0 ≤ (b.match_level b.best_ask qty).1.best_bid →
            ((b.match_level b.best_ask qty).1.levels
              (b.match_level b.best_ask qty).1.best_bid).orders ≠ [] := by
          intro h0
          rw [hc4] at h0 ⊢
          rw [hc6 b.best_bid (by have := hI.crossed; omega)]
          exact hI.bid_ne h0
        have hlenb : 0 < (b.levels b.best_ask).orders.length := by
          have hne := hI.ask_ne hg.2.2
          cases hl : (b.levels b.best_ask).orders with
          | nil => exact absurd hl hne
          | cons a t => simp [hl]
        by_cases hcnt : ((b.match_level b.best_ask qty).1.levels
            b.best_ask).order_cnt = 0
        · have hb3 : (if ((b.match_level b.best_ask qty).1.levels
                  b.best_ask).order_cnt = 0
               then (b.match_level b.best_ask qty).1.update_best_ask
               else (b.match_level b.best_ask qty).1) =
              (b.match_level b.best_ask qty).1.update_best_ask := if_pos hcnt
          rw [hb3] at hstep0
          obtain ⟨r1, r2, r3, r4, r5, r6, r7, r8, r9, r10⟩ :=
            restore_ask hc1 hbidne
          refine mg_step hstep0 r1 (by rw [r3, hc2]) (by rw [r4, hc3])
            (fun _ => ⟨by rw [r5, hc4], by omega⟩) (by rintro ⟨⟩)
            (by rw [r9]; exact hc8) ?_ ih
          by_cases hq2 : (b.match_level b.best_ask qty).2 ≤ 0
          · exact Or.inl hq2
          · push_neg at hq2
            have hlenB : ((b.match_level b.best_ask qty).1.levels
                b.best_ask).orders.length = 0 := by
              have := hc1.agg_cnt b.best_ask
              omega
            refine Or.inr ⟨?_, ?_⟩
            · rw [r10]
              omega
            · rw [r9]
              have h1 := hc1.pool_eq
              have h2 := hI.pool_eq
              omega
        · have hb3 : (if ((b.match_level b.best_ask qty).1.levels
                  b.best_ask).order_cnt = 0
               then (b.match_level b.best_ask qty).1.update_best_ask
               else (b.match_level b.best_ask qty).1) =
              (b.match_level b.best_ask qty).1 := if_neg hcnt
          rw [hb3] at hstep0
          have hq2 : (b.match_level b.best_ask qty).2 ≤ 0 := by
            by_contra hq
            push_neg at hq
            exact hcnt (hc10 hq hg.1)
          have haskne : (b.match_level b.best_ask qty).1.best_ask ≤
              (b.match_level b.best_ask qty).1.maxPrice →
              ((b.match_level b.best_ask qty).1.levels
                (b.match_level b.best_ask qty).1.best_ask).orders ≠ [] := by
            intro _
            rw [hc5]
            intro hnil
            have hagg := hc1.agg_cnt b.best_ask
            rw [hnil] at hagg
            exact hcnt (by rw [hagg]; rfl)
          exact mg_step hstep0 ⟨hc1, hbidne, haskne⟩ hc2 hc3
            (fun _ => ⟨hc4, by omega⟩) (by rintro ⟨⟩) hc8 (Or.inl hq2) ih
      · have heq : matchGo Side.Buy limit (n + 1) b qty = (b, qty) := by
          simp only [matchGo]
          rw [if_neg hg]
        simp only [MGStmt]
        rw [heq]
        refine ⟨hI, rfl, rfl, fun _ => ⟨rfl, le_refl _⟩, by rintro ⟨⟩,
          le_refl _, fun _ => Or.inl rfl, ?_⟩
        intro hpos
        refine ⟨fun _ => ?_, by rintro ⟨⟩⟩
        intro hc
        have hq : (0 : Int) < qty := hpos
        exact hg ⟨hq, hc.1, hc.2⟩
    | Sell =>
      by_cases hg : 0 < qty ∧ limit ≤ b.best_bid ∧ 0 ≤ b.best_bid
      · have hstep0 : matchGo Side.Sell limit (n + 1) b qty =
            matchGo Side.Sell limit n
              (if ((b.match_level b.best_bid qty).1.levels
                    b.best_bid).order_cnt = 0
               then (b.match_level b.best_bid qty).1.update_best_bid
               else (b.match_level b.best_bid qty).1)
              (b.match_level b.best_bid qty).2 := by
          simp only [matchGo]
          rw [if_pos hg]
        obtain ⟨i1, i2, i3, i4, i5, i6, i7, i8, i9, i10⟩ :=
          matchLevelGo_spec b.best_bid ((b.levels b.best_bid).orders.length + 1)
            b qty hI.toInvCore (Nat.lt_succ_self _)
        have hc1 : InvCore (b.match_level b.best_bid qty).1 := i1
        have hc2 : (b.match_level b.best_bid qty).1.maxPrice = b.maxPrice := i2
        have hc3 : (b.match_level b.best_bid qty).1.maxOrders = b.maxOrders := i3
        have hc4 : (b.match_level b.best_bid qty).1.best_bid = b.best_bid := i4
        have hc5 : (b.match_level b.best_bid qty).1.best_ask = b.best_ask := i5
        have hc7 : (b.match_level b.best_bid qty).1.total_orders +
            (b.levels b.best_bid).orders.length =
            b.total_orders +
              ((b.match_level b.best_bid qty).1.levels b.best_bid).orders.length :=
          i7
        have hc8 : (b.match_level b.best_bid qty).1.pool_used ≤ b.pool_used := i8
        have hc10 : 0 < (b.match_level b.best_bid qty).2 → 0 < qty →
            ((b.match_level b.best_bid qty).1.levels b.best_bid).order_cnt = 0 :=
          i10
        have hc6 : ∀ q : Int, q ≠ b.best_bid →
            (b.match_level b.best_bid qty).1.levels q = b.levels q := i6
        have haskne : (b.match_level b.best_bid qty).1.best_ask ≤
            (b.match_level b.best_bid qty).1.maxPrice →
            ((b.match_level b.best_bid qty).1.levels
              (b.match_level b.best_bid qty).1.best_ask).orders ≠ [] := by
          intro h0
          rw [hc5, hc2] at h0
          rw [hc5]
          rw [hc6 b.best_ask (by have := hI.crossed; omega)]
          exact hI.ask_ne h0
        have hlenb : 0 < (b.levels b.best_bid).orders.length := by
          have hne := hI.bid_ne hg.2.2
          cases hl : (b.levels b.best_bid).orders with
          | nil => exact absurd hl hne
          | cons a t => simp [hl]
        by_cases hcnt : ((b.match_level b.best_bid qty).1.levels
            b.best_bid).order_cnt = 0
        · have hb3 : (if ((b.match_level b.best_bid qty).1.levels
                  b.best_bid).order_cnt = 0
               then (b.match_level b.best_bid qty).1.update_best_bid
               else (b.match_level b.best_bid qty).1) =
              (b.match_level b.best_bid qty).1.update_best_bid := if_pos hcnt
          rw [hb3] at hstep0
          obtain ⟨r1, r2, r3, r4, r5, r6, r7, r8, r9, r10⟩ :=
            restore_bid hc1 haskne
          refine mg_step hstep0 r1 (by rw [r3, hc2]) (by rw [r4, hc3])
            (by rintro ⟨⟩) (fun _ => ⟨by rw [r5, hc5], by omega⟩)
            (by rw [r9]; exact hc8) ?_ ih
          by_cases hq2 : (b.match_level b.best_bid qty).2 ≤ 0
          · exact Or.inl hq2
          · push_neg at hq2
            have hlenB : ((b.match_level b.best_bid qty).1.levels
                b.best_bid).orders.length = 0 := by
              have := hc1.agg_cnt b.best_bid
              omega
            refine Or.inr ⟨?_, ?_⟩
            · rw [r10]
              omega
            · rw [r9]
              have h1 := hc1.pool_eq
              have h2 := hI.pool_eq
              omega
        · have hb3 : (if ((b.match_level b.best_bid qty).1.levels
                  b.best_bid).order_cnt = 0
               then (b.match_level b.best_bid qty).1.update_best_bid
               else (b.match_level b.best_bid qty).1) =
              (b.match_level b.best_bid qty).1 := if_neg hcnt
          rw [hb3] at hstep0
          have hq2 : (b.match_level b.best_bid qty).2 ≤ 0 := by
            by_contra hq
            push_neg at hq
            exact hcnt (hc10 hq hg.1)
          have hbidne : 0 ≤ (b.match_level b.best_bid qty).1.best_bid →
              ((b.match_level b.best_bid qty).1.levels
                (b.match_level b.best_bid qty).1.best_bid).orders ≠ [] := by
            intro _
            rw [hc4]
            intro hnil
            have hagg := hc1.agg_cnt b.best_bid
            rw [hnil] at hagg
            exact hcnt (by rw [hagg]; rfl)
          exact mg_step hstep0 ⟨hc1, hbidne, haskne⟩ hc2 hc3
            (by rintro ⟨⟩) (fun _ => ⟨hc5, by omega⟩) hc8 (Or.inl hq2) ih
      · have heq : matchGo Side.Sell limit (n + 1) b qty = (b, qty) := by
          simp only [matchGo]
          rw [if_neg hg]
        simp only [MGStmt]
        rw [heq]
        refine ⟨hI, rfl, rfl, by rintro ⟨⟩, fun _ => ⟨rfl, le_refl _⟩,
          le_refl _, fun _ => Or.inl rfl, ?_⟩
        intro hpos
        refine ⟨by rintro ⟨⟩, fun _ => ?_⟩
        intro hc
        have hq : (0 : Int) < qty := hpos
        exact hg ⟨hq, hc.1, hc.2⟩

theorem exists_none_of_occCard_lt {T : Nat → Option Nat} {M : Nat}
    (h : occCard T M < M) : ∃ i, i < M ∧ T i = none := by
  by_contra hc
  push_neg at hc
  have hfe : ((Finset.range M).filter fun i => (T i).isSome) = Finset.range M := by
    refine Finset.filter_true_of_mem ?_
    intro i hi
    rw [Finset.mem_range] at hi
    cases hT : T i with
    | none => exact absurd hT (hc i hi)
    | some r => simp [hT]
  have : occCard T M = M := by
    unfold occCard
    rw [hfe]
    exact Finset.card_range M
  omega

/-- The fill loop never materialises an order under an id that was free:
the store domain only shrinks. -/
theorem matchLevelGo_store_none (p : Int) :
    ∀ fuel b qty x, b.store x = none →
      (matchLevelGo p fuel b qty).1.store x = none := by
  intro fuel
  induction fuel with
  | zero => intro b qty x h; exact h
  | succ n ih =>
    intro b qty x h
    by_cases hg : 0 < qty ∧ (b.levels p).order_cnt ≠ 0
    · cases hh : (b.levels p).orders.head? with
      | none =>
        have heq : matchLevelGo p (n + 1) b qty = (b, qty) := by
          simp only [matchLevelGo]
          rw [if_pos hg, hh]
        rw [heq]
        exact h
      | some oid =>
        cases ho : b.store oid with
        | none =>
          have heq : matchLevelGo p (n + 1) b qty = (b, qty) := by
            simp only [matchLevelGo]
            rw [if_pos hg, hh]
            simp only [ho]
          rw [heq]
          exact h
        | some o =>
          have hxo : x ≠ oid := by
            intro he
            rw [he, ho] at h
            exact Option.noConfusion h
          have hstep : matchLevelGo p (n + 1) b qty =
              if o.qty - min qty o.qty ≤ 0 then
                matchLevelGo p n
                  (Book.remove_from_book
                    { b with
                      store := sset b.store oid
                        (some { o with qty := o.qty - min qty o.qty })
                      levels := lset b.levels p
                        ((b.levels p).reduce_qty (min qty o.qty)) }
                    { o with qty := o.qty - min qty o.qty })
                  (qty - min qty o.qty)
              else
                matchLevelGo p n
                  { b with
                    store := sset b.store oid
                      (some { o with qty := o.qty - min qty o.qty })
                    levels := lset b.levels p
                      ((b.levels p).reduce_qty (min qty o.qty)) }
                  (qty - min qty o.qty) := by
            simp only [matchLevelGo]
            rw [if_pos hg, hh]
            simp only [ho]
          rw [hstep]
          by_cases hfull : o.qty - min qty o.qty ≤ 0
          · rw [if_pos hfull]
            apply ih
            show sset (sset b.store oid (some { o with qty := o.qty - min qty o.qty }))
              ({ o with qty := o.qty - min qty o.qty } : Order).id none x = none
            by_cases hx2 : x = ({ o with qty := o.qty - min qty o.qty } : Order).id
            · rw [hx2, sset_eq]
            · rw [sset_ne _ _ hx2, sset_ne _ _ hxo]
              exact h
          · rw [if_neg hfull]
            apply ih
            show sset b.store oid (some { o with qty := o.qty - min qty o.qty }) x = none
            rw [sset_ne _ _ hxo]
            exact h
    · have heq : matchLevelGo p (n + 1) b qty = (b, qty) := by
        simp only [matchLevelGo]
        rw [if_neg hg]
      rw [heq]
      exact h

/-- The sweep loop also only shrinks the store domain. -/
theorem matchGo_store_none (s : Side) (limit : Int) :
    ∀ fuel b qty x, b.store x = none →
      (matchGo s limit fuel b qty).1.store x = none := by
  intro fuel
  induction fuel with
  | zero => intro b qty x h; cases s <;> exact h
  | succ n ih =>
    intro b qty x h
    cases s with
    | Buy =>
      by_cases hg : 0 < qty ∧ b.best_ask ≤ limit ∧ b.best_ask ≤ b.maxPrice
      · have hstep : matchGo Side.Buy limit (n + 1) b qty =
            matchGo Side.Buy limit n
              (if ((b.match_level b.best_ask qty).1.levels
                    b.best_ask).order_cnt = 0
               then (b.match_level b.best_ask qty).1.update_best_ask
               else (b.match_level b.best_ask qty).1)
              (b.match_level b.best_ask qty).2 := by
          simp only [matchGo]
          rw [if_pos hg]
        rw [hstep]
        apply ih
        have hm : (b.match_level b.best_ask qty).1.store x = none :=
          matchLevelGo_store_none b.best_ask _ b qty x h
        by_cases hcnt : ((b.match_level b.best_ask qty).1.levels
            b.best_ask).order_cnt = 0
        · rw [if_pos hcnt]
          exact hm
        · rw [if_neg hcnt]
          exact hm
      · have heq : matchGo Side.Buy limit (n + 1) b qty = (b, qty) := by
          simp only [matchGo]
          rw [if_neg hg]
        rw [heq]
        exact h
    | Sell =>
      by_cases hg : 0 < qty ∧ limit ≤ b.best_bid ∧ 0 ≤ b.best_bid
      · have hstep : matchGo Side.Sell limit (n + 1) b qty =
            matchGo Side.Sell limit n
              (if ((b.match_level b.best_bid qty).1.levels
                    b.best_bid).order_cnt = 0
               then (b.match_level b.best_bid qty).1.update_best_bid
               else (b.match_level b.best_bid qty).1)
              (b.match_level b.best_bid qty).2 := by
          simp only [matchGo]
          rw [if_pos hg]
        rw [hstep]
        apply ih
        have hm : (b.match_level b.best_bid qty).1.store x = none :=
          matchLevelGo_store_none b.best_bid _ b qty x h
        by_cases hcnt : ((b.match_level b.best_bid qty).1.levels
            b.best_bid).order_cnt = 0
        · rw [if_pos hcnt]
          exact hm
        · rw [if_neg hcnt]
          exact hm
      · have heq : matchGo Side.Sell limit (n + 1) b qty = (b, qty) := by
          simp only [matchGo]
          rw [if_neg hg]
        rw [heq]
        exact h

/-- `match()` (the public sweep) preserves the invariant and the book
bounds. -/
theorem match_order_inv {b : Book} (s : Side) (qty : Int) (hI : Inv b) :
    Inv (b.match_order s qty).1 ∧
    (b.match_order s qty).1.maxPrice = b.maxPrice ∧
    (b.match_order s qty).1.maxOrders = b.maxOrders := by
  cases s with
  | Buy =>
    have h := matchGo_spec Side.Buy b.maxPrice (b.total_orders + 2) b qty hI
      (le_refl _)
    simp only [MGStmt] at h
    exact ⟨h.1, h.2.1, h.2.2.1⟩
  | Sell =>
    have h := matchGo_spec Side.Sell 0 (b.total_orders + 2) b qty hI (le_refl _)
    simp only [MGStmt] at h
    exact ⟨h.1, h.2.1, h.2.2.1⟩

/-- Behaviour of the matching prefix of `add`: the invariant and bounds
survive, free ids stay free, a positive remainder means the order price no
longer crosses, and an unchanged pool means nothing was consumed. -/
theorem addMatched_spec {b : Book} (s : Side) (px qty : Int) (hI : Inv b)
    (hpx0 : 0 ≤ px) (hpxP : px ≤ b.maxPrice) :
    Inv (addMatched b s px qty).1 ∧
    (addMatched b s px qty).1.maxPrice = b.maxPrice ∧
    (addMatched b s px qty).1.maxOrders = b.maxOrders ∧
    (∀ x, b.store x = none → (addMatched b s px qty).1.store x = none) ∧
    (0 < (addMatched b s px qty).2 →
      (s = Side.Buy → px < (addMatched b s px qty).1.best_ask) ∧
      (s = Side.Sell → (addMatched b s px qty).1.best_bid < px)) ∧
    (addMatched b s px qty).1.pool_used ≤ b.pool_used ∧
    ((addMatched b s px qty).1.pool_used = b.pool_used →
      addMatched b s px qty = (b, qty) ∨ (addMatched b s px qty).2 ≤ 0) := by
  cases s with
  | Buy =>
    by_cases hc : b.best_ask ≤ px
    · have heq : addMatched b Side.Buy px qty =
          b.match_internal Side.Buy qty px := by
        simp only [addMatched]
        rw [if_pos hc]
      have h := matchGo_spec Side.Buy px (b.total_orders + 2) b qty hI (le_refl _)
      have k1 : Inv (b.match_internal Side.Buy qty px).1 := h.1
      have k2 : (b.match_internal Side.Buy qty px).1.maxPrice = b.maxPrice :=
        h.2.1
      have k3 : (b.match_internal Side.Buy qty px).1.maxOrders = b.maxOrders :=
        h.2.2.1
      have k6 : (b.match_internal Side.Buy qty px).1.pool_used ≤ b.pool_used :=
        h.2.2.2.2.2.1
      have k7 : (b.match_internal Side.Buy qty px).1.pool_used = b.pool_used →
          b.match_internal Side.Buy qty px = (b, qty) ∨
            (b.match_internal Side.Buy qty px).2 ≤ 0 := h.2.2.2.2.2.2.1
      have k8 : 0 < (b.match_internal Side.Buy qty px).2 →
          ¬((b.match_internal Side.Buy qty px).1.best_ask ≤ px ∧
            (b.match_internal Side.Buy qty px).1.best_ask ≤ b.maxPrice) :=
        fun hp => (h.2.2.2.2.2.2.2 hp).1 rfl
      rw [heq]
      refine ⟨k1, k2, k3, ?_, ?_, k6, k7⟩
      · intro x hx
        exact matchGo_store_none Side.Buy px _ b qty x hx
      · intro hpos
        refine ⟨fun _ => ?_, by rintro ⟨⟩⟩
        rcases not_and_or.mp (k8 hpos) with hno | hno
        · omega
        · omega
    · have heq : addMatched b Side.Buy px qty = (b, qty) := by
        simp only [addMatched]
        rw [if_neg hc]
      rw [heq]
      refine ⟨hI, rfl, rfl, fun x hx => hx, ?_, le_refl _, fun _ => Or.inl rfl⟩
      intro _
      exact ⟨fun _ => not_le.mp hc, by rintro ⟨⟩⟩
  | Sell =>
    by_cases hc : px ≤ b.best_bid
    · have heq : addMatched b Side.Sell px qty =
          b.match_internal Side.Sell qty px := by
        simp only [addMatched]
        rw [if_pos hc]
      have h := matchGo_spec Side.Sell px (b.total_orders + 2) b qty hI (le_refl _)
      have k1 : Inv (b.match_internal Side.Sell qty px).1 := h.1
      have k2 : (b.match_internal Side.Sell qty px).1.maxPrice = b.maxPrice :=
        h.2.1
      have k3 : (b.match_internal Side.Sell qty px).1.maxOrders = b.maxOrders :=
        h.2.2.1
      have k6 : (b.match_internal Side.Sell qty px).1.pool_used ≤ b.pool_used :=
        h.2.2.2.2.2.1
      have k7 : (b.match_internal Side.Sell qty px).1.pool_used = b.pool_used →
          b.match_internal Side.Sell qty px = (b, qty) ∨
            (b.match_internal Side.Sell qty px).2 ≤ 0 := h.2.2.2.2.2.2.1
      have k8 : 0 < (b.match_internal Side.Sell qty px).2 →
          ¬(px ≤ (b.match_internal Side.Sell qty px).1.best_bid ∧
            0 ≤ (b.match_internal Side.Sell qty px).1.best_bid) :=
        fun hp => (h.2.2.2.2.2.2.2 hp).2 rfl
      rw [heq]
      refine ⟨k1, k2, k3, ?_, ?_, k6, k7⟩
      · intro x hx
        exact matchGo_store_none Side.Sell px _ b qty x hx
      · intro hpos
        refine ⟨by rintro ⟨⟩, fun _ => ?_⟩
        rcases not_and_or.mp (k8 hpos) with hno | hno
        · omega
        · have hlb : (-1 : Int) ≤ (b.match_internal Side.Sell qty px).1.best_bid :=
            k1.bid_lb
          omega
    · have heq : addMatched b Side.Sell px qty = (b, qty) := by
        simp only [addMatched]
        rw [if_neg hc]
      rw [heq]
      refine ⟨hI, rfl, rfl, fun x hx => hx, ?_, le_refl _, fun _ => Or.inl rfl⟩
      intro _
      exact ⟨by rintro ⟨⟩, fun _ => not_le.mp hc⟩

/-- Past its validation checks, `add` of a resting type is `addTail`. -/
theorem add_eq_commit (b : Book) (id : Nat) (s : Side) (px qty : Int)
    (ty : OrdType) (ts : Nat)
    (hfresh : lookupPos b.order_map b.maxOrders id = none)
    (hq : 0 < qty) (hpx : ¬(px < 0 ∨ b.maxPrice < px))
    (hty : ¬(ty = OrdType.IOC ∨ ty = OrdType.Market)) :
    b.add id s px qty ty ts = addTail b id s px qty ty ts := by
  unfold Book.add
  rw [hfresh]
  simp only [Option.isSome_none, Bool.false_eq_true, if_false]
  rw [if_neg (not_le.mpr hq), if_neg hpx, if_neg hty]
  unfold addTail addMatched restBook
  cases s <;> rfl

/-- Core of the commit step of `add`: linking a fresh order `o` into the
level at its price, placing its id at the vacant probe slot `p`, and moving
the touched best to `nbid`/`nask` yields an invariant book again. -/
theorem commit_inv {b1 : Book} {o : Order} {p : Nat} {nbid nask : Int}
    (hI : Inv b1) (hfresh : b1.store o.id = none)
    (hpx0 : 0 ≤ o.price) (hpxP : o.price ≤ b1.maxPrice)
    (hqty : 0 < o.qty) (horig : o.qty ≤ o.orig_qty)
    (hroom : b1.pool_used < b1.maxOrders)
    (hp : p < b1.maxOrders) (hTp : b1.order_map p = none)
    (hfirst : ∀ j, j < b1.maxOrders →
      pdist b1.maxOrders (o.id % b1.maxOrders) j <
        pdist b1.maxOrders (o.id % b1.maxOrders) p → b1.order_map j ≠ none)
    (hbb : b1.best_bid ≤ nbid) (hba : nask ≤ b1.best_ask)
    (hcross2 : nbid < nask)
    (hlb2 : -1 ≤ nbid) (hub2 : nask ≤ b1.maxPrice + 1)
    (hbidc : nbid = b1.best_bid ∨ nbid = o.price)
    (haskc : nask = b1.best_ask ∨ nask = o.price)
    (hsideb : o.side = Side.Buy → o.price ≤ nbid ∧ nask = b1.best_ask)
    (hsides : o.side = Side.Sell → nask ≤ o.price ∧ nbid = b1.best_bid) :
    Inv { b1 with
      store := sset b1.store o.id (some o)
      order_map := tset b1.order_map p (some o.id)
      levels := lset b1.levels o.price ((b1.levels o.price).push_back o)
      pool_used := b1.pool_used + 1
      total_orders := b1.total_orders + 1
      best_bid := nbid
      best_ask := nask } := by
  have habs : ∀ i, i < b1.maxOrders → b1.order_map i ≠ some o.id := by
    intro i hi hTi
    have hsx := hI.map_live i o.id hi hTi
    rw [hfresh] at hsx
    exact Bool.noConfusion hsx
  obtain ⟨hch2, hinj2, hhas2, hcard2, hout2⟩ :=
    insert_tset_correct hI.hM hI.map_chain hI.map_inj hp hTp hfirst habs
  have hfreshlevel : ∀ q : Int, o.id ∉ (b1.levels q).orders := by
    intro q hin
    obtain ⟨ox, hox, _⟩ := hI.level_store q o.id hin
    rw [hfresh] at hox
    exact Option.noConfusion hox
  refine ⟨⟨hI.hP, hI.hM, hcross2, hlb2, hub2, ?_, ?_, ?_, ?_, ?_, ?_, ?_, ?_,
    ?_, ?_, ?_, ?_, ?_, ?_, ?_, ?_⟩, ?_, ?_⟩
  · -- gap
    intro q h1 h2
    have h1' : nbid < q := h1
    have h2' : q < nask := h2
    have hqpr : q ≠ o.price := by
      cases hos : o.side with
      | Buy => have := (hsideb hos).1; omega
      | Sell => have := (hsides hos).1; omega
    show (lset b1.levels o.price ((b1.levels o.price).push_back o) q).orders = []
    rw [lset_ne _ _ hqpr]
    exact hI.gap q (by omega) (by omega)
  · -- outside
    intro q hq
    have hq' : q < 0 ∨ b1.maxPrice < q := hq
    have hqpr : q ≠ o.price := by
      intro he
      rw [he] at hq'
      rcases hq' with h | h <;> omega
    show (lset b1.levels o.price ((b1.levels o.price).push_back o) q).orders = []
    rw [lset_ne _ _ hqpr]
    exact hI.outside q hq'
  · -- store_ok
    intro x ox hx
    have hx' : sset b1.store o.id (some o) x = some ox := hx
    by_cases hxid : x = o.id
    · rw [hxid, sset_eq] at hx'
      cases hx'
      exact ⟨hxid.symm, hpx0, hpxP, hqty, horig⟩
    · rw [sset_ne _ _ hxid] at hx'
      obtain ⟨ha, hb2, hc2, hd2, he2⟩ := hI.store_ok x ox hx'
      exact ⟨ha, hb2, hc2, hd2, he2⟩
  · -- store_side
    intro x ox hx
    have hx' : sset b1.store o.id (some o) x = some ox := hx
    by_cases hxid : x = o.id
    · rw [hxid, sset_eq] at hx'
      cases hx'
      exact ⟨fun hside => (hsideb hside).1, fun hside => (hsides hside).1⟩
    · rw [sset_ne _ _ hxid] at hx'
      obtain ⟨hbu, hse⟩ := hI.store_side x ox hx'
      constructor
      · intro hside
        have := hbu hside
        show ox.price ≤ nbid
        omega
      · intro hside
        have := hse hside
        show nask ≤ ox.price
        omega
  · -- store_level
    intro x ox hx
    have hx' : sset b1.store o.id (some o) x = some ox := hx
    by_cases hxid : x = o.id
    · subst hxid
      rw [sset_eq] at hx'
      cases hx'
      show (lset b1.levels o.price ((b1.levels o.price).push_back o)
        o.price).orders.count o.id = 1
      rw [lset_eq]
      show ((b1.levels o.price).orders ++ [o.id]).count o.id = 1
      rw [List.count_append]
      have h0 : (b1.levels o.price).orders.count o.id = 0 :=
        List.count_eq_zero.mpr (hfreshlevel o.price)
      rw [h0]
      simp
    · rw [sset_ne _ _ hxid] at hx'
      have h1 := hI.store_level x ox hx'
      by_cases hq : ox.price = o.price
      · show (lset b1.levels o.price ((b1.levels o.price).push_back o)
          ox.price).orders.count x = 1
        rw [hq, lset_eq]
        show ((b1.levels o.price).orders ++ [o.id]).count x = 1
        rw [List.count_append]
        have h1' : (b1.levels o.price).orders.count x = 1 := by
          rw [← hq]
          exact h1
        have hxo : ([o.id].count x) = 0 :=
          List.count_eq_zero.mpr (by simp [hxid])
        omega
      · show (lset b1.levels o.price ((b1.levels o.price).push_back o)
          ox.price).orders.count x = 1
        rw [lset_ne _ _ hq]
        exact h1
  · -- level_store
    intro q x hmem
    have hmem' : x ∈ (lset b1.levels o.price ((b1.levels o.price).push_back o)
      q).orders := hmem
    by_cases hq : q = o.price
    · rw [hq, lset_eq] at hmem'
      have hmem2 : x ∈ (b1.levels o.price).orders ++ [o.id] := hmem'
      rcases List.mem_append.mp hmem2 with hold | hnew
      · obtain ⟨ox, hox, hpr⟩ := hI.level_store o.price x hold
        have hxid : x ≠ o.id := by
          intro he
          rw [he, hfresh] at hox
          exact Option.noConfusion hox
        refine ⟨ox, ?_, by rw [hpr, hq]⟩
        show sset b1.store o.id (some o) x = some ox
        rw [sset_ne _ _ hxid]
        exact hox
      · have hxid : x = o.id := by simpa using hnew
        subst hxid
        exact ⟨o,
          by show sset b1.store o.id (some o) o.id = some o
             exact sset_eq _ _ _,
          hq.symm⟩
    · rw [lset_ne _ _ hq] at hmem'
      obtain ⟨ox, hox, hpr⟩ := hI.level_store q x hmem'
      have hxid : x ≠ o.id := by
        intro he
        rw [he, hfresh] at hox
        exact Option.noConfusion hox
      exact ⟨ox,
        by show sset b1.store o.id (some o) x = some ox
           rw [sset_ne _ _ hxid]
           exact hox,
        hpr⟩
  · -- agg_qty
    intro q
    by_cases hq : q = o.price
    · show (lset b1.levels o.price ((b1.levels o.price).push_back o)
        q).total_qty = sumQty (sset b1.store o.id (some o))
          (lset b1.levels o.price ((b1.levels o.price).push_back o) q).orders
      rw [hq, lset_eq]
      show (b1.levels o.price).total_qty + o.qty =
        sumQty (sset b1.store o.id (some o)) ((b1.levels o.price).orders ++ [o.id])
      rw [sumQty_append, sumQty_sset_not_mem _ (hfreshlevel o.price)]
      have hg : getQty (sset b1.store o.id (some o)) o.id = o.qty := by
        unfold getQty
        rw [sset_eq]
      rw [hg, hI.agg_qty o.price]
    · show (lset b1.levels o.price ((b1.levels o.price).push_back o)
        q).total_qty = sumQty (sset b1.store o.id (some o))
          (lset b1.levels o.price ((b1.levels o.price).push_back o) q).orders
      rw [lset_ne _ _ hq]
      rw [sumQty_sset_not_mem _ (hfreshlevel q)]
      exact hI.agg_qty q
  · -- agg_cnt
    intro q
    by_cases hq : q = o.price
    · show (lset b1.levels o.price ((b1.levels o.price).push_back o)
        q).order_cnt = (lset b1.levels o.price ((b1.levels o.price).push_back o)
          q).orders.length
      rw [hq, lset_eq]
      show (b1.levels o.price).order_cnt + 1 =
        ((b1.levels o.price).orders ++ [o.id]).length
      rw [List.length_append]
      have h1 := hI.agg_cnt o.price
      simp only [List.length_singleton]
      omega
    · show (lset b1.levels o.price ((b1.levels o.price).push_back o)
        q).order_cnt = (lset b1.levels o.price ((b1.levels o.price).push_back o)
          q).orders.length
      rw [lset_ne _ _ hq]
      exact hI.agg_cnt q
  · -- map_live
    intro i x hi hTi
    have hi' : i < b1.maxOrders := hi
    have hTi' : tset b1.order_map p (some o.id) i = some x := hTi
    by_cases hip : i = p
    · rw [hip, tset_eq] at hTi'
      cases hTi'
      show (sset b1.store o.id (some o) o.id).isSome = true
      rw [sset_eq]
      rfl
    · rw [tset_ne _ _ hip] at hTi'
      have hsx := hI.map_live i x hi' hTi'
      have hxo : x ≠ o.id := by
        intro he
        rw [he, hfresh] at hsx
        exact Bool.noConfusion hsx
      show (sset b1.store o.id (some o) x).isSome = true
      rw [sset_ne _ _ hxo]
      exact hsx
  · -- live_map
    intro x hx
    have hx' : (sset b1.store o.id (some o) x).isSome = true := hx
    by_cases hxid : x = o.id
    · subst hxid
      exact ⟨p, hp,
        by show tset b1.order_map p (some o.id) p = some o.id
           rw [tset_eq]⟩
    · rw [sset_ne _ _ hxid] at hx'
      have hh := hI.live_map x hx'
      exact (hhas2 x).mpr (Or.inl hh)
  · -- map_out
    intro i hi
    have hi' : b1.maxOrders ≤ i := hi
    show tset b1.order_map p (some o.id) i = none
    rw [hout2 i hi']
    exact hI.map_out i hi'
  · -- map_inj
    exact hinj2
  · -- map_chain
    exact hch2
  · -- map_card
    show occCard (tset b1.order_map p (some o.id)) b1.maxOrders =
      b1.pool_used + 1
    rw [hcard2, hI.map_card]
  · -- pool_eq
    show b1.pool_used + 1 = b1.total_orders + 1
    rw [hI.pool_eq]
  · -- pool_le
    show b1.pool_used + 1 ≤ b1.maxOrders
    omega
  · -- bid_ne
    intro h0
    have h0' : (0 : Int) ≤ nbid := h0
    by_cases hq : nbid = o.price
    · show (lset b1.levels o.price ((b1.levels o.price).push_back o)
        nbid).orders ≠ []
      rw [hq, lset_eq]
      show (b1.levels o.price).orders ++ [o.id] ≠ []
      simp
    · have hb2 : nbid = b1.best_bid := by
        rcases hbidc with h | h
        · exact h
        · exact absurd h hq
      show (lset b1.levels o.price ((b1.levels o.price).push_back o)
        nbid).orders ≠ []
      rw [lset_ne _ _ hq, hb2]
      exact hI.bid_ne (by omega)
  · -- ask_ne
    intro h0
    have h0' : nask ≤ b1.maxPrice := h0
    by_cases hq : nask = o.price
    · show (lset b1.levels o.price ((b1.levels o.price).push_back o)
        nask).orders ≠ []
      rw [hq, lset_eq]
      show (b1.levels o.price).orders ++ [o.id] ≠ []
      simp
    · have hb2 : nask = b1.best_ask := by
        rcases haskc with h | h
        · exact h
        · exact absurd h hq
      show (lset b1.levels o.price ((b1.levels o.price).push_back o)
        nask).orders ≠ []
      rw [lset_ne _ _ hq, hb2]
      exact hI.ask_ne (by omega)

/-- Behaviour of the rest path of `add` (`restBook`): the invariant is
re-established and the book changes exactly by the new order. -/
theorem rest_spec {b1 : Book} {o : Order} {m2 : Nat → Option Nat}
    (hI : Inv b1) (hfresh : b1.store o.id = none)
    (hpx0 : 0 ≤ o.price) (hpxP : o.price ≤ b1.maxPrice)
    (hqty : 0 < o.qty) (horig : o.qty ≤ o.orig_qty)
    (hroom : b1.pool_used < b1.maxOrders)
    (hbuy : o.side = Side.Buy → o.price < b1.best_ask)
    (hsell : o.side = Side.Sell → b1.best_bid < o.price)
    (hins : insert_map b1.order_map b1.maxOrders o.id = some m2) :
    Inv (restBook b1 o m2) ∧
    (restBook b1 o m2).maxPrice = b1.maxPrice ∧
    (restBook b1 o m2).maxOrders = b1.maxOrders ∧
    (restBook b1 o m2).pool_used = b1.pool_used + 1 ∧
    (restBook b1 o m2).total_orders = b1.total_orders + 1 ∧
    (restBook b1 o m2).store = sset b1.store o.id (some o) ∧
    (restBook b1 o m2).order_map = m2 ∧
    (restBook b1 o m2).levels =
      lset b1.levels o.price ((b1.levels o.price).push_back o) ∧
    b1.best_bid ≤ (restBook b1 o m2).best_bid ∧
    (restBook b1 o m2).best_ask ≤ b1.best_ask ∧
    (o.side = Side.Buy → (restBook b1 o m2).best_ask = b1.best_ask) ∧
    (o.side = Side.Sell → (restBook b1 o m2).best_bid = b1.best_bid) ∧
    ((restBook b1 o m2).best_bid = b1.best_bid ∨
      (restBook b1 o m2).best_bid = o.price) ∧
    ((restBook b1 o m2).best_ask = b1.best_ask ∨
      (restBook b1 o m2).best_ask = o.price) := by
  have habs : ∀ i, i < b1.maxOrders → b1.order_map i ≠ some o.id := by
    intro i hi hTi
    have hsx := hI.map_live i o.id hi hTi
    rw [hfresh] at hsx
    exact Bool.noConfusion hsx
  have hvac : ∃ i, i < b1.maxOrders ∧ b1.order_map i = none := by
    apply exists_none_of_occCard_lt
    rw [hI.map_card]
    exact hroom
  obtain ⟨p, hins', hp, hTp, hfirst⟩ := insert_map_succeeds hI.hM hvac habs
  rw [hins'] at hins
  injection hins with hm2
  subst hm2
  cases hos : o.side with
  | Buy =>
    by_cases hbump : b1.best_bid < o.price
    · have heqB : restBook b1 o (tset b1.order_map p (some o.id)) =
          { b1 with
            store := sset b1.store o.id (some o)
            order_map := tset b1.order_map p (some o.id)
            levels := lset b1.levels o.price ((b1.levels o.price).push_back o)
            pool_used := b1.pool_used + 1
            total_orders := b1.total_orders + 1
            best_bid := o.price } := by
        simp only [restBook, hos]
        rw [if_pos hbump]
      rw [heqB]
      exact ⟨commit_inv hI hfresh hpx0 hpxP hqty horig hroom hp hTp hfirst
          (le_of_lt hbump) (le_refl _) (hbuy hos) (by omega) hI.ask_ub
          (Or.inr rfl) (Or.inl rfl) (fun _ => ⟨le_refl _, rfl⟩)
          (fun hc => by rw [hos] at hc; exact Side.noConfusion hc),
        rfl, rfl, rfl, rfl, rfl, rfl, rfl, le_of_lt hbump, le_refl _,
        fun _ => rfl, fun hc => Side.noConfusion hc, Or.inr rfl, Or.inl rfl⟩
    · push_neg at hbump
      have heqB : restBook b1 o (tset b1.order_map p (some o.id)) =
          { b1 with
            store := sset b1.store o.id (some o)
            order_map := tset b1.order_map p (some o.id)
            levels := lset b1.levels o.price ((b1.levels o.price).push_back o)
            pool_used := b1.pool_used + 1
            total_orders := b1.total_orders + 1 } := by
        simp only [restBook, hos]
        rw [if_neg (not_lt.mpr hbump)]
      rw [heqB]
      exact ⟨commit_inv hI hfresh hpx0 hpxP hqty horig hroom hp hTp hfirst
          (le_refl _) (le_refl _) hI.crossed hI.bid_lb hI.ask_ub
          (Or.inl rfl) (Or.inl rfl) (fun _ => ⟨hbump, rfl⟩)
          (fun hc => by rw [hos] at hc; exact Side.noConfusion hc),
        rfl, rfl, rfl, rfl, rfl, rfl, rfl, le_refl _, le_refl _,
        fun _ => rfl, fun hc => Side.noConfusion hc, Or.inl rfl, Or.inl rfl⟩
  | Sell =>
    by_cases hbump : o.price < b1.best_ask
    · have heqB : restBook b1 o (tset b1.order_map p (some o.id)) =
          { b1 with
            store := sset b1.store o.id (some o)
            order_map := tset b1.order_map p (some o.id)
            levels := lset b1.levels o.price ((b1.levels o.price).push_back o)
            pool_used := b1.pool_used + 1
            total_orders := b1.total_orders + 1
            best_ask := o.price } := by
        simp only [restBook, hos]
        rw [if_pos hbump]
      rw [heqB]
      exact ⟨commit_inv hI hfresh hpx0 hpxP hqty horig hroom hp hTp hfirst
          (le_refl _) (le_of_lt hbump) (hsell hos) hI.bid_lb (by omega)
          (Or.inl rfl) (Or.inr rfl) (fun hc => by rw [hos] at hc; exact Side.noConfusion hc)
          (fun _ => ⟨le_refl _, rfl⟩),
        rfl, rfl, rfl, rfl, rfl, rfl, rfl, le_refl _, le_of_lt hbump,
        fun hc => Side.noConfusion hc, fun _ => rfl, Or.inl rfl, Or.inr rfl⟩
    · push_neg at hbump
      have heqB : restBook b1 o (tset b1.order_map p (some o.id)) =
          { b1 with
            store := sset b1.store o.id (some o)
            order_map := tset b1.order_map p (some o.id)
            levels := lset b1.levels o.price ((b1.levels o.price).push_back o)
            pool_used := b1.pool_used + 1
            total_orders := b1.total_orders + 1 } := by
        simp only [restBook, hos]
        rw [if_neg (not_lt.mpr hbump)]
      rw [heqB]
      exact ⟨commit_inv hI hfresh hpx0 hpxP hqty horig hroom hp hTp hfirst
          (le_refl _) (le_refl _) hI.crossed hI.bid_lb hI.ask_ub
          (Or.inl rfl) (Or.inl rfl) (fun hc => by rw [hos] at hc; exact Side.noConfusion hc)
          (fun _ => ⟨hbump, rfl⟩),
        rfl, rfl, rfl, rfl, rfl, rfl, rfl, le_refl _, le_refl _,
        fun hc => Side.noConfusion hc, fun _ => rfl, Or.inl rfl, Or.inl rfl⟩

/-- `add` preserves the engine invariant and the book bounds on every
path. -/
theorem add_inv {b : Book} (id : Nat) (s : Side) (px qty : Int) (ty : OrdType)
    (ts : Nat) (hI : Inv b) :
    Inv (b.add id s px qty ty ts).1 ∧
    (b.add id s px qty ty ts).1.maxPrice = b.maxPrice ∧
    (b.add id s px qty ty ts).1.maxOrders = b.maxOrders := by
  by_cases hdup : (lookupPos b.order_map b.maxOrders id).isSome = true
  · have heq : b.add id s px qty ty ts = (b, AddResult.DuplicateId) := by
      unfold Book.add
      rw [if_pos hdup]
    rw [heq]
    exact ⟨hI, rfl, rfl⟩
  · have hfresh : lookupPos b.order_map b.maxOrders id = none := by
      cases hl : lookupPos b.order_map b.maxOrders id with
      | none => rfl
      | some i => exact absurd (by rw [hl]; rfl) hdup
    by_cases hq : qty ≤ 0
    · have heq : b.add id s px qty ty ts = (b, AddResult.InvalidQty) := by
        unfold Book.add
        rw [hfresh]
        simp only [Option.isSome_none, Bool.false_eq_true, if_false]
        rw [if_pos hq]
      rw [heq]
      exact ⟨hI, rfl, rfl⟩
    · by_cases hpx : px < 0 ∨ b.maxPrice < px
      · have heq : b.add id s px qty ty ts = (b, AddResult.InvalidPrice) := by
          unfold Book.add
          rw [hfresh]
          simp only [Option.isSome_none, Bool.false_eq_true, if_false]
          rw [if_neg hq, if_pos hpx]
        rw [heq]
        exact ⟨hI, rfl, rfl⟩
      · have hpx0 : (0 : Int) ≤ px := by omega
        have hpxP : px ≤ b.maxPrice := by omega
        obtain ⟨am1, am2, am3, amst, amex, ampool, ampe⟩ :=
          addMatched_spec s px qty hI hpx0 hpxP
        by_cases hty : ty = OrdType.IOC ∨ ty = OrdType.Market
        · have heq : b.add id s px qty ty ts =
              ((addMatched b s px qty).1, AddResult.Ok) := by
            unfold Book.add
            rw [hfresh]
            simp only [Option.isSome_none, Bool.false_eq_true, if_false]
            rw [if_neg hq, if_neg hpx, if_pos hty]
            unfold addMatched
            cases s <;> rfl
          rw [heq]
          exact ⟨am1, am2, am3⟩
        · rw [add_eq_commit b id s px qty ty ts hfresh (by omega) hpx hty]
          by_cases hr0 : (addMatched b s px qty).2 ≤ 0
          · have heq : addTail b id s px qty ty ts =
                ((addMatched b s px qty).1, AddResult.Ok) := by
              unfold addTail
              rw [if_pos hr0]
            rw [heq]
            exact ⟨am1, am2, am3⟩
          · by_cases hpool : (addMatched b s px qty).1.maxOrders ≤
                (addMatched b s px qty).1.pool_used
            · have heq : addTail b id s px qty ty ts =
                  ((addMatched b s px qty).1, AddResult.PoolExhausted) := by
                unfold addTail
                rw [if_neg hr0, if_pos hpool]
              rw [heq]
              exact ⟨am1, am2, am3⟩
            · cases hins : insert_map (addMatched b s px qty).1.order_map
                  (addMatched b s px qty).1.maxOrders id with
              | none =>
                have heq : addTail b id s px qty ty ts =
                    ((addMatched b s px qty).1, AddResult.DuplicateId) := by
                  unfold addTail
                  rw [if_neg hr0, if_neg hpool, hins]
                rw [heq]
                exact ⟨am1, am2, am3⟩
              | some mm =>
                have heq : addTail b id s px qty ty ts =
                    (restBook (addMatched b s px qty).1
                      ⟨id, px, (addMatched b s px qty).2,
                        (addMatched b s px qty).2, s, ty, ts⟩ mm,
                     AddResult.Ok) := by
                  unfold addTail
                  rw [if_neg hr0, if_neg hpool, hins]
                rw [heq]
                push_neg at hr0 hpool
                have hsb : b.store id = none := by
                  cases hsb0 : b.store id with
                  | none => rfl
                  | some ox =>
                    have hhas := hI.live_map id (by rw [hsb0]; rfl)
                    obtain ⟨i, hi, hTi⟩ := hhas
                    have hl := lookupPos_finds hI.hM hI.map_chain hI.map_inj
                      hi hTi
                    rw [hfresh] at hl
                    exact Option.noConfusion hl
                have hst1 : (addMatched b s px qty).1.store id = none :=
                  amst id hsb
                obtain ⟨hxb, hxs⟩ := amex hr0
                have hrs := rest_spec
                  (o := ⟨id, px, (addMatched b s px qty).2,
                    (addMatched b s px qty).2, s, ty, ts⟩)
                  am1 hst1 hpx0 (by rw [am2]; exact hpxP) hr0 (le_refl _)
                  hpool (fun hs => hxb hs) (fun hs => hxs hs) hins
                exact ⟨hrs.1, by rw [hrs.2.1]; exact am2,
                  by rw [hrs.2.2.1]; exact am3⟩

/-- `cancel` preserves the engine invariant and the book bounds. -/
theorem cancel_inv {b : Book} (id : Nat) (hI : Inv b) :
    Inv (b.cancel id).1 ∧
    (b.cancel id).1.maxPrice = b.maxPrice ∧
    (b.cancel id).1.maxOrders = b.maxOrders := by
  cases hl : lookupPos b.order_map b.maxOrders id with
  | none =>
    have heq : b.cancel id = (b, false) := by
      unfold Book.cancel
      rw [hl]
    rw [heq]
    exact ⟨hI, rfl, rfl⟩
  | some i =>
    cases hbind : (b.order_map i).bind b.store with
    | none =>
      have heq : b.cancel id = (b, false) := by
        unfold Book.cancel
        simp only [hl, hbind]
      rw [heq]
      exact ⟨hI, rfl, rfl⟩
    | some o =>
      have hsome : ∃ x, b.order_map i = some x ∧ b.store x = some o := by
        cases hm : b.order_map i with
        | none => rw [hm] at hbind; exact Option.noConfusion hbind
        | some x =>
          rw [hm] at hbind
          exact ⟨x, rfl, hbind⟩
      obtain ⟨x, hmx, hsx⟩ := hsome
      have hso : b.store o.id = some o := by
        rw [(hI.store_ok x o hsx).1]
        exact hsx
      obtain ⟨hIr, hpool, htot, hlev, hst⟩ :=
        remove_from_book_spec hI.toInvCore hso
      obtain ⟨hbu, hse⟩ := hI.store_side o.id o hso
      cases hos : o.side with
      | Buy =>
        have hple : o.price ≤ b.best_bid := hbu hos
        have haskne : (b.remove_from_book o).best_ask ≤
            (b.remove_from_book o).maxPrice →
            ((b.remove_from_book o).levels
              (b.remove_from_book o).best_ask).orders ≠ [] := by
          intro hle
          have hle2 : b.best_ask ≤ b.maxPrice := hle
          have hnea : b.best_ask ≠ o.price := by
            have := hI.crossed
            omega
          show ((b.remove_from_book o).levels b.best_ask).orders ≠ []
          rw [hlev b.best_ask hnea]
          exact hI.ask_ne hle2
        by_cases hpb : o.price = (b.remove_from_book o).best_bid
        · have heq : b.cancel id =
              ((b.remove_from_book o).update_best_bid, true) := by
            unfold Book.cancel
            simp only [hl, hbind, hos, hpb, eq_self_iff_true, if_true]
          rw [heq]
          obtain ⟨r1, r2, r3, r4, r5, r6, r7, r8, r9, r10⟩ :=
            restore_bid hIr haskne
          exact ⟨r1, r3, r4⟩
        · have heq : b.cancel id = (b.remove_from_book o, true) := by
            unfold Book.cancel
            simp only [hl, hbind, hos, if_neg hpb]
          rw [heq]
          refine ⟨⟨hIr, ?_, haskne⟩, rfl, rfl⟩
          intro h0
          have h02 : (0 : Int) ≤ b.best_bid := h0
          have hneb : b.best_bid ≠ o.price := by
            intro he
            exact hpb he.symm
          show ((b.remove_from_book o).levels b.best_bid).orders ≠ []
          rw [hlev b.best_bid hneb]
          exact hI.bid_ne h02
      | Sell =>
        have hple : b.best_ask ≤ o.price := hse hos
        have hbidne : 0 ≤ (b.remove_from_book o).best_bid →
            ((b.remove_from_book o).levels
              (b.remove_from_book o).best_bid).orders ≠ [] := by
          intro h0
          have h02 : (0 : Int) ≤ b.best_bid := h0
          have hneb : b.best_bid ≠ o.price := by
            have := hI.crossed
            omega
          show ((b.remove_from_book o).levels b.best_bid).orders ≠ []
          rw [hlev b.best_bid hneb]
          exact hI.bid_ne h02
        by_cases hpa : o.price = (b.remove_from_book o).best_ask
        · have heq : b.cancel id =
              ((b.remove_from_book o).update_best_ask, true) := by
            unfold Book.cancel
            simp only [hl, hbind, hos, hpa, eq_self_iff_true, if_true]
          rw [heq]
          obtain ⟨r1, r2, r3, r4, r5, r6, r7, r8, r9, r10⟩ :=
            restore_ask hIr hbidne
          exact ⟨r1, r3, r4⟩
        · have heq : b.cancel id = (b.remove_from_book o, true) := by
            unfold Book.cancel
            simp only [hl, hbind, hos, if_neg hpa]
          rw [heq]
          refine ⟨⟨hIr, hbidne, ?_⟩, rfl, rfl⟩
          intro hle
          have hle2 : b.best_ask ≤ b.maxPrice := hle
          have hnea : b.best_ask ≠ o.price := by
            intro he
            exact hpa he.symm
          show ((b.remove_from_book o).levels b.best_ask).orders ≠ []
          rw [hlev b.best_ask hnea]
          exact hI.ask_ne hle2

/-- Every reachable engine state satisfies the invariant. -/
theorem inv_reachable : ∀ {b : Book}, Reachable b → Inv b := by
  intro b h
  induction h with
  | init P M hP hM => exact inv_init P M hP hM
  | add b id s px qty ty ts hr ih => exact (add_inv id s px qty ty ts ih).1
  | cancel b id hr ih => exact (cancel_inv id ih).1
  | match_order b s qty hr ih => exact (match_order_inv s qty ih).1

theorem lookupLoop_sound {T : Nat → Option Nat} {M id start : Nat} :
    ∀ fuel idx p, lookupLoop T M id start fuel idx = some p → T p = some id := by
  intro fuel
  induction fuel with
  | zero => intro idx p h; exact Option.noConfusion h
  | succ n ih =>
    intro idx p h
    simp only [lookupLoop] at h
    by_cases hs : idx = start
    · rw [if_pos hs] at h
      exact Option.noConfusion h
    · rw [if_neg hs] at h
      cases hT : T idx with
      | none =>
        simp only [hT] at h
        exact Option.noConfusion h
      | some r =>
        simp only [hT] at h
        by_cases hr : r = id
        · rw [if_pos hr] at h
          injection h with h2
          rw [← h2, hT, hr]
        · rw [if_neg hr] at h
          exact ih _ _ h

/-- Soundness of `lookup`: a returned slot really holds the id. -/
theorem lookupPos_sound {T : Nat → Option Nat} {M id p : Nat}
    (h : lookupPos T M id = some p) : T p = some id := by
  unfold lookupPos at h
  cases hT : T (id % M) with
  | none =>
    simp only [hT] at h
    exact lookupLoop_sound _ _ _ h
  | some r =>
    simp only [hT] at h
    by_cases hr : r = id
    · rw [if_pos hr] at h
      injection h with h2
      rw [← h2, hT, hr]
    · rw [if_neg hr] at h
      exact lookupLoop_sound _ _ _ h

/-- Under the invariant, `lookup` agrees with the order heap on every id. -/
theorem lookup_eq_store {b : Book} (hI : Inv b) (id : Nat) :
    b.lookup id = b.store id := by
  cases hs : b.store id with
  | some o =>
    have hhas := hI.live_map id (by rw [hs]; rfl)
    obtain ⟨i, hi, hTi⟩ := hhas
    have hfind := lookupPos_finds hI.hM hI.map_chain hI.map_inj hi hTi
    unfold Book.lookup
    simp only [hfind, hTi, Option.some_bind]
    exact hs
  | none =>
    have habs : ∀ i, i < b.maxOrders → b.order_map i ≠ some id := by
      intro i hi hTi
      have hsx := hI.map_live i id hi hTi
      rw [hs] at hsx
      exact Bool.noConfusion hsx
    have hnone := lookupPos_none_of_absent hI.hM habs
    unfold Book.lookup
    rw [hnone]

theorem addMatched_noncross {b : Book} {s : Side} {px : Int} (qty : Int)
    (hb : s = Side.Buy → px < b.best_ask)
    (hs : s = Side.Sell → b.best_bid < px) :
    addMatched b s px qty = (b, qty) := by
  cases s with
  | Buy =>
    simp only [addMatched]
    rw [if_neg (not_le.mpr (hb rfl))]
  | Sell =>
    simp only [addMatched]
    rw [if_neg (not_le.mpr (hs rfl))]

/-- Complete decision tree of `add`: exactly one of the eight paths is
taken, each with its guarding conditions and its result. -/
theorem add_shape (b : Book) (id : Nat) (s : Side) (px qty : Int)
    (ty : OrdType) (ts : Nat) :
    ((lookupPos b.order_map b.maxOrders id).isSome = true ∧
      b.add id s px qty ty ts = (b, AddResult.DuplicateId)) ∨
    (lookupPos b.order_map b.maxOrders id = none ∧ qty ≤ 0 ∧
      b.add id s px qty ty ts = (b, AddResult.InvalidQty)) ∨
    (lookupPos b.order_map b.maxOrders id = none ∧ 0 < qty ∧
      (px < 0 ∨ b.maxPrice < px) ∧
      b.add id s px qty ty ts = (b, AddResult.InvalidPrice)) ∨
    (lookupPos b.order_map b.maxOrders id = none ∧ 0 < qty ∧
      ¬(px < 0 ∨ b.maxPrice < px) ∧ (ty = OrdType.IOC ∨ ty = OrdType.Market) ∧
      b.add id s px qty ty ts = ((addMatched b s px qty).1, AddResult.Ok)) ∨
    (lookupPos b.order_map b.maxOrders id = none ∧ 0 < qty ∧
      ¬(px < 0 ∨ b.maxPrice < px) ∧ ¬(ty = OrdType.IOC ∨ ty = OrdType.Market) ∧
      (addMatched b s px qty).2 ≤ 0 ∧
      b.add id s px qty ty ts = ((addMatched b s px qty).1, AddResult.Ok)) ∨
    (lookupPos b.order_map b.maxOrders id = none ∧ 0 < qty ∧
      ¬(px < 0 ∨ b.maxPrice < px) ∧ ¬(ty = OrdType.IOC ∨ ty = OrdType.Market) ∧
      0 < (addMatched b s px qty).2 ∧
      (addMatched b s px qty).1.maxOrders ≤ (addMatched b s px qty).1.pool_used ∧
      b.add id s px qty ty ts =
        ((addMatched b s px qty).1, AddResult.PoolExhausted)) ∨
    (lookupPos b.order_map b.maxOrders id = none ∧ 0 < qty ∧
      ¬(px < 0 ∨ b.maxPrice < px) ∧ ¬(ty = OrdType.IOC ∨ ty = OrdType.Market) ∧
      0 < (addMatched b s px qty).2 ∧
      (addMatched b s px qty).1.pool_used < (addMatched b s px qty).1.maxOrders ∧
      insert_map (addMatched b s px qty).1.order_map
        (addMatched b s px qty).1.maxOrders id = none ∧
      b.add id s px qty ty ts =
        ((addMatched b s px qty).1, AddResult.DuplicateId)) ∨
    (∃ mm, lookupPos b.order_map b.maxOrders id = none ∧ 0 < qty ∧
      ¬(px < 0 ∨ b.maxPrice < px) ∧ ¬(ty = OrdType.IOC ∨ ty = OrdType.Market) ∧
      0 < (addMatched b s px qty).2 ∧
      (addMatched b s px qty).1.pool_used < (addMatched b s px qty).1.maxOrders ∧
      insert_map (addMatched b s px qty).1.order_map
        (addMatched b s px qty).1.maxOrders id = some mm ∧
      b.add id s px qty ty ts =
        (restBook (addMatched b s px qty).1
          ⟨id, px, (addMatched b s px qty).2, (addMatched b s px qty).2, s, ty,
            ts⟩ mm,
         AddResult.Ok)) := by
  by_cases hdup : (lookupPos b.order_map b.maxOrders id).isSome = true
  · refine Or.inl ⟨hdup, ?_⟩
    unfold Book.add
    rw [if_pos hdup]
  · have hfresh : lookupPos b.order_map b.maxOrders id = none := by
      cases hl : lookupPos b.order_map b.maxOrders id with
      | none => rfl
      | some i => exact absurd (by rw [hl]; rfl) hdup
    by_cases hq : qty ≤ 0
    · refine Or.inr (Or.inl ⟨hfresh, hq, ?_⟩)
      unfold Book.add
      rw [hfresh]
      simp only [Option.isSome_none, Bool.false_eq_true, if_false]
      rw [if_pos hq]
    · by_cases hpx : px < 0 ∨ b.maxPrice < px
      · refine Or.inr (Or.inr (Or.inl ⟨hfresh, by omega, hpx, ?_⟩))
        unfold Book.add
        rw [hfresh]
        simp only [Option.isSome_none, Bool.false_eq_true, if_false]
        rw [if_neg hq, if_pos hpx]
      · by_cases hty : ty = OrdType.IOC ∨ ty = OrdType.Market
        · refine Or.inr (Or.inr (Or.inr (Or.inl ⟨hfresh, by omega, hpx, hty, ?_⟩)))
          unfold Book.add
          rw [hfresh]
          simp only [Option.isSome_none, Bool.false_eq_true, if_false]
          rw [if_neg hq, if_neg hpx, if_pos hty]
          unfold addMatched
          cases s <;> rfl
        · have hcommit := add_eq_commit b id s px qty ty ts hfresh (by omega)
            hpx hty
          by_cases hr0 : (addMatched b s px qty).2 ≤ 0
          · refine Or.inr (Or.inr (Or.inr (Or.inr (Or.inl
              ⟨hfresh, by omega, hpx, hty, hr0, ?_⟩))))
            rw [hcommit]
            unfold addTail
            rw [if_pos hr0]
          · by_cases hpool : (addMatched b s px qty).1.maxOrders ≤
                (addMatched b s px qty).1.pool_used
            · refine Or.inr (Or.inr (Or.inr (Or.inr (Or.inr (Or.inl
                ⟨hfresh, by omega, hpx, hty, by omega, hpool, ?_⟩)))))
              rw [hcommit]
              unfold addTail
              rw [if_neg hr0, if_pos hpool]
            · cases hins : insert_map (addMatched b s px qty).1.order_map
                  (addMatched b s px qty).1.maxOrders id with
              | none =>
                refine Or.inr (Or.inr (Or.inr (Or.inr (Or.inr (Or.inr (Or.inl
                  ⟨hfresh, by omega, hpx, hty, by omega, by omega, rfl, ?_⟩))))))
                rw [hcommit]
                unfold addTail
                rw [if_neg hr0, if_neg hpool, hins]
              | some mm =>
                refine Or.inr (Or.inr (Or.inr (Or.inr (Or.inr (Or.inr (Or.inr
                  ⟨mm, hfresh, by omega, hpx, hty, by omega, by omega, rfl,
                    ?_⟩))))))
                rw [hcommit]
                unfold addTail
                rw [if_neg hr0, if_neg hpool, hins]

/-- C1: after every public call (the engine states reachable by add,
cancel and match from a fresh book), the book is not crossed:
`best_bid < best_ask`, which with the sentinels `NO_BID = -1` and
`NO_ASK = MaxPrice + 1` covers the cases where either side is absent. -/
theorem claim_C1 (b : Book) (h : Reachable b) : b.best_bid < b.best_ask :=
  (inv_reachable h).crossed

/-- C1 witness: the reachable state after three adds and a match. -/
theorem claim_C1_witness :
    Reachable fifoRun.1 ∧ fifoRun.1.best_bid < fifoRun.1.best_ask := by
  have h1 : Reachable (Book.init 10000 1000) :=
    Reachable.init 10000 1000 (by decide) (by decide)
  have h2 : Reachable fifoBook :=
    Reachable.add _ 3 Side.Sell 100 10 OrdType.Limit 0
      (Reachable.add _ 2 Side.Sell 100 10 OrdType.Limit 0
        (Reachable.add _ 1 Side.Sell 100 10 OrdType.Limit 0 h1))
  have h3 : Reachable fifoRun.1 := Reachable.match_order fifoBook Side.Buy 15 h2
  exact ⟨h3, claim_C1 fifoRun.1 h3⟩

/-- C2: an `add` that returns `PoolExhausted` leaves the book unchanged
(on every reachable state; the exhaustion check can only be reached when
the crossing phase consumed nothing, because a full pool that stays full
means no resting order was removed). -/
theorem claim_C2 (b : Book) (id : Nat) (s : Side) (px qty : Int)
    (ty : OrdType) (ts : Nat) (h : Reachable b)
    (hpe : (b.add id s px qty ty ts).2 = AddResult.PoolExhausted) :
    (b.add id s px qty ty ts).1 = b := by
  have hI := inv_reachable h
  rcases add_shape b id s px qty ty ts with
    ⟨_, he⟩ | ⟨_, _, he⟩ | ⟨_, _, _, he⟩ | ⟨_, _, _, _, he⟩ |
    ⟨_, _, _, _, _, he⟩ | ⟨_, _, hpx, _, hr, hpool, he⟩ |
    ⟨_, _, _, _, _, _, _, he⟩ | ⟨mm, _, _, _, _, _, _, _, he⟩
  · rw [he] at hpe
    exact AddResult.noConfusion hpe
  · rw [he] at hpe
    exact AddResult.noConfusion hpe
  · rw [he] at hpe
    exact AddResult.noConfusion hpe
  · rw [he] at hpe
    exact AddResult.noConfusion hpe
  · rw [he] at hpe
    exact AddResult.noConfusion hpe
  · rw [he]
    obtain ⟨am1, am2, am3, amst, amex, ampool, ampe⟩ :=
      addMatched_spec s px qty hI (by omega) (by omega)
    have hpe2 : (addMatched b s px qty).1.pool_used = b.pool_used := by
      have h1 := hI.pool_le
      have h2 : (addMatched b s px qty).1.maxOrders = b.maxOrders := am3
      omega
    rcases ampe hpe2 with hmeq | hle
    · rw [hmeq]
    · omega
  · rw [he] at hpe
    exact AddResult.noConfusion hpe
  · rw [he] at hpe
    exact AddResult.noConfusion hpe

/-- C2 witness: on a capacity-1 book holding one resting buy, a second
non-crossing buy returns `PoolExhausted` and the book is unchanged. -/
theorem claim_C2_witness :
    Reachable ((Book.init 100 1).add 1 Side.Buy 10 5 OrdType.Limit 0).1 ∧
    ((((Book.init 100 1).add 1 Side.Buy 10 5 OrdType.Limit 0).1).add 2
        Side.Buy 20 7 OrdType.Limit 0).2 = AddResult.PoolExhausted ∧
    ((((Book.init 100 1).add 1 Side.Buy 10 5 OrdType.Limit 0).1).add 2
        Side.Buy 20 7 OrdType.Limit 0).1 =
      ((Book.init 100 1).add 1 Side.Buy 10 5 OrdType.Limit 0).1 := by
  have h1 : Reachable ((Book.init 100 1).add 1 Side.Buy 10 5 OrdType.Limit 0).1 :=
    Reachable.add _ 1 Side.Buy 10 5 OrdType.Limit 0
      (Reachable.init 100 1 (by decide) (by decide))
  exact ⟨h1, by decide, claim_C2 _ 2 Side.Buy 20 7 OrdType.Limit 0 h1 (by decide)⟩

/-- C4: on every reachable state the order index is consistent with the
live orders: `lookup` (and `get_order`) returns exactly the stored live
order of an id (some resting order with that id, or a miss if none is
live).  This rests on the backward-shift rehash of `remove_map` keeping
every displaced entry reachable (`remove_map_correct`). -/
theorem claim_C4 (b : Book) (h : Reachable b) (id : Nat) :
    b.lookup id = b.store id ∧ b.get_order id = b.store id ∧
    ∀ o, b.store id = some o → o.id = id := by
  have hI := inv_reachable h
  refine ⟨lookup_eq_store hI id, lookup_eq_store hI id, ?_⟩
  intro o ho
  exact (hI.store_ok id o ho).1

/-- C4 witness: the index of the one-order book `mktBook`. -/
theorem claim_C4_witness :
    Reachable mktBook ∧
    (mktBook.lookup 1 = mktBook.store 1 ∧
      mktBook.get_order 1 = mktBook.store 1 ∧
      ∀ o, mktBook.store 1 = some o → o.id = 1) := by
  have h1 : Reachable mktBook :=
    Reachable.add _ 1 Side.Sell 20 5 OrdType.Limit 0
      (Reachable.init 100 50 (by decide) (by decide))
  exact ⟨h1, claim_C4 mktBook h1 1⟩

/-- C5: on every reachable state, each level's `total_qty` is the sum of
the remaining quantities of the orders linked in it, and its `order_cnt`
is their number. -/
theorem claim_C5 (b : Book) (h : Reachable b) (p : Int) :
    (b.levels p).total_qty = sumQty b.store (b.levels p).orders ∧
    (b.levels p).order_cnt = (b.levels p).orders.length :=
  ⟨(inv_reachable h).agg_qty p, (inv_reachable h).agg_cnt p⟩

/-- C5 witness: the level aggregates of `rtBook` at price 10. -/
theorem claim_C5_witness :
    Reachable rtBook ∧
    ((rtBook.levels 10).total_qty = sumQty rtBook.store (rtBook.levels 10).orders ∧
      (rtBook.levels 10).order_cnt = (rtBook.levels 10).orders.length) := by
  have h1 : Reachable rtBook :=
    Reachable.add _ 1 Side.Sell 10 5 OrdType.Limit 0
      (Reachable.init 100 50 (by decide) (by decide))
  exact ⟨h1, claim_C5 rtBook h1 10⟩

/-- C6: on every reachable state — (a) every live order keeps
`qty ≤ orig_qty`; (b) when an `add` rests an order under a fresh id, the
rested order records the post-crossing remainder as both `qty` and
`orig_qty` (so `orig_qty = qty` at rest time, not the caller-supplied
quantity) and `lookup` immediately finds it; (c) after a successful
`cancel`, `lookup` of the cancelled id misses. -/
theorem claim_C6 (b : Book) (h : Reachable b) :
    (∀ id o, b.store id = some o → o.qty ≤ o.orig_qty) ∧
    (∀ id s px qty ty ts o,
      b.store id = none →
      (b.add id s px qty ty ts).1.store id = some o →
      o.id = id ∧ o.orig_qty = o.qty ∧
        (b.add id s px qty ty ts).1.lookup id = some o) ∧
    (∀ id, (b.cancel id).2 = true → (b.cancel id).1.lookup id = none) := by
  have hI := inv_reachable h
  refine ⟨?_, ?_, ?_⟩
  · intro id o ho
    exact (hI.store_ok id o ho).2.2.2.2
  · intro id s px qty ty ts o hnone hsome
    rcases add_shape b id s px qty ty ts with
      ⟨_, he⟩ | ⟨_, _, he⟩ | ⟨_, _, _, he⟩ | ⟨_, _, hpx, _, he⟩ |
      ⟨_, _, hpx, _, _, he⟩ | ⟨_, _, hpx, _, _, _, he⟩ |
      ⟨_, _, hpx, _, _, _, _, he⟩ | ⟨mm, _, _, hpx, _, hrem, hroom, hins, he⟩
    · rw [he] at hsome
      have hs2 : b.store id = some o := hsome
      rw [hnone] at hs2
      exact Option.noConfusion hs2
    · rw [he] at hsome
      have hs2 : b.store id = some o := hsome
      rw [hnone] at hs2
      exact Option.noConfusion hs2
    · rw [he] at hsome
      have hs2 : b.store id = some o := hsome
      rw [hnone] at hs2
      exact Option.noConfusion hs2
    · rw [he] at hsome
      have hst := (addMatched_spec s px qty hI (by omega) (by omega)).2.2.2.1
        id hnone
      have hs2 : (addMatched b s px qty).1.store id = some o := hsome
      rw [hst] at hs2
      exact Option.noConfusion hs2
    · rw [he] at hsome
      have hst := (addMatched_spec s px qty hI (by omega) (by omega)).2.2.2.1
        id hnone
      have hs2 : (addMatched b s px qty).1.store id = some o := hsome
      rw [hst] at hs2
      exact Option.noConfusion hs2
    · rw [he] at hsome
      have hst := (addMatched_spec s px qty hI (by omega) (by omega)).2.2.2.1
        id hnone
      have hs2 : (addMatched b s px qty).1.store id = some o := hsome
      rw [hst] at hs2
      exact Option.noConfusion hs2
    · rw [he] at hsome
      have hst := (addMatched_spec s px qty hI (by omega) (by omega)).2.2.2.1
        id hnone
      have hs2 : (addMatched b s px qty).1.store id = some o := hsome
      rw [hst] at hs2
      exact Option.noConfusion hs2
    · obtain ⟨am1, am2, am3, amst, amex, ampool, ampe⟩ :=
        addMatched_spec s px qty hI (by omega) (by omega)
      have hst1 : (addMatched b s px qty).1.store id = none := amst id hnone
      obtain ⟨hxb, hxs⟩ := amex hrem
      have hrs := rest_spec
        (o := ⟨id, px, (addMatched b s px qty).2,
          (addMatched b s px qty).2, s, ty, ts⟩)
        am1 hst1 (by show (0 : Int) ≤ px; omega)
        (by show px ≤ (addMatched b s px qty).1.maxPrice; rw [am2]; omega)
        hrem (le_refl _) hroom
        (fun hs2 => hxb hs2) (fun hs2 => hxs hs2) hins
      rw [he] at hsome ⊢
      have hstoreeq := hrs.2.2.2.2.2.1
      rw [hstoreeq] at hsome
      have hs2 : sset (addMatched b s px qty).1.store id
          (some ⟨id, px, (addMatched b s px qty).2,
            (addMatched b s px qty).2, s, ty, ts⟩) id = some o := hsome
      rw [sset_eq] at hs2
      injection hs2 with ho2
      subst ho2
      refine ⟨rfl, rfl, ?_⟩
      rw [lookup_eq_store hrs.1 id, hstoreeq]
      show sset (addMatched b s px qty).1.store id
        (some ⟨id, px, (addMatched b s px qty).2,
          (addMatched b s px qty).2, s, ty, ts⟩) id = _
      rw [sset_eq]
  · intro id hc
    cases hl : lookupPos b.order_map b.maxOrders id with
    | none =>
      have heq : b.cancel id = (b, false) := by
        unfold Book.cancel
        rw [hl]
      rw [heq] at hc
      exact Bool.noConfusion hc
    | some i =>
      cases hbind : (b.order_map i).bind b.store with
      | none =>
        have heq : b.cancel id = (b, false) := by
          unfold Book.cancel
          simp only [hl, hbind]
        rw [heq] at hc
        exact Bool.noConfusion hc
      | some o =>
        have hTi : b.order_map i = some id := lookupPos_sound hl
        have hbs : b.store id = some o := by
          rw [hTi] at hbind
          exact hbind
        have hoid : o.id = id := (hI.store_ok id o hbs).1
        have hrm : (b.remove_from_book o).store id = none := by
          show sset b.store o.id none id = none
          rw [hoid, sset_eq]
        have hstore : (b.cancel id).1.store id = none := by
          cases hos : o.side with
          | Buy =>
            by_cases hpb : o.price = (b.remove_from_book o).best_bid
            · have heq : b.cancel id =
                  ((b.remove_from_book o).update_best_bid, true) := by
                unfold Book.cancel
                simp only [hl, hbind, hos, hpb, eq_self_iff_true, if_true]
              rw [heq]
              exact hrm
            · have heq : b.cancel id = (b.remove_from_book o, true) := by
                unfold Book.cancel
                simp only [hl, hbind, hos, if_neg hpb]
              rw [heq]
              exact hrm
          | Sell =>
            by_cases hpa : o.price = (b.remove_from_book o).best_ask
            · have heq : b.cancel id =
                  ((b.remove_from_book o).update_best_ask, true) := by
                unfold Book.cancel
                simp only [hl, hbind, hos, hpa, eq_self_iff_true, if_true]
              rw [heq]
              exact hrm
            · have heq : b.cancel id = (b.remove_from_book o, true) := by
                unfold Book.cancel
                simp only [hl, hbind, hos, if_neg hpa]
              rw [heq]
              exact hrm
        rw [lookup_eq_store (cancel_inv id hI).1 id, hstore]

/-- C6 witness: resting a sell of qty 5 under fresh id 1 on an empty book
records `orig_qty = qty` on the stored order and `lookup` finds it. -/
theorem claim_C6_witness :
    Reachable (Book.init 100 50) ∧
    (Book.init 100 50).store 1 = none ∧
    ((Book.init 100 50).add 1 Side.Sell 10 5 OrdType.Limit 0).1.store 1 =
      some ⟨1, 10, 5, 5, Side.Sell, OrdType.Limit, 0⟩ ∧
    ((1 : Nat) = 1 ∧ (5 : Int) = 5 ∧
      ((Book.init 100 50).add 1 Side.Sell 10 5 OrdType.Limit 0).1.lookup 1 =
        some ⟨1, 10, 5, 5, Side.Sell, OrdType.Limit, 0⟩) := by
  have h1 : Reachable (Book.init 100 50) :=
    Reachable.init 100 50 (by decide) (by decide)
  have hst : ((Book.init 100 50).add 1 Side.Sell 10 5 OrdType.Limit 0).1.store 1 =
      some ⟨1, 10, 5, 5, Side.Sell, OrdType.Limit, 0⟩ := by decide
  have h2 := (claim_C6 (Book.init 100 50) h1).2.1 1 Side.Sell 10 5 OrdType.Limit
    0 ⟨1, 10, 5, 5, Side.Sell, OrdType.Limit, 0⟩ rfl hst
  exact ⟨h1, rfl, hst, h2⟩

/-- C8: `add` checks its preconditions in order (duplicate id, then
non-positive qty, then out-of-range price), returns the first failure, and
a failing call leaves the book untouched; prices 0 and `MaxPrice` pass the
price check while -1 and `MaxPrice + 1` fail it. -/
theorem claim_C8 (b : Book) (id : Nat) (s : Side) (px qty : Int)
    (ty : OrdType) (ts : Nat) (h : Reachable b) :
    ((b.store id).isSome = true →
      b.add id s px qty ty ts = (b, AddResult.DuplicateId)) ∧
    (b.store id = none → qty ≤ 0 →
      b.add id s px qty ty ts = (b, AddResult.InvalidQty)) ∧
    (b.store id = none → 0 < qty → (px < 0 ∨ b.maxPrice < px) →
      b.add id s px qty ty ts = (b, AddResult.InvalidPrice)) ∧
    ((Book.init 10000 1000).add 1 Side.Buy 0 5 OrdType.Limit 0).2 =
      AddResult.Ok ∧
    ((Book.init 10000 1000).add 2 Side.Sell 10000 5 OrdType.Limit 0).2 =
      AddResult.Ok ∧
    ((Book.init 10000 1000).add 3 Side.Buy (-1) 5 OrdType.Limit 0).2 =
      AddResult.InvalidPrice ∧
    ((Book.init 10000 1000).add 4 Side.Sell 10001 5 OrdType.Limit 0).2 =
      AddResult.InvalidPrice := by
  have hI := inv_reachable h
  have hfresh : b.store id = none →
      lookupPos b.order_map b.maxOrders id = none := by
    intro hn
    apply lookupPos_none_of_absent hI.hM
    intro i hi hTi
    have hsx := hI.map_live i id hi hTi
    rw [hn] at hsx
    exact Bool.noConfusion hsx
  refine ⟨?_, ?_, ?_, by decide, by decide, by decide, by decide⟩
  · intro hs2
    obtain ⟨i, hi, hTi⟩ := hI.live_map id hs2
    have hfind := lookupPos_finds hI.hM hI.map_chain hI.map_inj hi hTi
    unfold Book.add
    rw [if_pos (by rw [hfind]; rfl)]
  · intro hn hq
    unfold Book.add
    rw [hfresh hn]
    simp only [Option.isSome_none, Bool.false_eq_true, if_false]
    rw [if_pos hq]
  · intro hn hq hpx
    unfold Book.add
    rw [hfresh hn]
    simp only [Option.isSome_none, Bool.false_eq_true, if_false]
    rw [if_neg (not_le.mpr hq), if_pos hpx]

/-- C8 witness: a negative price on a fresh id of an empty book returns
`InvalidPrice` and leaves the book unchanged. -/
theorem claim_C8_witness :
    Reachable (Book.init 100 50) ∧
    (Book.init 100 50).store 7 = none ∧
    ((0 : Int) < 5 ∧ ((-3 : Int) < 0 ∨ (Book.init 100 50).maxPrice < -3)) ∧
    (Book.init 100 50).add 7 Side.Buy (-3) 5 OrdType.Limit 0 =
      (Book.init 100 50, AddResult.InvalidPrice) := by
  have h1 : Reachable (Book.init 100 50) :=
    Reachable.init 100 50 (by decide) (by decide)
  refine ⟨h1, rfl, ⟨by decide, by decide⟩, ?_⟩
  exact (claim_C8 (Book.init 100 50) 7 Side.Buy (-3) 5 OrdType.Limit 0 h1).2.2.1
    rfl (by decide) (by decide)

/-- C9 (amended): on an invariant state, an `add` of a **non-crossing**
Limit order that returns `Ok`, followed by `cancel` of the same id, restores
order count, pool usage, both bests, and every level's count and total
quantity. -/
theorem claim_C9 (b : Book) (id : Nat) (s : Side) (px qty : Int) (ts : Nat)
    (hI : Inv b)
    (hncb : s = Side.Buy → px < b.best_ask)
    (hncs : s = Side.Sell → b.best_bid < px)
    (hok : (b.add id s px qty OrdType.Limit ts).2 = AddResult.Ok) :
    ((b.add id s px qty OrdType.Limit ts).1.cancel id).2 = true ∧
    ((b.add id s px qty OrdType.Limit ts).1.cancel id).1.total_orders =
      b.total_orders ∧
    ((b.add id s px qty OrdType.Limit ts).1.cancel id).1.pool_used =
      b.pool_used ∧
    ((b.add id s px qty OrdType.Limit ts).1.cancel id).1.best_bid =
      b.best_bid ∧
    ((b.add id s px qty OrdType.Limit ts).1.cancel id).1.best_ask =
      b.best_ask ∧
    ∀ p : Int,
      (((b.add id s px qty OrdType.Limit ts).1.cancel id).1.levels p).order_cnt =
        (b.levels p).order_cnt ∧
      (((b.add id s px qty OrdType.Limit ts).1.cancel id).1.levels p).total_qty =
        (b.levels p).total_qty := by
  rcases add_shape b id s px qty OrdType.Limit ts with
    ⟨_, he⟩ | ⟨_, _, he⟩ | ⟨_, _, _, he⟩ | ⟨_, _, _, hty, he⟩ |
    ⟨_, hq5, _, _, hr5, he⟩ | ⟨_, _, _, _, _, _, he⟩ |
    ⟨_, _, _, _, _, _, _, he⟩ | ⟨mm, hfresh, hq, hpx, _, hrem, hroom, hins, he⟩
  · rw [he] at hok
    exact AddResult.noConfusion hok
  · rw [he] at hok
    exact AddResult.noConfusion hok
  · rw [he] at hok
    exact AddResult.noConfusion hok
  · rcases hty with h | h
    · exact OrdType.noConfusion h
    · exact OrdType.noConfusion h
  · exfalso
    rw [addMatched_noncross qty hncb hncs] at hr5
    have hr5b : qty ≤ 0 := hr5
    omega
  · rw [he] at hok
    exact AddResult.noConfusion hok
  · rw [he] at hok
    exact AddResult.noConfusion hok
  · have hmeq := addMatched_noncross qty hncb hncs
    rw [hmeq] at he hins hroom
    have he2 : b.add id s px qty OrdType.Limit ts =
        (restBook b ⟨id, px, qty, qty, s, OrdType.Limit, ts⟩ mm,
         AddResult.Ok) := he
    have hins2 : insert_map b.order_map b.maxOrders id = some mm := hins
    have hroom2 : b.pool_used < b.maxOrders := hroom
    have hpx0 : (0 : Int) ≤ px := by omega
    have hpxP : px ≤ b.maxPrice := by omega
    have hstore0 : b.store id = none := by
      cases hsb : b.store id with
      | none => rfl
      | some ox =>
        obtain ⟨i, hi, hTi⟩ := hI.live_map id (by rw [hsb]; rfl)
        have hl := lookupPos_finds hI.hM hI.map_chain hI.map_inj hi hTi
        rw [hfresh] at hl
        exact Option.noConfusion hl
    obtain ⟨j1, j2, j3, j4, j5, j6, j7, j8, j9, j10, j11, j12, j13, j14⟩ :=
      rest_spec (o := ⟨id, px, qty, qty, s, OrdType.Limit, ts⟩) hI hstore0
        hpx0 hpxP hq (le_refl _) hroom2 (fun hs2 => hncb hs2)
        (fun hs2 => hncs hs2) hins2
    rw [he2]
    have hnotin : ∀ q : Int, id ∉ (b.levels q).orders := by
      intro q hin
      obtain ⟨ox, hox, _⟩ := hI.level_store q id hin
      rw [hstore0] at hox
      exact Option.noConfusion hox
    cases s with
    | Buy =>
      have hB2store : (restBook b ⟨id, px, qty, qty, Side.Buy, OrdType.Limit,
          ts⟩ mm).store id =
          some ⟨id, px, qty, qty, Side.Buy, OrdType.Limit, ts⟩ := by
        rw [j6]
        show sset b.store id
          (some ⟨id, px, qty, qty, Side.Buy, OrdType.Limit, ts⟩) id = _
        rw [sset_eq]
      obtain ⟨i2, hi2, hTi2⟩ := j1.live_map id (by rw [hB2store]; rfl)
      have hfind := lookupPos_finds j1.hM j1.map_chain j1.map_inj hi2 hTi2
      have hB2store2 : (restBook b ⟨id, px, qty, qty, Side.Buy,
          OrdType.Limit, ts⟩ mm).store
          (⟨id, px, qty, qty, Side.Buy, OrdType.Limit, ts⟩ : Order).id =
          some ⟨id, px, qty, qty, Side.Buy, OrdType.Limit, ts⟩ := hB2store
      obtain ⟨hIr, hpoolr, htotr, hlevr, hstr⟩ :=
        remove_from_book_spec j1.toInvCore hB2store2
      have hlevpx : (((restBook b ⟨id, px, qty, qty, Side.Buy, OrdType.Limit,
          ts⟩ mm).remove_from_book
            ⟨id, px, qty, qty, Side.Buy, OrdType.Limit, ts⟩).levels px) =
          b.levels px := by
        have hb2l : (restBook b ⟨id, px, qty, qty, Side.Buy, OrdType.Limit,
            ts⟩ mm).levels px = (b.levels px).push_back
              ⟨id, px, qty, qty, Side.Buy, OrdType.Limit, ts⟩ := by
          rw [j8]
          exact lset_eq _ _ _
        show (lset (restBook b ⟨id, px, qty, qty, Side.Buy, OrdType.Limit,
          ts⟩ mm).levels px
          (((restBook b ⟨id, px, qty, qty, Side.Buy, OrdType.Limit,
            ts⟩ mm).levels px).removeOrd
            ⟨id, px, qty, qty, Side.Buy, OrdType.Limit, ts⟩)) px = b.levels px
        rw [lset_eq, hb2l]
        refine PriceLevel.ext ?_ ?_ ?_
        · show ((b.levels px).orders ++ [id]).erase id = (b.levels px).orders
          rw [List.erase_append_right _ (hnotin px), List.erase_cons_head,
            List.append_nil]
        · show (b.levels px).order_cnt + 1 - 1 = (b.levels px).order_cnt
          omega
        · show (b.levels px).total_qty + qty - qty = (b.levels px).total_qty
          omega
      have hremlev : ∀ p : Int, (((restBook b ⟨id, px, qty, qty, Side.Buy,
          OrdType.Limit, ts⟩ mm).remove_from_book
            ⟨id, px, qty, qty, Side.Buy, OrdType.Limit, ts⟩).levels p) =
          b.levels p := by
        intro p
        by_cases hp : p = px
        · rw [hp]
          exact hlevpx
        · have hp2 : p ≠ (⟨id, px, qty, qty, Side.Buy, OrdType.Limit,
              ts⟩ : Order).price := hp
          rw [hlevr p hp2, j8]
          exact lset_ne _ _ hp2
      have htot2 : ((restBook b ⟨id, px, qty, qty, Side.Buy, OrdType.Limit,
          ts⟩ mm).remove_from_book
            ⟨id, px, qty, qty, Side.Buy, OrdType.Limit, ts⟩).total_orders =
          b.total_orders := by
        have h5 : (restBook b ⟨id, px, qty, qty, Side.Buy, OrdType.Limit,
            ts⟩ mm).total_orders = b.total_orders + 1 := j5
        omega
      have hpool2 : ((restBook b ⟨id, px, qty, qty, Side.Buy, OrdType.Limit,
          ts⟩ mm).remove_from_book
            ⟨id, px, qty, qty, Side.Buy, OrdType.Limit, ts⟩).pool_used =
          b.pool_used := by
        have h4 : (restBook b ⟨id, px, qty, qty, Side.Buy, OrdType.Limit,
            ts⟩ mm).pool_used = b.pool_used + 1 := j4
        omega
      have haeq : (restBook b ⟨id, px, qty, qty, Side.Buy, OrdType.Limit,
          ts⟩ mm).best_ask = b.best_ask := j11 rfl
      have hB2r : ((restBook b ⟨id, px, qty, qty, Side.Buy, OrdType.Limit,
          ts⟩ mm).remove_from_book
            ⟨id, px, qty, qty, Side.Buy, OrdType.Limit, ts⟩).best_bid =
          (restBook b ⟨id, px, qty, qty, Side.Buy, OrdType.Limit,
            ts⟩ mm).best_bid := rfl
      have hpxa : px < b.best_ask := hncb rfl
      have hlevempty : ∀ q : Int, b.best_bid < q → q ≤ px →
          (b.levels q).order_cnt = 0 := by
        intro q h1 h2
        have hnil := hI.gap q h1 (by omega)
        have hagg := hI.agg_cnt q
        rw [hnil] at hagg
        rw [hagg]
        rfl
      have hbidne_cnt : 0 ≤ b.best_bid → (b.levels b.best_bid).order_cnt ≠ 0 := by
        intro h0 hc0
        have hne := hI.bid_ne h0
        have hagg := hI.agg_cnt b.best_bid
        rw [hc0] at hagg
        cases hx : (b.levels b.best_bid).orders with
        | nil => exact hne hx
        | cons a t =>
          rw [hx] at hagg
          simp at hagg
      by_cases hpb : px = ((restBook b ⟨id, px, qty, qty, Side.Buy,
          OrdType.Limit, ts⟩ mm).remove_from_book
            ⟨id, px, qty, qty, Side.Buy, OrdType.Limit, ts⟩).best_bid
      · have heqc : (restBook b ⟨id, px, qty, qty, Side.Buy, OrdType.Limit,
            ts⟩ mm).cancel id =
            (((restBook b ⟨id, px, qty, qty, Side.Buy, OrdType.Limit,
              ts⟩ mm).remove_from_book
                ⟨id, px, qty, qty, Side.Buy, OrdType.Limit,
                  ts⟩).update_best_bid, true) := by
          have heqc0 : (restBook b ⟨id, px, qty, qty, Side.Buy, OrdType.Limit,
              ts⟩ mm).cancel id =
              (if px = ((restBook b ⟨id, px, qty, qty, Side.Buy, OrdType.Limit,
                  ts⟩ mm).remove_from_book
                    ⟨id, px, qty, qty, Side.Buy, OrdType.Limit, ts⟩).best_bid
               then ((restBook b ⟨id, px, qty, qty, Side.Buy, OrdType.Limit,
                  ts⟩ mm).remove_from_book
                    ⟨id, px, qty, qty, Side.Buy, OrdType.Limit,
                      ts⟩).update_best_bid
               else (restBook b ⟨id, px, qty, qty, Side.Buy, OrdType.Limit,
                  ts⟩ mm).remove_from_book
                    ⟨id, px, qty, qty, Side.Buy, OrdType.Limit, ts⟩,
               true) := by
            unfold Book.cancel
            simp only [hfind, hTi2, Option.some_bind, hB2store]
          rw [heqc0, if_pos hpb]
        rw [heqc]
        obtain ⟨u1, u2, u3, u4⟩ := update_best_bid_spec _ hIr.bid_lb
        have hrb : ((restBook b ⟨id, px, qty, qty, Side.Buy, OrdType.Limit,
            ts⟩ mm).remove_from_book
              ⟨id, px, qty, qty, Side.Buy, OrdType.Limit, ts⟩).best_bid =
            px := hpb.symm
        have hbb_le : b.best_bid ≤ px := by
          have h9 : b.best_bid ≤ (restBook b ⟨id, px, qty, qty, Side.Buy,
              OrdType.Limit, ts⟩ mm).best_bid := j9
          omega
        have hub : ((restBook b ⟨id, px, qty, qty, Side.Buy, OrdType.Limit,
            ts⟩ mm).remove_from_book
              ⟨id, px, qty, qty, Side.Buy, OrdType.Limit,
                ts⟩).update_best_bid.best_bid = b.best_bid := by
          rcases lt_trichotomy (((restBook b ⟨id, px, qty, qty, Side.Buy,
              OrdType.Limit, ts⟩ mm).remove_from_book
                ⟨id, px, qty, qty, Side.Buy, OrdType.Limit,
                  ts⟩).update_best_bid.best_bid) b.best_bid with hlt | heq2 | hgt
          · exfalso
            have h0 : (0 : Int) ≤ b.best_bid := by omega
            have hc0 := u3 b.best_bid hlt (by omega)
            rw [hremlev b.best_bid] at hc0
            exact hbidne_cnt h0 hc0
          · exact heq2
          · exfalso
            have hle : ((restBook b ⟨id, px, qty, qty, Side.Buy, OrdType.Limit,
                ts⟩ mm).remove_from_book
                  ⟨id, px, qty, qty, Side.Buy, OrdType.Limit,
                    ts⟩).update_best_bid.best_bid ≤ px := by omega
            have h0 : (0 : Int) ≤ ((restBook b ⟨id, px, qty, qty, Side.Buy,
                OrdType.Limit, ts⟩ mm).remove_from_book
                  ⟨id, px, qty, qty, Side.Buy, OrdType.Limit,
                    ts⟩).update_best_bid.best_bid := by
              have := hI.bid_lb
              omega
            have hne4 := u4 h0
            rw [hremlev _] at hne4
            exact hne4 (hlevempty _ hgt hle)
        refine ⟨rfl, htot2, hpool2, hub, haeq, ?_⟩
        intro p
        constructor
        · show (((restBook b ⟨id, px, qty, qty, Side.Buy, OrdType.Limit,
            ts⟩ mm).remove_from_book
              ⟨id, px, qty, qty, Side.Buy, OrdType.Limit,
                ts⟩).levels p).order_cnt = _
          rw [hremlev p]
        · show (((restBook b ⟨id, px, qty, qty, Side.Buy, OrdType.Limit,
            ts⟩ mm).remove_from_book
              ⟨id, px, qty, qty, Side.Buy, OrdType.Limit,
                ts⟩).levels p).total_qty = _
          rw [hremlev p]
      · have heqc : (restBook b ⟨id, px, qty, qty, Side.Buy, OrdType.Limit,
            ts⟩ mm).cancel id =
            ((restBook b ⟨id, px, qty, qty, Side.Buy, OrdType.Limit,
              ts⟩ mm).remove_from_book
                ⟨id, px, qty, qty, Side.Buy, OrdType.Limit, ts⟩, true) := by
          have heqc0 : (restBook b ⟨id, px, qty, qty, Side.Buy, OrdType.Limit,
              ts⟩ mm).cancel id =
              (if px = ((restBook b ⟨id, px, qty, qty, Side.Buy, OrdType.Limit,
                  ts⟩ mm).remove_from_book
                    ⟨id, px, qty, qty, Side.Buy, OrdType.Limit, ts⟩).best_bid
               then ((restBook b ⟨id, px, qty, qty, Side.Buy, OrdType.Limit,
                  ts⟩ mm).remove_from_book
                    ⟨id, px, qty, qty, Side.Buy, OrdType.Limit,
                      ts⟩).update_best_bid
               else (restBook b ⟨id, px, qty, qty, Side.Buy, OrdType.Limit,
                  ts⟩ mm).remove_from_book
                    ⟨id, px, qty, qty, Side.Buy, OrdType.Limit, ts⟩,
               true) := by
            unfold Book.cancel
            simp only [hfind, hTi2, Option.some_bind, hB2store]
          rw [heqc0, if_neg hpb]
        rw [heqc]
        have hbbeq : ((restBook b ⟨id, px, qty, qty, Side.Buy, OrdType.Limit,
            ts⟩ mm).remove_from_book
              ⟨id, px, qty, qty, Side.Buy, OrdType.Limit, ts⟩).best_bid =
            b.best_bid := by
          rcases j13 with h | h
          · exact h
          · exfalso
            exact hpb h.symm
        refine ⟨rfl, htot2, hpool2, hbbeq, haeq, ?_⟩
        intro p
        exact ⟨by rw [hremlev p], by rw [hremlev p]⟩
    | Sell =>
      have hB2store : (restBook b ⟨id, px, qty, qty, Side.Sell, OrdType.Limit,
          ts⟩ mm).store id =
          some ⟨id, px, qty, qty, Side.Sell, OrdType.Limit, ts⟩ := by
        rw [j6]
        show sset b.store id
          (some ⟨id, px, qty, qty, Side.Sell, OrdType.Limit, ts⟩) id = _
        rw [sset_eq]
      obtain ⟨i2, hi2, hTi2⟩ := j1.live_map id (by rw [hB2store]; rfl)
      have hfind := lookupPos_finds j1.hM j1.map_chain j1.map_inj hi2 hTi2
      have hB2store2 : (restBook b ⟨id, px, qty, qty, Side.Sell,
          OrdType.Limit, ts⟩ mm).store
          (⟨id, px, qty, qty, Side.Sell, OrdType.Limit, ts⟩ : Order).id =
          some ⟨id, px, qty, qty, Side.Sell, OrdType.Limit, ts⟩ := hB2store
      obtain ⟨hIr, hpoolr, htotr, hlevr, hstr⟩ :=
        remove_from_book_spec j1.toInvCore hB2store2
      have hlevpx : (((restBook b ⟨id, px, qty, qty, Side.Sell, OrdType.Limit,
          ts⟩ mm).remove_from_book
            ⟨id, px, qty, qty, Side.Sell, OrdType.Limit, ts⟩).levels px) =
          b.levels px := by
        have hb2l : (restBook b ⟨id, px, qty, qty, Side.Sell, OrdType.Limit,
            ts⟩ mm).levels px = (b.levels px).push_back
              ⟨id, px, qty, qty, Side.Sell, OrdType.Limit, ts⟩ := by
          rw [j8]
          exact lset_eq _ _ _
        show (lset (restBook b ⟨id, px, qty, qty, Side.Sell, OrdType.Limit,
          ts⟩ mm).levels px
          (((restBook b ⟨id, px, qty, qty, Side.Sell, OrdType.Limit,
            ts⟩ mm).levels px).removeOrd
            ⟨id, px, qty, qty, Side.Sell, OrdType.Limit, ts⟩)) px = b.levels px
        rw [lset_eq, hb2l]
        refine PriceLevel.ext ?_ ?_ ?_
        · show ((b.levels px).orders ++ [id]).erase id = (b.levels px).orders
          rw [List.erase_append_right _ (hnotin px), List.erase_cons_head,
            List.append_nil]
        · show (b.levels px).order_cnt + 1 - 1 = (b.levels px).order_cnt
          omega
        · show (b.levels px).total_qty + qty - qty = (b.levels px).total_qty
          omega
      have hremlev : ∀ p : Int, (((restBook b ⟨id, px, qty, qty, Side.Sell,
          OrdType.Limit, ts⟩ mm).remove_from_book
            ⟨id, px, qty, qty, Side.Sell, OrdType.Limit, ts⟩).levels p) =
          b.levels p := by
        intro p
        by_cases hp : p = px
        · rw [hp]
          exact hlevpx
        · have hp2 : p ≠ (⟨id, px, qty, qty, Side.Sell, OrdType.Limit,
              ts⟩ : Order).price := hp
          rw [hlevr p hp2, j8]
          exact lset_ne _ _ hp2
      have htot2 : ((restBook b ⟨id, px, qty, qty, Side.Sell, OrdType.Limit,
          ts⟩ mm).remove_from_book
            ⟨id, px, qty, qty, Side.Sell, OrdType.Limit, ts⟩).total_orders =
          b.total_orders := by
        have h5 : (restBook b ⟨id, px, qty, qty, Side.Sell, OrdType.Limit,
            ts⟩ mm).total_orders = b.total_orders + 1 := j5
        omega
      have hpool2 : ((restBook b ⟨id, px, qty, qty, Side.Sell, OrdType.Limit,
          ts⟩ mm).remove_from_book
            ⟨id, px, qty, qty, Side.Sell, OrdType.Limit, ts⟩).pool_used =
          b.pool_used := by
        have h4 : (restBook b ⟨id, px, qty, qty, Side.Sell, OrdType.Limit,
            ts⟩ mm).pool_used = b.pool_used + 1 := j4
        omega
      have hbeq : (restBook b ⟨id, px, qty, qty, Side.Sell, OrdType.Limit,
          ts⟩ mm).best_bid = b.best_bid := j12 rfl
      have hmaxeq : (restBook b ⟨id, px, qty, qty, Side.Sell, OrdType.Limit,
          ts⟩ mm).maxPrice = b.maxPrice := j2
      have hpxa : b.best_bid < px := hncs rfl
      have hlevempty : ∀ q : Int, px ≤ q → q < b.best_ask →
          (b.levels q).order_cnt = 0 := by
        intro q h1 h2
        have hnil := hI.gap q (by omega) h2
        have hagg := hI.agg_cnt q
        rw [hnil] at hagg
        rw [hagg]
        rfl
      have haskne_cnt : b.best_ask ≤ b.maxPrice →
          (b.levels b.best_ask).order_cnt ≠ 0 := by
        intro h0 hc0
        have hne := hI.ask_ne h0
        have hagg := hI.agg_cnt b.best_ask
        rw [hc0] at hagg
        cases hx : (b.levels b.best_ask).orders with
        | nil => exact hne hx
        | cons a t =>
          rw [hx] at hagg
          simp at hagg
      by_cases hpa : px = ((restBook b ⟨id, px, qty, qty, Side.Sell,
          OrdType.Limit, ts⟩ mm).remove_from_book
            ⟨id, px, qty, qty, Side.Sell, OrdType.Limit, ts⟩).best_ask
      · have heqc : (restBook b ⟨id, px, qty, qty, Side.Sell, OrdType.Limit,
            ts⟩ mm).cancel id =
            (((restBook b ⟨id, px, qty, qty, Side.Sell, OrdType.Limit,
              ts⟩ mm).remove_from_book
                ⟨id, px, qty, qty, Side.Sell, OrdType.Limit,
                  ts⟩).update_best_ask, true) := by
          have heqc0 : (restBook b ⟨id, px, qty, qty, Side.Sell, OrdType.Limit,
              ts⟩ mm).cancel id =
              (if px = ((restBook b ⟨id, px, qty, qty, Side.Sell, OrdType.Limit,
                  ts⟩ mm).remove_from_book
                    ⟨id, px, qty, qty, Side.Sell, OrdType.Limit, ts⟩).best_ask
               then ((restBook b ⟨id, px, qty, qty, Side.Sell, OrdType.Limit,
                  ts⟩ mm).remove_from_book
                    ⟨id, px, qty, qty, Side.Sell, OrdType.Limit,
                      ts⟩).update_best_ask
               else (restBook b ⟨id, px, qty, qty, Side.Sell, OrdType.Limit,
                  ts⟩ mm).remove_from_book
                    ⟨id, px, qty, qty, Side.Sell, OrdType.Limit, ts⟩,
               true) := by
            unfold Book.cancel
            simp only [hfind, hTi2, Option.some_bind, hB2store]
          rw [heqc0, if_pos hpa]
        rw [heqc]
        obtain ⟨u1, u2, u3, u4⟩ := update_best_ask_spec _ hIr.ask_ub
        have hrb : ((restBook b ⟨id, px, qty, qty, Side.Sell, OrdType.Limit,
            ts⟩ mm).remove_from_book
              ⟨id, px, qty, qty, Side.Sell, OrdType.Limit, ts⟩).best_ask =
            px := hpa.symm
        have hbb_ge : px ≤ b.best_ask := by
          have h10 : (restBook b ⟨id, px, qty, qty, Side.Sell,
              OrdType.Limit, ts⟩ mm).best_ask ≤ b.best_ask := j10
          have hB2r : ((restBook b ⟨id, px, qty, qty, Side.Sell, OrdType.Limit,
              ts⟩ mm).remove_from_book
                ⟨id, px, qty, qty, Side.Sell, OrdType.Limit, ts⟩).best_ask =
              (restBook b ⟨id, px, qty, qty, Side.Sell, OrdType.Limit,
                ts⟩ mm).best_ask := rfl
          omega
        have hmaxr : ((restBook b ⟨id, px, qty, qty, Side.Sell, OrdType.Limit,
            ts⟩ mm).remove_from_book
              ⟨id, px, qty, qty, Side.Sell, OrdType.Limit, ts⟩).maxPrice =
            b.maxPrice := hmaxeq
        have hub : ((restBook b ⟨id, px, qty, qty, Side.Sell, OrdType.Limit,
            ts⟩ mm).remove_from_book
              ⟨id, px, qty, qty, Side.Sell, OrdType.Limit,
                ts⟩).update_best_ask.best_ask = b.best_ask := by
          rcases lt_trichotomy (((restBook b ⟨id, px, qty, qty, Side.Sell,
              OrdType.Limit, ts⟩ mm).remove_from_book
                ⟨id, px, qty, qty, Side.Sell, OrdType.Limit,
                  ts⟩).update_best_ask.best_ask) b.best_ask with hlt | heq2 | hgt
          · exfalso
            have hge : px ≤ ((restBook b ⟨id, px, qty, qty, Side.Sell,
                OrdType.Limit, ts⟩ mm).remove_from_book
                  ⟨id, px, qty, qty, Side.Sell, OrdType.Limit,
                    ts⟩).update_best_ask.best_ask := by omega
            have h0 : ((restBook b ⟨id, px, qty, qty, Side.Sell,
                OrdType.Limit, ts⟩ mm).remove_from_book
                  ⟨id, px, qty, qty, Side.Sell, OrdType.Limit,
                    ts⟩).update_best_ask.best_ask ≤
                ((restBook b ⟨id, px, qty, qty, Side.Sell, OrdType.Limit,
                  ts⟩ mm).remove_from_book
                    ⟨id, px, qty, qty, Side.Sell, OrdType.Limit,
                      ts⟩).maxPrice := by
              have hub2 := hI.ask_ub
              omega
            have hne4 := u4 h0
            rw [hremlev _] at hne4
            exact hne4 (hlevempty _ hge hlt)
          · exact heq2
          · exfalso
            have h0 : b.best_ask ≤ b.maxPrice := by
              have := u2
              omega
            have hc0 := u3 b.best_ask (by omega) hgt
            rw [hremlev b.best_ask] at hc0
            exact haskne_cnt h0 hc0
        refine ⟨rfl, htot2, hpool2, hbeq, hub, ?_⟩
        intro p
        constructor
        · show (((restBook b ⟨id, px, qty, qty, Side.Sell, OrdType.Limit,
            ts⟩ mm).remove_from_book
              ⟨id, px, qty, qty, Side.Sell, OrdType.Limit,
                ts⟩).levels p).order_cnt = _
          rw [hremlev p]
        · show (((restBook b ⟨id, px, qty, qty, Side.Sell, OrdType.Limit,
            ts⟩ mm).remove_from_book
              ⟨id, px, qty, qty, Side.Sell, OrdType.Limit,
                ts⟩).levels p).total_qty = _
          rw [hremlev p]
      · have heqc : (restBook b ⟨id, px, qty, qty, Side.Sell, OrdType.Limit,
            ts⟩ mm).cancel id =
            ((restBook b ⟨id, px, qty, qty, Side.Sell, OrdType.Limit,
              ts⟩ mm).remove_from_book
                ⟨id, px, qty, qty, Side.Sell, OrdType.Limit, ts⟩, true) := by
          have heqc0 : (restBook b ⟨id, px, qty, qty, Side.Sell, OrdType.Limit,
              ts⟩ mm).cancel id =
              (if px = ((restBook b ⟨id, px, qty, qty, Side.Sell, OrdType.Limit,
                  ts⟩ mm).remove_from_book
                    ⟨id, px, qty, qty, Side.Sell, OrdType.Limit, ts⟩).best_ask
               then ((restBook b ⟨id, px, qty, qty, Side.Sell, OrdType.Limit,
                  ts⟩ mm).remove_from_book
                    ⟨id, px, qty, qty, Side.Sell, OrdType.Limit,
                      ts⟩).update_best_ask
               else (restBook b ⟨id, px, qty, qty, Side.Sell, OrdType.Limit,
                  ts⟩ mm).remove_from_book
                    ⟨id, px, qty, qty, Side.Sell, OrdType.Limit, ts⟩,
               true) := by
            unfold Book.cancel
            simp only [hfind, hTi2, Option.some_bind, hB2store]
          rw [heqc0, if_neg hpa]
        rw [heqc]
        have haeq2 : ((restBook b ⟨id, px, qty, qty, Side.Sell, OrdType.Limit,
            ts⟩ mm).remove_from_book
              ⟨id, px, qty, qty, Side.Sell, OrdType.Limit, ts⟩).best_ask =
            b.best_ask := by
          rcases j14 with h | h
          · exact h
          · exfalso
            exact hpa h.symm
        refine ⟨rfl, htot2, hpool2, hbeq, haeq2, ?_⟩
        intro p
        exact ⟨by rw [hremlev p], by rw [hremlev p]⟩

/-- C9 witness: on `rtBook` (one resting sell at 10), a non-crossing buy
`add(2, Buy, 5, 3)` followed by `cancel(2)` restores counts, bests and all
level aggregates. -/
theorem claim_C9_witness :
    Inv rtBook ∧ ((5 : Int) < rtBook.best_ask) ∧
    (rtBook.add 2 Side.Buy 5 3 OrdType.Limit 0).2 = AddResult.Ok ∧
    (((rtBook.add 2 Side.Buy 5 3 OrdType.Limit 0).1.cancel 2).2 = true ∧
      ((rtBook.add 2 Side.Buy 5 3 OrdType.Limit 0).1.cancel 2).1.total_orders =
        rtBook.total_orders ∧
      ((rtBook.add 2 Side.Buy 5 3 OrdType.Limit 0).1.cancel 2).1.pool_used =
        rtBook.pool_used ∧
      ((rtBook.add 2 Side.Buy 5 3 OrdType.Limit 0).1.cancel 2).1.best_bid =
        rtBook.best_bid ∧
      ((rtBook.add 2 Side.Buy 5 3 OrdType.Limit 0).1.cancel 2).1.best_ask =
        rtBook.best_ask ∧
      ∀ p : Int,
        ((((rtBook.add 2 Side.Buy 5 3 OrdType.Limit 0).1.cancel 2).1.levels
            p).order_cnt = (rtBook.levels p).order_cnt ∧
          (((rtBook.add 2 Side.Buy 5 3 OrdType.Limit 0).1.cancel
            2).1.levels p).total_qty = (rtBook.levels p).total_qty)) := by
  have hr : Reachable rtBook :=
    Reachable.add _ 1 Side.Sell 10 5 OrdType.Limit 0
      (Reachable.init 100 50 (by decide) (by decide))
  have hI := inv_reachable hr
  exact ⟨hI, by decide, by decide,
    claim_C9 rtBook 2 Side.Buy 5 3 0 hI (fun _ => by decide)
      (fun h => Side.noConfusion h) (by decide)⟩

end NOB
